import Mathlib

/-!
# Governance proposal keeper (`x/gov/keeper/proposal.go`)

A shallow embedding of the proposal keeper: the key-value store of the module,
the proposal record, the admission checks of `SubmitProposal`, the status
transition of `ActivateVotingPeriod` and `DeleteProposal`.

Conventions

* `uint64` values are `Nat`, reduced modulo `2^64` where the source does
  arithmetic on them.
* `time.Time` is an `Int` (nanoseconds), `time.Duration` an `Int`, and
  `Time.Add` is integer addition.
* The store of the module is a finite map from typed keys to typed values.  The
  constructors of `Key` stand for the key builders of the module
  (`types.ProposalKey` and friends), which are injective and prefix-disjoint.
* A Go panic is the `panic` constructor of `Outcome`; it carries the context as
  it was when the panic was raised.
* The encoded form of a proposal is a value of an arbitrary type `B`; the codec
  is a field of the keeper.
* The keeper operations return the context after the call next to their result,
  so that what a call that returns an error did to the store can be stated.
* The library functions `v1.NewProposal`, `sdk.NewCoins` and `Coins.IsAllGTE`
  are modelled from their documentation.
* A Go `int` has 64 bits.  The page number and the limit of a query are values
  of that type, and the positions `client.Paginate` computes from them wrap
  around modulo `2^64` (`wrapInt`).
-/

namespace Gov

/-! ## Basic types -/

/-- Block time, `time.Time`, in nanoseconds. -/
abbrev Time := Int

/-- A `time.Duration`, in nanoseconds. -/
abbrev Duration := Int

/-- The Go method `Time.Add`. -/
def Time.Add (t : Time) (d : Duration) : Time := t + d

/-- An account address, `sdk.AccAddress`. -/
abbrev AccAddress := String

/-- Number of values of a `uint64`. -/
def uint64Size : Nat := 2 ^ 64

/-- Registered errors of the module (`types.Err...`), and `unregistered` for an
error that has no registered root. -/
inductive ErrCode where
  | ErrMetadataTooLong
  | ErrInvalidProposalMsg
  | ErrInvalidSigner
  | ErrUnroutableProposalMsg
  | ErrInvalidProposalContent
  | ErrNoProposalHandlerExists
  | ErrInvalidGenesis
  | ErrPackAny
  | unregistered
  deriving DecidableEq, Repr

/-- An error value: the registered error at the root of its chain and its
rendered text (`err.Error()`). -/
structure Error where
  code : ErrCode
  text : String
  deriving DecidableEq, Repr

/-- The description a registered error was registered with. -/
def ErrCode.description : ErrCode → String
  | ErrCode.ErrMetadataTooLong => "metadata too long"
  | ErrCode.ErrInvalidProposalMsg => "invalid proposal message"
  | ErrCode.ErrInvalidSigner => "expected gov account as only signer for proposal message"
  | ErrCode.ErrUnroutableProposalMsg => "proposal message not recognized by router"
  | ErrCode.ErrInvalidProposalContent => "invalid proposal content"
  | ErrCode.ErrNoProposalHandlerExists => "no handler exists for proposal type"
  | ErrCode.ErrInvalidGenesis => "invalid genesis state"
  | ErrCode.ErrPackAny => "failed packing protobuf message to Any"
  | ErrCode.unregistered => ""

/-- A registered error used bare, as in `return types.ErrInvalidSigner`. -/
def ErrCode.toError (c : ErrCode) : Error := { code := c, text := c.description }

/-- The library call `errors.Wrap(base, description)`: same root, the
description put in front of the text. -/
def Error.Wrap (base : ErrCode) (description : String) : Error :=
  { code := base, text := description ++ ": " ++ base.description }

/-- The check `goerrors.Is(types.ErrNoProposalHandlerExists, err)`: the root of
`err` is the no-handler error. -/
def Error.isNoProposalHandler (err : Error) : Bool :=
  err.code = ErrCode.ErrNoProposalHandlerExists

/-- A message of a proposal, `sdk.Msg`, given by what the keeper observes of
it. -/
structure Msg where
  /-- The result of `sdk.MsgTypeURL(msg)`. -/
  TypeURL : String
  /-- The result of `msg.ValidateBasic()`: `none` is `nil`. -/
  ValidateBasic : Option Error
  /-- The result of `msg.GetSigners()`. -/
  GetSigners : List AccAddress
  /-- Whether the message is a `*v1.MsgExecLegacyContent`. -/
  isExecLegacyContent : Bool
  /-- Whether the message packs into an `Any` (`sdktx.SetMsgs`). -/
  packs : Bool
  deriving DecidableEq, Repr

/-- The status of a proposal, `v1.ProposalStatus`. -/
inductive ProposalStatus where
  | StatusNil
  | StatusDepositPeriod
  | StatusVotingPeriod
  | StatusPassed
  | StatusRejected
  | StatusFailed
  deriving DecidableEq, Repr

/-- A coin, `sdk.Coin`. -/
structure Coin where
  Denom : String
  Amount : Int
  deriving DecidableEq, Repr

/-- The tally of a proposal, `v1.TallyResult`. -/
structure TallyResult where
  YesCount : String
  AbstainCount : String
  NoCount : String
  NoWithVetoCount : String
  deriving DecidableEq, Repr

/-- The library value `v1.EmptyTallyResult()`. -/
def EmptyTallyResult : TallyResult :=
  { YesCount := "0", AbstainCount := "0", NoCount := "0", NoWithVetoCount := "0" }

/-- The proposal record, `v1.Proposal`.  A pointer field is an `Option`. -/
structure Proposal where
  Id : Nat
  Messages : List Msg
  Status : ProposalStatus
  FinalTallyResult : Option TallyResult
  SubmitTime : Option Time
  DepositEndTime : Option Time
  TotalDeposit : List Coin
  VotingStartTime : Option Time
  VotingEndTime : Option Time
  Metadata : String
  Title : String
  Summary : String
  Proposer : String
  deriving DecidableEq, Repr

/-- The library constructor `v1.NewProposal`: it fails when a message does not
pack, and otherwise builds a record in the deposit period. -/
def NewProposal (messages : List Msg) (id : Nat) (submitTime depositEndTime : Time)
    (metadata title summary : String) (proposer : AccAddress) : Except Error Proposal :=
  if messages.all (fun m => m.packs) then
    Except.ok
      { Id := id, Messages := messages, Metadata := metadata,
        Status := ProposalStatus.StatusDepositPeriod,
        FinalTallyResult := some EmptyTallyResult,
        SubmitTime := some submitTime, DepositEndTime := some depositEndTime,
        TotalDeposit := [], VotingStartTime := none, VotingEndTime := none,
        Title := title, Summary := summary, Proposer := proposer }
  else
    Except.error ErrCode.ErrPackAny.toError

/-! ## Coins (`sdk.Coins`) -/

/-- The library check `sdk.ValidateDenom` with the default pattern
`[a-zA-Z][a-zA-Z0-9/:._-]{2,127}`. -/
def ValidateDenom (denom : String) : Bool :=
  match denom.toList with
  | [] => false
  | c :: cs =>
    c.isAlpha && decide (2 ≤ cs.length) && decide (cs.length ≤ 127) &&
      cs.all (fun ch => ch.isAlphanum || ch = '/' || ch = ':' || ch = '.' || ch = '_' || ch = '-')

/-- Denominations strictly increasing along the list. -/
def strictlySorted : List Coin → Bool
  | [] => true
  | [_] => true
  | a :: b :: rest => decide (a.Denom < b.Denom) && strictlySorted (b :: rest)

/-- The library check `Coins.Validate`: valid denominations, positive amounts,
denominations strictly increasing. -/
def Coins.Validate (coins : List Coin) : Bool :=
  coins.all (fun c => ValidateDenom c.Denom && decide (0 < c.Amount)) && strictlySorted coins

/-- Insertion of a coin in a list ordered by denomination. -/
def insertByDenom (c : Coin) : List Coin → List Coin
  | [] => [c]
  | d :: rest => if c.Denom ≤ d.Denom then c :: d :: rest else d :: insertByDenom c rest

/-- The library method `Coins.Sort`: the coins in the order of their
denominations. -/
def Coins.Sort (coins : List Coin) : List Coin :=
  coins.foldr insertByDenom []

/-- The library constructor `sdk.NewCoins`: zero coins removed, the rest sorted
by denomination; `none` is the panic on an invalid set. -/
def NewCoins (coins : List Coin) : Option (List Coin) :=
  let newCoins := Coins.Sort (coins.filter (fun c => decide (c.Amount ≠ 0)))
  if Coins.Validate newCoins then some newCoins else none

/-- The library method `Coins.AmountOfNoDenomValidation`: the amount of the coin
of that denomination, zero when there is none (the library finds the coin by a
binary search in the sorted set). -/
def Coins.AmountOfNoDenomValidation (coins : List Coin) (denom : String) : Int :=
  match coins.find? (fun c => decide (c.Denom = denom)) with
  | some c => c.Amount
  | none => 0

/-- The library method `Coins.AmountOf`: `none` is the panic on an invalid
denomination. -/
def Coins.AmountOf (coins : List Coin) (denom : String) : Option Int :=
  if ValidateDenom denom then some (Coins.AmountOfNoDenomValidation coins denom) else none

/-- The loop of `Coins.IsAllGTE` over the coins of `coinsB`. -/
def Coins.isAllGTELoop (coins : List Coin) : List Coin → Option Bool
  | [] => some true
  | coinB :: rest =>
    match Coins.AmountOf coins coinB.Denom with
    | none => none
    | some amt => if amt < coinB.Amount then some false else Coins.isAllGTELoop coins rest

/-- The library method `Coins.IsAllGTE`; `none` is a panic. -/
def Coins.IsAllGTE (coins coinsB : List Coin) : Option Bool :=
  if coinsB.length = 0 then some true
  else if coins.length = 0 then some false
  else Coins.isAllGTELoop coins coinsB

/-! ## Store, context and keeper -/

/-- The keys of the module store. -/
inductive Key where
  | ProposalKey (proposalID : Nat)
  | VotingPeriodProposalKey (proposalID : Nat)
  | ProposalIDKey
  | InactiveProposalQueueKey (proposalID : Nat) (endTime : Time)
  | ActiveProposalQueueKey (proposalID : Nat) (endTime : Time)
  | EmergencyProposalQueueKey (proposalID : Nat)
  deriving DecidableEq, Repr

/-- The values of the module store: an encoded proposal, the one-byte marker
`[]byte{1}`, and the eight bytes of a proposal id (`GetProposalIDBytes`). -/
inductive Val (B : Type) where
  | encoded (bz : B)
  | marker
  | idBytes (proposalID : Nat)
  deriving DecidableEq, Repr

/-- The key-value store of the module, `ctx.KVStore(keeper.storeKey)`. -/
abbrev KVStore (B : Type) := List (Key × Val B)

/-- The store method `Get`; `none` is `nil`. -/
def KVStore.Get {B : Type} (store : KVStore B) (key : Key) : Option (Val B) :=
  match store with
  | [] => none
  | (k, v) :: rest => if k = key then some v else KVStore.Get rest key

/-- The store method `Delete`. -/
def KVStore.Delete {B : Type} (store : KVStore B) (key : Key) : KVStore B :=
  store.filter (fun kv => decide (kv.1 ≠ key))

/-- The store method `Set`. -/
def KVStore.Set {B : Type} (store : KVStore B) (key : Key) (value : Val B) : KVStore B :=
  (key, value) :: KVStore.Delete store key

/-- The store method `Has`. -/
def KVStore.Has {B : Type} (store : KVStore B) (key : Key) : Bool :=
  (KVStore.Get store key).isSome

/-- The parameters read by `keeper.GetParams(ctx)`. -/
structure Params where
  MaxDepositPeriod : Duration
  VotingPeriod : Duration
  EmergencyMinDeposit : List Coin
  deriving DecidableEq, Repr

/-- An event, `sdk.Event`. -/
structure Event where
  Ty : String
  Attributes : List (String × String)
  deriving DecidableEq, Repr

/-- The part of `sdk.Context` the keeper works on: the block time, the store of
the module, the stored parameters and the events emitted so far. -/
structure Context (B : Type) where
  BlockTime : Time
  store : KVStore B
  params : Params
  events : List Event
  deriving DecidableEq, Repr

/-- The result of a call that may panic. -/
inductive Outcome (σ : Type) (α : Type) where
  | ok (s : σ) (a : α)
  | panic (s : σ) (msg : String)
  deriving DecidableEq, Repr

/-- The codec of the keeper, `keeper.cdc`; `none` is an error. -/
structure Codec (B : Type) where
  Marshal : Proposal → Option B
  Unmarshal : B → Option Proposal

/-- A message handler returned by the router: it runs on the context it is
given and returns the context it produced and its error, if any. -/
abbrev Handler (B : Type) := Context B → Msg → Context B × Option Error

/-- The keeper: its codec, its router, the address of the governance account
(`keeper.GetGovernanceAccount(ctx).GetAddress()`), the configured maximum
length and the hook `AfterProposalSubmission`. -/
structure Keeper (B : Type) where
  cdc : Codec B
  router : Msg → Option (Handler B)
  govAddr : AccAddress
  MaxMetadataLen : Nat
  AfterProposalSubmission : Context B → Nat → Context B

variable {B : Type}

/-! ## Queues

The queue helpers of the keeper are not part of `proposal.go`.  Its callers use
them as statements that return nothing, and `DeleteProposal` calls the removal
on an entry that may be absent; they are modelled as a write and a delete of the
key of the entry. -/

/-- Modelled from the spec: `InsertInactiveProposalQueue` is missing from the
sources; it is the `insert(time, id)` of the Inactive Queue, an entry keyed by
the deadline and the id. -/
def InsertInactiveProposalQueue (ctx : Context B) (proposalID : Nat) (endTime : Time) :
    Context B :=
  { ctx with
    store := ctx.store.Set (Key.InactiveProposalQueueKey proposalID endTime) (Val.idBytes proposalID) }

/-- Modelled from the spec: `RemoveFromInactiveProposalQueue` is missing from
the sources; it is the `remove(time, id)` of the Inactive Queue, which removes
exactly the entry of that deadline and id and is no-op-safe for the caller. -/
def RemoveFromInactiveProposalQueue (ctx : Context B) (proposalID : Nat) (endTime : Time) :
    Context B :=
  { ctx with store := ctx.store.Delete (Key.InactiveProposalQueueKey proposalID endTime) }

/-- Modelled from the spec: `InsertActiveProposalQueue` is missing from the
sources; it is the `insert(time, id)` of the Active Queue. -/
def InsertActiveProposalQueue (ctx : Context B) (proposalID : Nat) (endTime : Time) :
    Context B :=
  { ctx with
    store := ctx.store.Set (Key.ActiveProposalQueueKey proposalID endTime) (Val.idBytes proposalID) }

/-- Modelled from the spec: `RemoveFromActiveProposalQueue` is missing from the
sources; it is the `remove(time, id)` of the Active Queue, which removes exactly
the entry of that deadline and id and is no-op-safe for the caller. -/
def RemoveFromActiveProposalQueue (ctx : Context B) (proposalID : Nat) (endTime : Time) :
    Context B :=
  { ctx with store := ctx.store.Delete (Key.ActiveProposalQueueKey proposalID endTime) }

/-- Modelled from the spec: `InsertEmergencyProposalQueue` is missing from the
sources; it adds the id to the Emergency Set, a membership set of ids. -/
def InsertEmergencyProposalQueue (ctx : Context B) (proposalID : Nat) : Context B :=
  { ctx with
    store := ctx.store.Set (Key.EmergencyProposalQueueKey proposalID) (Val.idBytes proposalID) }

/-- Whether the Inactive Queue holds an entry for the id, under any deadline. -/
def inInactiveQueue (store : KVStore B) (proposalID : Nat) : Bool :=
  store.any (fun kv =>
    match kv.1 with
    | Key.InactiveProposalQueueKey i _ => decide (i = proposalID)
    | _ => false)

/-- Whether the Active Queue holds an entry for the id, under any deadline. -/
def inActiveQueue (store : KVStore B) (proposalID : Nat) : Bool :=
  store.any (fun kv =>
    match kv.1 with
    | Key.ActiveProposalQueueKey i _ => decide (i = proposalID)
    | _ => false)

/-- Whether the id is a member of the Emergency Set. -/
def inEmergencyQueue (store : KVStore B) (proposalID : Nat) : Bool :=
  store.Has (Key.EmergencyProposalQueueKey proposalID)

/-- Whether the voting-period marker of the id is set. -/
def hasVotingMarker (store : KVStore B) (proposalID : Nat) : Bool :=
  store.Has (Key.VotingPeriodProposalKey proposalID)

/-! ## The keeper operations of `proposal.go` -/

/-- Modelled from the spec: `assertMetadataLength` is missing from the sources;
a text field longer than the configured maximum is rejected with
`MetadataTooLong`. -/
def assertMetadataLength (keeper : Keeper B) (metadata : String) : Option Error :=
  if keeper.MaxMetadataLen < metadata.utf8ByteSize then
    some (Error.Wrap ErrCode.ErrMetadataTooLong "got metadata with length above the maximum")
  else none

/-- The method `Keeper.GetProposal`: the outer result is a panic of
`MustUnmarshalProposal`, the inner one is the pair `(proposal, found)`. -/
def GetProposal (keeper : Keeper B) (ctx : Context B) (proposalID : Nat) :
    Except String (Option Proposal) :=
  match ctx.store.Get (Key.ProposalKey proposalID) with
  | none => Except.ok none
  | some (Val.encoded bz) =>
    match keeper.cdc.Unmarshal bz with
    | some proposal => Except.ok (some proposal)
    | none => Except.error "unmarshal"
  | some _ => Except.error "unmarshal"

/-- The method `Keeper.SetProposal`. -/
def SetProposal (keeper : Keeper B) (ctx : Context B) (proposal : Proposal) :
    Outcome (Context B) Unit :=
  let ctx1 : Context B :=
    if proposal.Status = ProposalStatus.StatusVotingPeriod then
      { ctx with store := ctx.store.Set (Key.VotingPeriodProposalKey proposal.Id) Val.marker }
    else
      { ctx with store := ctx.store.Delete (Key.VotingPeriodProposalKey proposal.Id) }
  match keeper.cdc.Marshal proposal with
  | none => Outcome.panic ctx1 "marshal"
  | some bz =>
    Outcome.ok { ctx1 with store := ctx1.store.Set (Key.ProposalKey proposal.Id) (Val.encoded bz) } ()

/-- The method `Keeper.DeleteProposal`. -/
def DeleteProposal (keeper : Keeper B) (ctx : Context B) (proposalID : Nat) :
    Outcome (Context B) Unit :=
  match GetProposal keeper ctx proposalID with
  | Except.error msg => Outcome.panic ctx msg
  | Except.ok none =>
    Outcome.panic ctx ("couldn't find proposal with id#" ++ toString proposalID)
  | Except.ok (some proposal) =>
    let ctx1 :=
      match proposal.DepositEndTime with
      | some t => RemoveFromInactiveProposalQueue ctx proposalID t
      | none => ctx
    let ctx2 :=
      match proposal.VotingEndTime with
      | some t =>
        let c := RemoveFromActiveProposalQueue ctx1 proposalID t
        { c with store := c.store.Delete (Key.VotingPeriodProposalKey proposalID) }
      | none => ctx1
    Outcome.ok { ctx2 with store := ctx2.store.Delete (Key.ProposalKey proposalID) } ()

/-- The method `Keeper.GetProposalID`: the inner result is the pair
`(proposalID, err)`, the outer one is the panic of `GetProposalIDFromBytes` on a
value that is not the eight bytes of an id. -/
def GetProposalID (ctx : Context B) : Except String (Except Error Nat) :=
  match ctx.store.Get Key.ProposalIDKey with
  | none =>
    Except.ok (Except.error
      (Error.Wrap ErrCode.ErrInvalidGenesis "initial proposal ID hasn't been set"))
  | some (Val.idBytes n) => Except.ok (Except.ok n)
  | some _ => Except.error "proposal id bytes"

/-- The method `Keeper.SetProposalID`. -/
def SetProposalID (ctx : Context B) (proposalID : Nat) : Context B :=
  { ctx with store := ctx.store.Set Key.ProposalIDKey (Val.idBytes proposalID) }

/-- The body of the loop of `SubmitProposal` for one message: `none` when the
message passes, the error returned otherwise.  The handler of a legacy content
message runs on the cached context, whose writes are dropped. -/
def checkMsg (keeper : Keeper B) (ctx : Context B) (msg : Msg) : Option Error :=
  match msg.ValidateBasic with
  | some err => some (Error.Wrap ErrCode.ErrInvalidProposalMsg err.text)
  | none =>
    match msg.GetSigners with
    | [signer] =>
      if signer ≠ keeper.govAddr then
        some (Error.Wrap ErrCode.ErrInvalidSigner signer)
      else
        match keeper.router msg with
        | none => some (Error.Wrap ErrCode.ErrUnroutableProposalMsg msg.TypeURL)
        | some handler =>
          if msg.isExecLegacyContent then
            match (handler ctx msg).2 with
            | some err =>
              if err.isNoProposalHandler then some err
              else some (Error.Wrap ErrCode.ErrInvalidProposalContent err.text)
            | none => none
          else none
    | _ => some ErrCode.ErrInvalidSigner.toError

/-- The declared signers of the message are not the governance account alone:
there is none, there is more than one, or the only one differs from it. -/
def Msg.badSigner (msg : Msg) (keeper : Keeper B) : Prop :=
  msg.GetSigners.length = 0 ∨ 1 < msg.GetSigners.length ∨
    ∃ s, msg.GetSigners = [s] ∧ s ≠ keeper.govAddr

/-- The loop of `SubmitProposal` over the messages: the first error met. -/
def checkMsgs (keeper : Keeper B) (ctx : Context B) : List Msg → Option Error
  | [] => none
  | msg :: rest =>
    match checkMsg keeper ctx msg with
    | some err => some err
    | none => checkMsgs keeper ctx rest

/-- The event emitted by `SubmitProposal`. -/
def submitProposalEvent (proposalID : Nat) (msgs : List String) : Event :=
  { Ty := "submit_proposal",
    Attributes := [("proposal_id", toString proposalID),
                   ("proposal_messages", String.intercalate "," msgs)] }

/-- The method `Keeper.SubmitProposal`.  The context returned is the context
after the call, also when the call returns an error. -/
def SubmitProposal (keeper : Keeper B) (ctx : Context B) (messages : List Msg)
    (metadata title summary : String) (proposer : AccAddress) :
    Outcome (Context B) (Except Error Proposal) :=
  match assertMetadataLength keeper metadata with
  | some err => Outcome.ok ctx (Except.error err)
  | none =>
  match assertMetadataLength keeper summary with
  | some err => Outcome.ok ctx (Except.error err)
  | none =>
  match assertMetadataLength keeper title with
  | some err => Outcome.ok ctx (Except.error err)
  | none =>
  match checkMsgs keeper ctx messages with
  | some err => Outcome.ok ctx (Except.error err)
  | none =>
  match GetProposalID ctx with
  | Except.error msg => Outcome.panic ctx msg
  | Except.ok (Except.error err) => Outcome.ok ctx (Except.error err)
  | Except.ok (Except.ok proposalID) =>
    let submitTime := ctx.BlockTime
    let depositPeriod := ctx.params.MaxDepositPeriod
    match NewProposal messages proposalID submitTime (Time.Add submitTime depositPeriod)
        metadata title summary proposer with
    | Except.error err => Outcome.ok ctx (Except.error err)
    | Except.ok proposal =>
      match SetProposal keeper ctx proposal with
      | Outcome.panic c msg => Outcome.panic c msg
      | Outcome.ok ctx1 _ =>
        match proposal.DepositEndTime with
        | none => Outcome.panic ctx1 "nil pointer dereference"
        | some depositEndTime =>
          let ctx2 := InsertInactiveProposalQueue ctx1 proposalID depositEndTime
          let ctx3 := SetProposalID ctx2 ((proposalID + 1) % uint64Size)
          let ctx4 := keeper.AfterProposalSubmission ctx3 proposalID
          let ctx5 : Context B :=
            { ctx4 with events := ctx4.events ++
                [submitProposalEvent proposalID (messages.map (fun m => m.TypeURL))] }
          Outcome.ok ctx5 (Except.ok proposal)

/-- The event emitted by `ActivateVotingPeriod` for an emergency proposal. -/
def emergencyProposalEvent (proposalID : Nat) : Event :=
  { Ty := "emergency_proposal", Attributes := [("proposal_id", toString proposalID)] }

/-- The method `Keeper.ActivateVotingPeriod`. -/
def ActivateVotingPeriod (keeper : Keeper B) (ctx : Context B) (proposal : Proposal) :
    Outcome (Context B) Unit :=
  let startTime := ctx.BlockTime
  let votingPeriod := ctx.params.VotingPeriod
  let endTime := Time.Add startTime votingPeriod
  let proposal : Proposal :=
    { proposal with
      VotingStartTime := some startTime,
      VotingEndTime := some endTime,
      Status := ProposalStatus.StatusVotingPeriod }
  match SetProposal keeper ctx proposal with
  | Outcome.panic c msg => Outcome.panic c msg
  | Outcome.ok ctx1 _ =>
    match proposal.DepositEndTime with
    | none => Outcome.panic ctx1 "nil pointer dereference"
    | some depositEndTime =>
      let ctx2 := RemoveFromInactiveProposalQueue ctx1 proposal.Id depositEndTime
      let ctx3 := InsertActiveProposalQueue ctx2 proposal.Id endTime
      match NewCoins proposal.TotalDeposit with
      | none => Outcome.panic ctx3 "invalid coin set"
      | some coins =>
        match Coins.IsAllGTE coins ctx3.params.EmergencyMinDeposit with
        | none => Outcome.panic ctx3 "invalid denom"
        | some true =>
          let ctx4 := InsertEmergencyProposalQueue ctx3 proposal.Id
          Outcome.ok { ctx4 with events := ctx4.events ++ [emergencyProposalEvent proposal.Id] } ()
        | some false => Outcome.ok ctx3 ()

/-! ## Runs of keeper operations -/

/-- The codec decodes what it encoded. -/
def Codec.RoundTrip (cdc : Codec B) : Prop :=
  ∀ p bz, cdc.Marshal p = some bz → cdc.Unmarshal bz = some p

/-- The codec encodes every proposal. -/
def Codec.Total (cdc : Codec B) : Prop :=
  ∀ p, ∃ bz, cdc.Marshal p = some bz

/-- The submission hook leaves the store of the module as it is. -/
def Keeper.HookKeepsStore (keeper : Keeper B) : Prop :=
  ∀ ctx proposalID, (keeper.AfterProposalSubmission ctx proposalID).store = ctx.store

/-- A store that holds the seed of the id counter and nothing else. -/
def seededStore (B : Type) (startingProposalID : Nat) : KVStore B :=
  [(Key.ProposalIDKey, Val.idBytes startingProposalID)]

/-- A call of the keeper, with the block time of the call; `activate` is
`ActivateVotingPeriod` applied to the proposal stored under the id, and
`setParams` replaces the stored parameters. -/
inductive Op where
  | submit (now : Time) (messages : List Msg) (metadata title summary : String)
      (proposer : AccAddress)
  | activate (now : Time) (proposalID : Nat)
  | delete (now : Time) (proposalID : Nat)
  | setParams (params : Params)
  deriving DecidableEq, Repr

/-- One call on a context: the context after it and the ids it assigned.  A
call that panics gives `none`.  For an id with `strict` set, `activate` is
refused when the stored proposal is not in the deposit period. -/
def applyOp (keeper : Keeper B) (strict : Nat → Bool) (ctx : Context B) :
    Op → Option (Context B × List Nat)
  | Op.submit now messages metadata title summary proposer =>
    match SubmitProposal keeper { ctx with BlockTime := now } messages metadata title summary
        proposer with
    | Outcome.ok ctx1 (Except.ok proposal) => some (ctx1, [proposal.Id])
    | Outcome.ok ctx1 (Except.error _) => some (ctx1, [])
    | Outcome.panic _ _ => none
  | Op.activate now proposalID =>
    match GetProposal keeper ctx proposalID with
    | Except.ok (some proposal) =>
      if strict proposalID && decide (proposal.Status ≠ ProposalStatus.StatusDepositPeriod) then
        none
      else
        match ActivateVotingPeriod keeper { ctx with BlockTime := now } proposal with
        | Outcome.ok ctx1 _ => some (ctx1, [])
        | Outcome.panic _ _ => none
    | _ => none
  | Op.delete now proposalID =>
    match DeleteProposal keeper { ctx with BlockTime := now } proposalID with
    | Outcome.ok ctx1 _ => some (ctx1, [])
    | Outcome.panic _ _ => none
  | Op.setParams params => some ({ ctx with params := params }, [])

/-- A sequence of calls: the final context and the ids assigned, in order. -/
def runOps (keeper : Keeper B) (strict : Nat → Bool) (ctx : Context B) :
    List Op → Option (Context B × List Nat)
  | [] => some (ctx, [])
  | op :: rest =>
    match applyOp keeper strict ctx op with
    | none => none
    | some (ctx1, ids) =>
      match runOps keeper strict ctx1 rest with
      | none => none
      | some (ctx2, ids2) => some (ctx2, ids ++ ids2)

/-- The status of the record stored under an id, when there is one that
decodes. -/
def storedStatus (keeper : Keeper B) (ctx : Context B) (proposalID : Nat) :
    Option ProposalStatus :=
  match GetProposal keeper ctx proposalID with
  | Except.ok (some proposal) => some proposal.Status
  | _ => none

/-- The amount of a denomination in a list of coins: the sum over the coins of
that denomination. -/
def amountIn (coins : List Coin) (denom : String) : Int :=
  ((coins.filter (fun c => decide (c.Denom = denom))).map (fun c => c.Amount)).sum

/-! ## The stores the operations produce -/

/-- The record `v1.NewProposal` builds. -/
def newRecord (messages : List Msg) (id : Nat) (submitTime depositEndTime : Time)
    (metadata title summary : String) (proposer : AccAddress) : Proposal :=
  { Id := id, Messages := messages, Metadata := metadata,
    Status := ProposalStatus.StatusDepositPeriod,
    FinalTallyResult := some EmptyTallyResult,
    SubmitTime := some submitTime, DepositEndTime := some depositEndTime,
    TotalDeposit := [], VotingStartTime := none, VotingEndTime := none,
    Title := title, Summary := summary, Proposer := proposer }

/-- The store after the marker step of `SetProposal`. -/
def setMarker (store : KVStore B) (p : Proposal) : KVStore B :=
  if p.Status = ProposalStatus.StatusVotingPeriod then
    store.Set (Key.VotingPeriodProposalKey p.Id) Val.marker
  else store.Delete (Key.VotingPeriodProposalKey p.Id)

/-- The store after the three writes of a successful `SubmitProposal`. -/
def submitStore (store : KVStore B) (p : Proposal) (bz : B) (depositEndTime : Time) :
    KVStore B :=
  ((((setMarker store p).Set (Key.ProposalKey p.Id) (Val.encoded bz)).Set
    (Key.InactiveProposalQueueKey p.Id depositEndTime) (Val.idBytes p.Id)).Set
    Key.ProposalIDKey (Val.idBytes ((p.Id + 1) % uint64Size)))

/-- The record `ActivateVotingPeriod` stores for a proposal. -/
def activated (p : Proposal) (now : Time) (votingPeriod : Duration) : Proposal :=
  { p with
    VotingStartTime := some now,
    VotingEndTime := some (Time.Add now votingPeriod),
    Status := ProposalStatus.StatusVotingPeriod }

/-- The emergency test of `ActivateVotingPeriod`; `none` is a panic. -/
def emergencyCheck (p : Proposal) (params : Params) : Option Bool :=
  match NewCoins p.TotalDeposit with
  | none => none
  | some coins => Coins.IsAllGTE coins params.EmergencyMinDeposit

/-- The store after the record and queue writes of `ActivateVotingPeriod`, for
the record `q` it stores, the deposit deadline `d` and the voting deadline. -/
def activateStore (store : KVStore B) (q : Proposal) (bz : B) (d votingEndTime : Time) :
    KVStore B :=
  ((((setMarker store q).Set (Key.ProposalKey q.Id) (Val.encoded bz)).Delete
    (Key.InactiveProposalQueueKey q.Id d)).Set
    (Key.ActiveProposalQueueKey q.Id votingEndTime) (Val.idBytes q.Id))

/-- The context after a call of `ActivateVotingPeriod` that returns, `b` being
the result of the emergency test. -/
def activateCtx (ctx : Context B) (p : Proposal) (bz : B) (d : Time) (b : Bool) : Context B :=
  let q := activated p ctx.BlockTime ctx.params.VotingPeriod
  let store := activateStore ctx.store q bz d (Time.Add ctx.BlockTime ctx.params.VotingPeriod)
  if b then
    { ctx with
      store := store.Set (Key.EmergencyProposalQueueKey p.Id) (Val.idBytes p.Id),
      events := ctx.events ++ [emergencyProposalEvent p.Id] }
  else { ctx with store := store }

/-- The store after a call of `DeleteProposal` that found the record `p`. -/
def deleteStore (store : KVStore B) (proposalID : Nat) (p : Proposal) : KVStore B :=
  let s1 :=
    match p.DepositEndTime with
    | some t => store.Delete (Key.InactiveProposalQueueKey proposalID t)
    | none => store
  let s2 :=
    match p.VotingEndTime with
    | some t =>
      (s1.Delete (Key.ActiveProposalQueueKey proposalID t)).Delete
        (Key.VotingPeriodProposalKey proposalID)
    | none => s1
  s2.Delete (Key.ProposalKey proposalID)

/-! ## Invariants of the store -/

/-- The proposal id a key belongs to; the key of the id counter has none. -/
def Key.proposalID? : Key → Option Nat
  | Key.ProposalKey i => some i
  | Key.VotingPeriodProposalKey i => some i
  | Key.ProposalIDKey => none
  | Key.InactiveProposalQueueKey i _ => some i
  | Key.ActiveProposalQueueKey i _ => some i
  | Key.EmergencyProposalQueueKey i => some i

/-- The record `p` decodes from the value stored under the id. -/
def Stored (keeper : Keeper B) (store : KVStore B) (i : Nat) (p : Proposal) : Prop :=
  ∃ bz, store.Get (Key.ProposalKey i) = some (Val.encoded bz) ∧ keeper.cdc.Unmarshal bz = some p

/-- The queue entries of an id agree with its stored record: an entry of the
Inactive Queue is under the deposit deadline of a record in the deposit period,
an entry of the Active Queue is under the voting deadline of a record in the
voting period, and a record is in one of the two periods with its entry. -/
structure Consistent (keeper : Keeper B) (store : KVStore B) (i : Nat) : Prop where
  inactive : ∀ t v, store.Get (Key.InactiveProposalQueueKey i t) = some v →
    ∃ p, Stored keeper store i p ∧ p.Status = ProposalStatus.StatusDepositPeriod ∧
      p.DepositEndTime = some t
  active : ∀ t v, store.Get (Key.ActiveProposalQueueKey i t) = some v →
    ∃ p, Stored keeper store i p ∧ p.Status = ProposalStatus.StatusVotingPeriod ∧
      p.VotingEndTime = some t
  record : ∀ p, Stored keeper store i p →
    (p.Status = ProposalStatus.StatusDepositPeriod ∧
      ∃ t, p.DepositEndTime = some t ∧
        (store.Get (Key.InactiveProposalQueueKey i t)).isSome = true) ∨
    (p.Status = ProposalStatus.StatusVotingPeriod ∧
      ∃ t, p.VotingEndTime = some t ∧
        (store.Get (Key.ActiveProposalQueueKey i t)).isSome = true)

/-- The invariant of the runs: the counter holds `c`, every key of a proposal
has an id below `c`, a stored record decodes and carries the id of its key, a
voting-period marker belongs to a record with a voting deadline, and the ids
with `strict` set are consistent. -/
structure Inv (keeper : Keeper B) (strict : Nat → Bool) (store : KVStore B) (c : Nat) :
    Prop where
  counter : store.Get Key.ProposalIDKey = some (Val.idBytes c)
  below : ∀ key v i, store.Get key = some v → key.proposalID? = some i → i < c
  records : ∀ i v, store.Get (Key.ProposalKey i) = some v →
    ∃ p, Stored keeper store i p ∧ p.Id = i
  marker : ∀ i v, store.Get (Key.VotingPeriodProposalKey i) = some v →
    ∃ p, Stored keeper store i p ∧ p.VotingEndTime ≠ none
  consistent : ∀ i, strict i = true → Consistent keeper store i

/-! ## Concrete instances used to evaluate the definitions -/

/-- A codec whose encoded form is the record itself. -/
def idCodec : Codec Proposal :=
  { Marshal := fun p => some p, Unmarshal := fun bz => some bz }

/-- A handler that writes the id counter of the context it is given and then
fails. -/
def writingHandler : Handler Proposal :=
  fun ctx _ => (SetProposalID ctx 99, some (Error.Wrap ErrCode.unregistered "content rejected"))

/-- A keeper whose router knows the type URLs `/ok` (a handler that succeeds)
and `/legacy` (the writing handler). -/
def testKeeper : Keeper Proposal :=
  { cdc := idCodec,
    router := fun m =>
      if m.TypeURL = "/ok" then some (fun ctx _ => (ctx, none))
      else if m.TypeURL = "/legacy" then some writingHandler
      else none,
    govAddr := "gov",
    MaxMetadataLen := 10,
    AfterProposalSubmission := fun ctx _ => ctx }

/-- A message that passes every check of the test keeper. -/
def okMsg : Msg :=
  { TypeURL := "/ok", ValidateBasic := none, GetSigners := ["gov"],
    isExecLegacyContent := false, packs := true }

/-- A legacy content message routed to the writing handler. -/
def legacyMsg : Msg :=
  { TypeURL := "/legacy", ValidateBasic := none, GetSigners := ["gov"],
    isExecLegacyContent := true, packs := true }

/-- Parameters with deposit period 100, voting period 1000 and an emergency
minimum of 50 `uinit`. -/
def testParams : Params :=
  { MaxDepositPeriod := 100, VotingPeriod := 1000,
    EmergencyMinDeposit := [{ Denom := "uinit", Amount := 50 }] }

/-- A context at block time `now` over a store seeded with `seed`. -/
def testCtx (seed : Nat) (now : Time) : Context Proposal :=
  { BlockTime := now, store := seededStore Proposal seed, params := testParams, events := [] }

/-- The context is reached from a store that holds the seed of the id counter
and nothing else, by a run of keeper calls in which the counter does not wrap
around. -/
def Reachable (keeper : Keeper B) (strict : Nat → Bool) (ctx : Context B) : Prop :=
  ∃ (seed : Nat) (ctx0 : Context B) (ops : List Op) (ids : List Nat),
    ctx0.store = seededStore B seed ∧ runOps keeper strict ctx0 ops = some (ctx, ids) ∧
      seed + ids.length < uint64Size

/-- The coin sets of an activation are well formed: the total deposit is a set
`sdk.NewCoins` accepts and the denominations of the emergency minimum are
valid, so that the emergency test does not panic. -/
def CoinsWellFormed (p : Proposal) (params : Params) : Prop :=
  (NewCoins p.TotalDeposit).isSome = true ∧
    ∀ c ∈ params.EmergencyMinDeposit, ValidateDenom c.Denom = true

/-- A proposal of the test keeper with id 1 whose total deposit is exactly the
emergency minimum of the test parameters. -/
def fundedProposal : Proposal :=
  { newRecord [okMsg] 1 5 105 "m" "t" "s" "alice" with
    TotalDeposit := [{ Denom := "uinit", Amount := 50 }] }

/-- A run of the test keeper in which the proposal 1 is activated twice, at the
block times 10 and 20, and then deleted. -/
def doubleActivationRun : List Op :=
  [Op.submit 5 [okMsg] "m" "t" "s" "alice", Op.activate 10 1, Op.activate 20 1,
   Op.delete 30 1]

/-- A run of the test keeper in which the proposal 1 is activated once. -/
def singleActivationRun : List Op :=
  [Op.submit 5 [okMsg] "m" "t" "s" "alice", Op.activate 10 1]

/-- The voting times of the record stored under an id. -/
def storedVotingTimes (keeper : Keeper B) (ctx : Context B) (proposalID : Nat) :
    Option (Option Time × Option Time) :=
  match GetProposal keeper ctx proposalID with
  | Except.ok (some proposal) => some (proposal.VotingStartTime, proposal.VotingEndTime)
  | _ => none

/-- The context a call ends with, whether it returned or panicked. -/
def Outcome.state {σ α : Type} : Outcome σ α → σ
  | Outcome.ok s _ => s
  | Outcome.panic s _ => s

/-- The context a run ends in, the starting context when the run is aborted. -/
def finalCtx (keeper : Keeper B) (strict : Nat → Bool) (ctx : Context B) (ops : List Op) :
    Context B :=
  match runOps keeper strict ctx ops with
  | some (ctx', _) => ctx'
  | none => ctx

/-- A run of the test keeper: a submission, the activation of the proposal and
a second submission. -/
def testRun : List Op :=
  [Op.submit 5 [okMsg] "m" "t" "s" "alice", Op.activate 10 7,
   Op.submit 20 [okMsg] "m" "t" "s" "bob"]

/-- The test context after the submission of the proposal 1 and its activation
at block time 10 with a total deposit equal to the emergency minimum. -/
def emergencyActivated : Context Proposal :=
  (ActivateVotingPeriod testKeeper
    { finalCtx testKeeper (fun _ => false) (testCtx 1 5)
        [Op.submit 5 [okMsg] "m" "t" "s" "alice"] with BlockTime := 10 }
    fundedProposal).state

/-- The context after `DeleteProposal` of the proposal 1 in `emergencyActivated`. -/
def emergencyDeleted : Context Proposal :=
  (DeleteProposal testKeeper { emergencyActivated with BlockTime := 30 } 1).state

/-- The single activation run followed by a second activation of the proposal 1,
at block time 20. -/
def reactivationRun : List Op :=
  singleActivationRun ++ [Op.activate 20 1]

/-- A message that fails its basic-validity check, is signed by somebody else
and has no route with the test keeper. -/
def invalidMsg : Msg :=
  { TypeURL := "/unknown",
    ValidateBasic := some (Error.Wrap ErrCode.unregistered "empty field"),
    GetSigners := ["mallory"], isExecLegacyContent := false, packs := true }

/-- A handler that fails with the no-handler error, wrapped once. -/
def noRouteHandler : Handler Proposal :=
  fun ctx _ => (ctx, some (Error.Wrap ErrCode.ErrNoProposalHandlerExists "text"))

/-- The test keeper with a router that sends every message to `noRouteHandler`. -/
def noRouteKeeper : Keeper Proposal :=
  { testKeeper with router := fun _ => some noRouteHandler }

/-- The submission hook leaves the stored parameters as they are. -/
def Keeper.HookKeepsParams (keeper : Keeper B) : Prop :=
  ∀ ctx proposalID, (keeper.AfterProposalSubmission ctx proposalID).params = ctx.params

/-- The voting times of every stored record agree with its status: a record is
in the deposit period without voting times, or in the voting period with both
times set and the start not after the end. -/
def TimesOK (keeper : Keeper B) (store : KVStore B) : Prop :=
  ∀ i p, Stored keeper store i p →
    (p.Status = ProposalStatus.StatusDepositPeriod ∧
      p.VotingStartTime = none ∧ p.VotingEndTime = none) ∨
    (p.Status = ProposalStatus.StatusVotingPeriod ∧
      ∃ s e, p.VotingStartTime = some s ∧ p.VotingEndTime = some e ∧ s ≤ e)

/-! ## Iteration and listing -/

/-- Insertion of an id in a strictly ascending list of ids; an id that is in the
list already is not inserted again. -/
def insertID (i : Nat) : List Nat → List Nat
  | [] => [i]
  | j :: rest =>
    if i < j then i :: j :: rest
    else if i = j then j :: rest
    else j :: insertID i rest

/-- The ids of the keys under `types.ProposalsKeyPrefix`, in the order of the
keys: the key of a proposal is the prefix followed by the id in big-endian
bytes, so the order of the keys is the order of the ids. -/
def proposalIDs (store : KVStore B) : List Nat :=
  store.foldr
    (fun kv acc =>
      match kv.1 with
      | Key.ProposalKey i => insertID i acc
      | _ => acc)
    []

/-- The library iterator `sdk.KVStorePrefixIterator(store, types.ProposalsKeyPrefix)`,
as the list it runs through: the entries of the keys of proposals, each key
once, in ascending order of the keys. -/
def KVStorePrefixIterator (store : KVStore B) : List (Nat × Val B) :=
  (proposalIDs store).filterMap
    (fun i => (store.Get (Key.ProposalKey i)).map (fun v => (i, v)))

/-- The loop of `IterateProposals` over the entries of the iterator.  The
callback is a Go closure: it is given by its effect on the state it captures
and by the flag it returns.  An entry that does not decode is the panic of
`MustUnmarshalProposal`. -/
def iterateLoop {σ : Type} (keeper : Keeper B) (cb : σ → Proposal → σ × Bool) :
    List (Nat × Val B) → σ → Except String σ
  | [], s => Except.ok s
  | (_, v) :: rest, s =>
    match v with
    | Val.encoded bz =>
      match keeper.cdc.Unmarshal bz with
      | some proposal =>
        if (cb s proposal).2 then Except.ok (cb s proposal).1
        else iterateLoop keeper cb rest (cb s proposal).1
      | none => Except.error "unmarshal"
    | _ => Except.error "unmarshal"

/-- The method `Keeper.IterateProposals`: the state of the callback after the
iteration. -/
def IterateProposals {σ : Type} (keeper : Keeper B) (ctx : Context B)
    (cb : σ → Proposal → σ × Bool) (s : σ) : Except String σ :=
  iterateLoop keeper cb (KVStorePrefixIterator ctx.store) s

/-- The method `Keeper.GetProposals`. -/
def GetProposals (keeper : Keeper B) (ctx : Context B) : Except String (List Proposal) :=
  IterateProposals keeper ctx (fun proposals proposal => (proposals ++ [proposal], false)) []

/-- The query parameters `v1.QueryProposalsParams`; `Page` and `Limit` are of
type `int`. -/
structure QueryProposalsParams where
  Page : Int
  Limit : Int
  Voter : AccAddress
  Depositor : AccAddress
  ProposalStatus : ProposalStatus
  deriving DecidableEq, Repr

/-- The library check `v1.ValidProposalStatus`. -/
def ValidProposalStatus (status : ProposalStatus) : Bool :=
  match status with
  | ProposalStatus.StatusDepositPeriod => true
  | ProposalStatus.StatusVotingPeriod => true
  | ProposalStatus.StatusPassed => true
  | ProposalStatus.StatusRejected => true
  | ProposalStatus.StatusFailed => true
  | ProposalStatus.StatusNil => false

/-- The value of type `int` that an arithmetic result of Go wraps around to:
the type has 64 bits in two's complement, so the result is reduced modulo `2^64`
into the range from `-2^63` up to, and without, `2^63`. -/
def wrapInt (x : Int) : Int :=
  (x + 9223372036854775808) % 18446744073709551616 - 9223372036854775808

/-- The library function `client.Paginate`: the start and the end of the page,
or `(-1, -1)` for a page that is not positive or is out of bounds.  The
arguments are values of type `int`; the product and the sum wrap around as the
arithmetic of Go does. -/
def Paginate (numObjs page limit defLimit : Int) : Int × Int :=
  if page ≤ 0 then (-1, -1)
  else if limit ≤ 0 ∧ defLimit < 0 then (-1, -1)
  else
    let limit := if limit ≤ 0 then defLimit else limit
    let start := wrapInt ((page - 1) * limit)
    let stop := wrapInt (limit + start)
    let stop := if stop ≥ numObjs then numObjs else stop
    if start ≥ numObjs then (-1, -1) else (start, stop)

/-- The slice expression `s[start:end]` of Go; `none` is the panic on bounds out
of range (an end between the length and the capacity does not occur with the
result of `client.Paginate`, whose end is at most the length). -/
def sliceRange {α : Type} (l : List α) (start stop : Int) : Option (List α) :=
  if 0 ≤ start ∧ start ≤ stop ∧ stop ≤ l.length then
    some ((l.drop start.toNat).take (stop - start).toNat)
  else none

/-- The vote and deposit lookups `keeper.GetVote` and `keeper.GetDeposit`, which
are not part of `proposal.go`: each tells whether a vote, or a deposit, of the
account on the proposal is found. -/
structure Lookups (B : Type) where
  GetVote : Context B → Nat → AccAddress → Bool
  GetDeposit : Context B → Nat → AccAddress → Bool

/-- The body of the loop of `GetProposalsFiltered`: whether the proposal is
kept. -/
def matchesFilters (lookups : Lookups B) (ctx : Context B) (params : QueryProposalsParams)
    (p : Proposal) : Bool :=
  let matchStatus :=
    if ValidProposalStatus params.ProposalStatus then decide (p.Status = params.ProposalStatus)
    else true
  let matchVoter :=
    if params.Voter ≠ "" then lookups.GetVote ctx p.Id params.Voter else true
  let matchDepositor :=
    if params.Depositor ≠ "" then lookups.GetDeposit ctx p.Id params.Depositor else true
  matchVoter && matchDepositor && matchStatus

/-- The end of `GetProposalsFiltered`: the empty list when the start or the end
of the page is negative, the slice from the start to the end otherwise. -/
def slicePage {α : Type} (filteredProposals : List α) (start stop : Int) :
    Except String (List α) :=
  if start < 0 ∨ stop < 0 then Except.ok []
  else
    match sliceRange filteredProposals start stop with
    | some l => Except.ok l
    | none => Except.error "slice bounds out of range"

/-- The method `Keeper.GetProposalsFiltered`. -/
def GetProposalsFiltered (keeper : Keeper B) (lookups : Lookups B) (ctx : Context B)
    (params : QueryProposalsParams) : Except String (List Proposal) :=
  match GetProposals keeper ctx with
  | Except.error msg => Except.error msg
  | Except.ok proposals =>
    let filteredProposals := proposals.filter (matchesFilters lookups ctx params)
    let page := Paginate filteredProposals.length params.Page params.Limit 100
    slicePage filteredProposals page.1 page.2

/-- Every value stored under the key of a proposal decodes to a record that
carries the id of the key. -/
def RecordsWellStored (keeper : Keeper B) (store : KVStore B) : Prop :=
  ∀ i v, store.Get (Key.ProposalKey i) = some v → ∃ p, Stored keeper store i p ∧ p.Id = i

/-- The list of all stored proposals in the order of their keys. -/
def storedProposals (keeper : Keeper B) (ctx : Context B) : List Proposal :=
  (proposalIDs ctx.store).filterMap
    (fun i =>
      match GetProposal keeper ctx i with
      | Except.ok (some p) => some p
      | _ => none)

/-- A callback run over a list of proposals in order, up to and including the
first proposal on which it returns `true`: the state it ends with. -/
def visit {σ : Type} (cb : σ → Proposal → σ × Bool) : List Proposal → σ → σ
  | [], s => s
  | p :: rest, s => if (cb s p).2 then (cb s p).1 else visit cb rest (cb s p).1

/-- The prefix of a list up to and including the first element on which `stop`
is `true`, the whole list when there is none. -/
def prefixThrough {α : Type} (stop : α → Bool) : List α → List α
  | [] => []
  | a :: rest => if stop a then [a] else a :: prefixThrough stop rest

/-- The filters of a query as the claim words them: the status equals the
status asked for when that one is valid, a vote of the voter exists when a voter
is given, a deposit of the depositor exists when a depositor is given. -/
def MatchesQuery (lookups : Lookups B) (ctx : Context B) (params : QueryProposalsParams)
    (p : Proposal) : Prop :=
  (ValidProposalStatus params.ProposalStatus = true → p.Status = params.ProposalStatus) ∧
  (params.Voter ≠ "" → lookups.GetVote ctx p.Id params.Voter = true) ∧
  (params.Depositor ≠ "" → lookups.GetDeposit ctx p.Id params.Depositor = true)

/-- The page of a list: empty for a page number that is not positive, otherwise
the elements at the positions from `(page - 1) * limit` up to, and without,
`page * limit`, with the limit 100 when the limit given is not positive. -/
def pageOf {α : Type} (l : List α) (page limit : Int) : List α :=
  if page ≤ 0 then []
  else
    let lim := if limit ≤ 0 then 100 else limit
    (l.drop ((page - 1) * lim).toNat).take lim.toNat

/-- Lookups that find no vote, and a deposit of `alice` on every proposal. -/
def testLookups : Lookups Proposal :=
  { GetVote := fun _ _ _ => false,
    GetDeposit := fun _ _ depositor => decide (depositor = "alice") }

/-- The query for the first page, with the default limit, of the proposals in
the voting period. -/
def votingQuery : QueryProposalsParams :=
  { Page := 1, Limit := 0, Voter := "", Depositor := "",
    ProposalStatus := ProposalStatus.StatusVotingPeriod }

/-- The query for the page `2^62 + 1` with the limit 4 and no filter: the start
position of the page, `2^62 * 4`, is `2^64`. -/
def overflowQuery : QueryProposalsParams :=
  { Page := 4611686018427387905, Limit := 4, Voter := "", Depositor := "",
    ProposalStatus := ProposalStatus.StatusNil }

/-- The test context, with the counter at 1 and no record, after
`ActivateVotingPeriod` at block time 10 of a proposal value with id 1 whose
total deposit is the emergency minimum. -/
def activatedUnsubmitted : Context Proposal :=
  (ActivateVotingPeriod testKeeper (testCtx 1 10) fundedProposal).state

/-- The context after the submission at block time 20 in `activatedUnsubmitted`. -/
def submittedAfterActivation : Context Proposal :=
  (SubmitProposal testKeeper { activatedUnsubmitted with BlockTime := 20 }
    [okMsg] "m" "t" "s" "bob").state

/-! ## Runs with direct writes of records -/

/-- A call of the keeper, with the block time of the call: `SetProposal` and
`ActivateVotingPeriod` are given the proposal they are called with. -/
inductive KeeperCall where
  | setProposal (now : Time) (proposal : Proposal)
  | submit (now : Time) (messages : List Msg) (metadata title summary : String)
      (proposer : AccAddress)
  | activate (now : Time) (proposal : Proposal)
  | delete (now : Time) (proposalID : Nat)
  | setParams (params : Params)
  deriving DecidableEq, Repr

/-- One call on a context: the context after it; a call that panics gives
`none`. -/
def applyCall (keeper : Keeper B) (ctx : Context B) : KeeperCall → Option (Context B)
  | KeeperCall.setProposal now proposal =>
    match SetProposal keeper { ctx with BlockTime := now } proposal with
    | Outcome.ok ctx1 _ => some ctx1
    | Outcome.panic _ _ => none
  | KeeperCall.submit now messages metadata title summary proposer =>
    match SubmitProposal keeper { ctx with BlockTime := now } messages metadata title summary
        proposer with
    | Outcome.ok ctx1 _ => some ctx1
    | Outcome.panic _ _ => none
  | KeeperCall.activate now proposal =>
    match ActivateVotingPeriod keeper { ctx with BlockTime := now } proposal with
    | Outcome.ok ctx1 _ => some ctx1
    | Outcome.panic _ _ => none
  | KeeperCall.delete now proposalID =>
    match DeleteProposal keeper { ctx with BlockTime := now } proposalID with
    | Outcome.ok ctx1 _ => some ctx1
    | Outcome.panic _ _ => none
  | KeeperCall.setParams params => some { ctx with params := params }

/-- A sequence of calls: the final context. -/
def runCalls (keeper : Keeper B) (ctx : Context B) : List KeeperCall → Option (Context B)
  | [] => some ctx
  | call :: rest =>
    match applyCall keeper ctx call with
    | none => none
    | some ctx1 => runCalls keeper ctx1 rest

/-- A call of `SetProposal` is given a proposal that has a voting deadline when
its status is `VotingPeriod`; the other calls are not restricted. -/
def KeeperCall.votingDeadlineSet : KeeperCall → Prop
  | KeeperCall.setProposal _ proposal =>
    proposal.Status = ProposalStatus.StatusVotingPeriod → proposal.VotingEndTime ≠ none
  | _ => True

/-- The markers agree with the records: a value under the key of a proposal
decodes to a record that carries the id of the key, a stored record in the
voting period has a voting deadline, and the voting-period marker of an id is
set exactly when a record in the voting period is stored under the id. -/
structure MarkerInv (keeper : Keeper B) (store : KVStore B) : Prop where
  records : RecordsWellStored keeper store
  deadline : ∀ i p, Stored keeper store i p →
    p.Status = ProposalStatus.StatusVotingPeriod → p.VotingEndTime ≠ none
  marker : ∀ i, (store.Get (Key.VotingPeriodProposalKey i)).isSome = true ↔
    ∃ p, Stored keeper store i p ∧ p.Status = ProposalStatus.StatusVotingPeriod

/-- A record in the voting period that has no voting deadline. -/
def votingWithoutDeadline : Proposal :=
  { newRecord [okMsg] 1 5 105 "m" "t" "s" "alice" with
    Status := ProposalStatus.StatusVotingPeriod }

/-- The test context over an empty store. -/
def emptyCtx : Context Proposal :=
  { testCtx 1 5 with store := [] }

/-- The context after `SetProposal` of `votingWithoutDeadline` on the empty
store and `DeleteProposal` of its id. -/
def markerLeftCtx : Context Proposal :=
  match runCalls testKeeper emptyCtx
      [KeeperCall.setProposal 5 votingWithoutDeadline, KeeperCall.delete 6 1] with
  | some ctx => ctx
  | none => emptyCtx

/-- The context a sequence of calls ends in, the starting context when a call
panics. -/
def finalOfCalls (keeper : Keeper B) (ctx : Context B) (calls : List KeeperCall) : Context B :=
  match runCalls keeper ctx calls with
  | some ctx' => ctx'
  | none => ctx

/-- Calls of the test keeper: a submission (id 1), the activation of the
submitted proposal, a direct write of a second record in the deposit period
(id 2), and the deletion of that record. -/
def testCalls : List KeeperCall :=
  [KeeperCall.submit 5 [okMsg] "m" "t" "s" "alice",
   KeeperCall.activate 10 (newRecord [okMsg] 1 5 105 "m" "t" "s" "alice"),
   KeeperCall.setProposal 11 (newRecord [okMsg] 2 11 111 "m" "t" "s" "bob"),
   KeeperCall.delete 12 2]

/-- The call may write or delete the record stored under the id `i`: it is
`SetProposal` or `ActivateVotingPeriod` given a proposal with that id,
`DeleteProposal` of the id, or `SubmitProposal` while the counter holds the
id. -/
def KeeperCall.writesRecord (ctx : Context B) (i : Nat) : KeeperCall → Prop
  | KeeperCall.setProposal _ proposal => proposal.Id = i
  | KeeperCall.submit _ _ _ _ _ _ => GetProposalID ctx = Except.ok (Except.ok i)
  | KeeperCall.activate _ proposal => proposal.Id = i
  | KeeperCall.delete _ proposalID => proposalID = i
  | KeeperCall.setParams _ => False

/-! ## Store lemmas -/

theorem KVStore.Get_Delete (store : KVStore B) (key key' : Key) :
    (store.Delete key).Get key' = if key' = key then none else store.Get key' := by
  induction store with
  | nil => simp [KVStore.Delete, KVStore.Get]
  | cons kv rest ih =>
    obtain ⟨k, v⟩ := kv
    unfold KVStore.Delete at ih ⊢
    by_cases hk : k = key
    · subst hk
      simp only [List.filter, ne_eq, not_true_eq_false, decide_False]
      rw [ih]
      by_cases h2 : key' = k
      · simp [h2]
      · have h3 : ¬ k = key' := fun h => h2 h.symm
        simp [h2, h3, KVStore.Get]
    · have : decide ((k, v).1 ≠ key) = true := by simp [hk]
      simp only [List.filter, this]
      by_cases h2 : key' = key
      · subst h2
        simp [KVStore.Get, hk] at ih ⊢
        exact ih
      · simp only [KVStore.Get, h2, if_false] at ih ⊢
        rw [ih]

theorem KVStore.Get_Set (store : KVStore B) (key key' : Key) (value : Val B) :
    (store.Set key value).Get key' = if key' = key then some value else store.Get key' := by
  unfold KVStore.Set
  by_cases h : key' = key
  · simp [KVStore.Get, h]
  · have h3 : ¬ key = key' := fun h' => h h'.symm
    simp only [KVStore.Get, h, h3, if_false]
    rw [KVStore.Get_Delete]
    simp [h]

/-! ## Admission -/

theorem SubmitProposal_error_context (keeper : Keeper B) (ctx ctx' : Context B)
    (messages : List Msg) (metadata title summary : String) (proposer : AccAddress)
    (err : Error)
    (h : SubmitProposal keeper ctx messages metadata title summary proposer
      = Outcome.ok ctx' (Except.error err)) : ctx' = ctx := by
  unfold SubmitProposal at h
  split at h
  · cases h; rfl
  split at h
  · cases h; rfl
  split at h
  · cases h; rfl
  split at h
  · cases h; rfl
  split at h
  · cases h
  · cases h; rfl
  simp only at h
  split at h
  · cases h; rfl
  split at h
  · cases h
  split at h
  · cases h
  · cases h

theorem checkMsg_badSigner (keeper : Keeper B) (ctx : Context B) (msg : Msg)
    (hbad : msg.badSigner keeper) :
    ∃ err, checkMsg keeper ctx msg = some err ∧
      (msg.ValidateBasic = none → err.code = ErrCode.ErrInvalidSigner) := by
  unfold checkMsg
  cases hv : msg.ValidateBasic with
  | some e => exact ⟨_, rfl, fun h => by cases h⟩
  | none =>
    simp only
    rcases hsig : msg.GetSigners with _ | ⟨s, _ | ⟨s2, rest⟩⟩
    · exact ⟨_, rfl, fun _ => rfl⟩
    · have hs : s ≠ keeper.govAddr := by
        rcases hbad with h | h | ⟨s', h1, h2⟩
        · simp [hsig] at h
        · simp [hsig] at h
        · rw [hsig] at h1
          cases h1
          exact h2
      simp only [hs, ne_eq, not_false_eq_true, if_true]
      exact ⟨_, rfl, fun _ => rfl⟩
    · exact ⟨_, rfl, fun _ => rfl⟩

theorem checkMsgs_append_cons (keeper : Keeper B) (ctx : Context B) (pre post : List Msg)
    (msg : Msg) (hpre : ∀ x ∈ pre, checkMsg keeper ctx x = none) :
    checkMsgs keeper ctx (pre ++ msg :: post) =
      match checkMsg keeper ctx msg with
      | some err => some err
      | none => checkMsgs keeper ctx post := by
  induction pre with
  | nil => simp [checkMsgs]
  | cons x xs ih =>
    have hx := hpre x (List.mem_cons_self _ _)
    simp only [List.cons_append, checkMsgs, hx]
    exact ih (fun y hy => hpre y (List.mem_cons_of_mem _ hy))

theorem checkMsgs_of_mem_fails (keeper : Keeper B) (ctx : Context B) (messages : List Msg)
    (msg : Msg) (hmem : msg ∈ messages) (hfail : checkMsg keeper ctx msg ≠ none) :
    ∃ err, checkMsgs keeper ctx messages = some err := by
  induction messages with
  | nil => cases hmem
  | cons x xs ih =>
    unfold checkMsgs
    cases hx : checkMsg keeper ctx x with
    | some e => exact ⟨e, rfl⟩
    | none =>
      simp only
      rcases List.mem_cons.mp hmem with h | h
      · subst h; exact absurd hx hfail
      · exact ih h

theorem SubmitProposal_of_checkMsgs_error (keeper : Keeper B) (ctx : Context B)
    (messages : List Msg) (metadata title summary : String) (proposer : AccAddress)
    (err : Error) (h : checkMsgs keeper ctx messages = some err) :
    ∃ err', SubmitProposal keeper ctx messages metadata title summary proposer
      = Outcome.ok ctx (Except.error err') ∧
      (assertMetadataLength keeper metadata = none →
        assertMetadataLength keeper summary = none →
        assertMetadataLength keeper title = none → err' = err) := by
  unfold SubmitProposal
  cases h1 : assertMetadataLength keeper metadata with
  | some e => exact ⟨e, rfl, fun h => by cases h⟩
  | none =>
    cases h2 : assertMetadataLength keeper summary with
    | some e => exact ⟨e, rfl, fun _ h => by cases h⟩
    | none =>
      cases h3 : assertMetadataLength keeper title with
      | some e => exact ⟨e, rfl, fun _ _ h => by cases h⟩
      | none =>
        simp only [h]
        exact ⟨err, rfl, fun _ _ _ => rfl⟩

/-- C1: when `SubmitProposal` returns an error, whichever check produced it, the
context after the call is the context before it: the store (proposal records,
queue entries, voting-period markers, id counter), the parameters and the
events are unchanged, also when the handler of a legacy content message wrote
to the context it ran on. -/
theorem SubmitProposal_error_leaves_state (keeper : Keeper B) (ctx ctx' : Context B)
    (messages : List Msg) (metadata title summary : String) (proposer : AccAddress)
    (err : Error)
    (h : SubmitProposal keeper ctx messages metadata title summary proposer
      = Outcome.ok ctx' (Except.error err)) :
    ctx' = ctx ∧ ctx'.store = ctx.store :=
  have hctx := SubmitProposal_error_context keeper ctx ctx' messages metadata title summary
    proposer err h
  ⟨hctx, by rw [hctx]⟩

theorem SubmitProposal_error_leaves_state_witness :
    (writingHandler (testCtx 1 5) legacyMsg).1 ≠ testCtx 1 5 ∧
    SubmitProposal testKeeper (testCtx 1 5) [legacyMsg] "m" "t" "s" "alice"
      = Outcome.ok (testCtx 1 5)
          (Except.error (Error.Wrap ErrCode.ErrInvalidProposalContent
            (Error.Wrap ErrCode.unregistered "content rejected").text)) ∧
    (testCtx 1 5 = testCtx 1 5 ∧ (testCtx 1 5).store = (testCtx 1 5).store) :=
  ⟨by decide, rfl,
    SubmitProposal_error_leaves_state testKeeper (testCtx 1 5) (testCtx 1 5) [legacyMsg]
      "m" "t" "s" "alice"
      (Error.Wrap ErrCode.ErrInvalidProposalContent
        (Error.Wrap ErrCode.unregistered "content rejected").text) rfl⟩

/-- C2: a message list that contains a message whose declared signers are not
exactly the governance account (none, more than one, or one that differs) makes
`SubmitProposal` return an error and leave the context as it was; when the
field lengths are within bounds, every earlier message passes every check and
that message passes its basic-validity check, the error is `InvalidSigner`. -/
theorem SubmitProposal_rejects_bad_signer (keeper : Keeper B) (ctx : Context B)
    (messages : List Msg) (metadata title summary : String) (proposer : AccAddress)
    (hbad : ∃ m ∈ messages, m.badSigner keeper) :
    (∃ err, SubmitProposal keeper ctx messages metadata title summary proposer
      = Outcome.ok ctx (Except.error err)) ∧
    (∀ pre m post, messages = pre ++ m :: post →
      assertMetadataLength keeper metadata = none →
      assertMetadataLength keeper summary = none →
      assertMetadataLength keeper title = none →
      (∀ x ∈ pre, checkMsg keeper ctx x = none) →
      m.badSigner keeper → m.ValidateBasic = none →
      ∃ err, SubmitProposal keeper ctx messages metadata title summary proposer
        = Outcome.ok ctx (Except.error err) ∧ err.code = ErrCode.ErrInvalidSigner) := by
  constructor
  · obtain ⟨m, hm, hb⟩ := hbad
    obtain ⟨e, he, _⟩ := checkMsg_badSigner keeper ctx m hb
    obtain ⟨e', he'⟩ := checkMsgs_of_mem_fails keeper ctx messages m hm (by simp [he])
    obtain ⟨e'', h, _⟩ := SubmitProposal_of_checkMsgs_error keeper ctx messages metadata title
      summary proposer e' he'
    exact ⟨e'', h⟩
  · intro pre m post hmsgs h1 h2 h3 hpre hb hv
    obtain ⟨e, he, hcode⟩ := checkMsg_badSigner keeper ctx m hb
    have hall : checkMsgs keeper ctx messages = some e := by
      rw [hmsgs, checkMsgs_append_cons keeper ctx pre post m hpre, he]
    obtain ⟨e'', h, heq⟩ := SubmitProposal_of_checkMsgs_error keeper ctx messages metadata title
      summary proposer e hall
    refine ⟨e'', h, ?_⟩
    rw [heq h1 h2 h3]
    exact hcode hv


theorem SubmitProposal_rejects_bad_signer_witness :
    (∃ m ∈ [okMsg, { okMsg with GetSigners := ["gov", "alice"] }], m.badSigner testKeeper) ∧
    ((∃ err, SubmitProposal testKeeper (testCtx 1 5)
        [okMsg, { okMsg with GetSigners := ["gov", "alice"] }] "m" "t" "s" "alice"
        = Outcome.ok (testCtx 1 5) (Except.error err)) ∧
    (∀ pre m post, [okMsg, { okMsg with GetSigners := ["gov", "alice"] }] = pre ++ m :: post →
      assertMetadataLength testKeeper "m" = none →
      assertMetadataLength testKeeper "s" = none →
      assertMetadataLength testKeeper "t" = none →
      (∀ x ∈ pre, checkMsg testKeeper (testCtx 1 5) x = none) →
      m.badSigner testKeeper → m.ValidateBasic = none →
      ∃ err, SubmitProposal testKeeper (testCtx 1 5)
        [okMsg, { okMsg with GetSigners := ["gov", "alice"] }] "m" "t" "s" "alice"
        = Outcome.ok (testCtx 1 5) (Except.error err) ∧ err.code = ErrCode.ErrInvalidSigner)) :=
  have hbad : ∃ m ∈ [okMsg, { okMsg with GetSigners := ["gov", "alice"] }],
      m.badSigner testKeeper :=
    ⟨{ okMsg with GetSigners := ["gov", "alice"] }, by simp, Or.inr (Or.inl (by decide))⟩
  ⟨hbad, SubmitProposal_rejects_bad_signer testKeeper (testCtx 1 5) _ "m" "t" "s" "alice" hbad⟩

/-! ## Effect of the operations on the store -/

theorem GetProposalID_eq_ok (ctx : Context B) (n : Nat) :
    GetProposalID ctx = Except.ok (Except.ok n) ↔
      ctx.store.Get Key.ProposalIDKey = some (Val.idBytes n) := by
  unfold GetProposalID
  constructor
  · intro h
    split at h
    · cases h
    · rename_i m hm
      cases h
      exact hm
    · cases h
  · intro h
    rw [h]

theorem SetProposal_ok (keeper : Keeper B) (ctx ctx' : Context B) (p : Proposal)
    (h : SetProposal keeper ctx p = Outcome.ok ctx' ()) :
    ∃ bz, keeper.cdc.Marshal p = some bz ∧
      ctx' = { ctx with store := (setMarker ctx.store p).Set (Key.ProposalKey p.Id) (Val.encoded bz) } := by
  unfold SetProposal at h
  cases hm : keeper.cdc.Marshal p with
  | none => simp [hm] at h
  | some bz =>
    refine ⟨bz, rfl, ?_⟩
    simp only [hm] at h
    cases h
    unfold setMarker
    split <;> rfl

theorem SetProposal_of_marshal (keeper : Keeper B) (ctx : Context B) (p : Proposal) (bz : B)
    (h : keeper.cdc.Marshal p = some bz) :
    SetProposal keeper ctx p = Outcome.ok
      { ctx with store := (setMarker ctx.store p).Set (Key.ProposalKey p.Id) (Val.encoded bz) } () := by
  unfold SetProposal
  simp only [h]
  unfold setMarker
  split <;> rfl

theorem NewProposal_ok (messages : List Msg) (id : Nat) (submitTime depositEndTime : Time)
    (metadata title summary : String) (proposer : AccAddress) (p : Proposal)
    (h : NewProposal messages id submitTime depositEndTime metadata title summary proposer
      = Except.ok p) :
    p = newRecord messages id submitTime depositEndTime metadata title summary proposer := by
  unfold NewProposal at h
  split at h
  · cases h; rfl
  · cases h

theorem SubmitProposal_ok (keeper : Keeper B) (ctx ctx' : Context B)
    (messages : List Msg) (metadata title summary : String) (proposer : AccAddress)
    (p : Proposal)
    (h : SubmitProposal keeper ctx messages metadata title summary proposer
      = Outcome.ok ctx' (Except.ok p)) :
    ∃ n bz, ctx.store.Get Key.ProposalIDKey = some (Val.idBytes n) ∧
      p = newRecord messages n ctx.BlockTime (Time.Add ctx.BlockTime ctx.params.MaxDepositPeriod)
        metadata title summary proposer ∧
      keeper.cdc.Marshal p = some bz ∧
      ctx' =
        { keeper.AfterProposalSubmission
            { ctx with
              store := submitStore ctx.store p bz
                (Time.Add ctx.BlockTime ctx.params.MaxDepositPeriod) } n with
          events := (keeper.AfterProposalSubmission
            { ctx with
              store := submitStore ctx.store p bz
                (Time.Add ctx.BlockTime ctx.params.MaxDepositPeriod) } n).events ++
            [submitProposalEvent n (messages.map (fun m => m.TypeURL))] } := by
  unfold SubmitProposal at h
  split at h
  · cases h
  split at h
  · cases h
  split at h
  · cases h
  split at h
  · cases h
  split at h
  · cases h
  · cases h
  rename_i n hn
  simp only at h
  split at h
  · cases h
  rename_i q hq
  have hq' := NewProposal_ok _ _ _ _ _ _ _ _ _ hq
  split at h
  · cases h
  rename_i ctx1 u hset
  obtain ⟨bz, hbz, hctx1⟩ := SetProposal_ok keeper ctx ctx1 q hset
  have hd : q.DepositEndTime = some (Time.Add ctx.BlockTime ctx.params.MaxDepositPeriod) := by
    rw [hq']; rfl
  have hid : q.Id = n := by rw [hq']; rfl
  rw [hd] at h
  simp only at h
  cases h
  refine ⟨n, bz, (GetProposalID_eq_ok ctx n).mp hn, hq', hbz, ?_⟩
  subst hctx1
  simp only [submitStore, InsertInactiveProposalQueue, SetProposalID, hid]

theorem ActivateVotingPeriod_ok (keeper : Keeper B) (ctx ctx' : Context B) (p : Proposal)
    (h : ActivateVotingPeriod keeper ctx p = Outcome.ok ctx' ()) :
    ∃ bz d b, keeper.cdc.Marshal (activated p ctx.BlockTime ctx.params.VotingPeriod) = some bz ∧
      p.DepositEndTime = some d ∧ emergencyCheck p ctx.params = some b ∧
      ctx' = activateCtx ctx p bz d b := by
  unfold ActivateVotingPeriod at h
  simp only at h
  split at h
  · cases h
  rename_i ctx1 u hset
  obtain ⟨bz, hbz, hctx1⟩ := SetProposal_ok keeper ctx ctx1 _ hset
  split at h
  · cases h
  rename_i d hd
  split at h
  · cases h
  rename_i coins hcoins
  split at h
  · cases h
  · rename_i hgte
    cases h
    refine ⟨bz, d, true, hbz, hd, ?_, ?_⟩
    · subst hctx1
      simp only [emergencyCheck, hcoins]
      exact hgte
    · subst hctx1
      rfl
  · rename_i hgte
    cases h
    refine ⟨bz, d, false, hbz, hd, ?_, ?_⟩
    · subst hctx1
      simp only [emergencyCheck, hcoins]
      exact hgte
    · subst hctx1
      rfl

theorem ActivateVotingPeriod_of (keeper : Keeper B) (ctx : Context B) (p : Proposal)
    (bz : B) (d : Time) (b : Bool)
    (hbz : keeper.cdc.Marshal (activated p ctx.BlockTime ctx.params.VotingPeriod) = some bz)
    (hd : p.DepositEndTime = some d) (hb : emergencyCheck p ctx.params = some b) :
    ActivateVotingPeriod keeper ctx p = Outcome.ok (activateCtx ctx p bz d b) () := by
  unfold ActivateVotingPeriod
  simp only
  have hset := SetProposal_of_marshal keeper ctx _ bz hbz
  unfold activated at hset
  rw [hset]
  simp only [hd]
  unfold emergencyCheck at hb
  cases hc : NewCoins p.TotalDeposit with
  | none => simp [hc] at hb
  | some coins =>
    simp only [hc] at hb
    simp only [RemoveFromInactiveProposalQueue, InsertActiveProposalQueue, hb]
    cases b <;> rfl

theorem DeleteProposal_ok (keeper : Keeper B) (ctx ctx' : Context B) (proposalID : Nat)
    (h : DeleteProposal keeper ctx proposalID = Outcome.ok ctx' ()) :
    ∃ p, GetProposal keeper ctx proposalID = Except.ok (some p) ∧
      ctx' = { ctx with store := deleteStore ctx.store proposalID p } := by
  unfold DeleteProposal at h
  split at h
  · cases h
  · cases h
  · rename_i p hp
    refine ⟨p, hp, ?_⟩
    simp only at h
    cases h
    unfold deleteStore
    cases p.DepositEndTime <;> cases p.VotingEndTime <;> rfl

theorem GetProposal_ok_some (keeper : Keeper B) (ctx : Context B) (proposalID : Nat)
    (p : Proposal) :
    GetProposal keeper ctx proposalID = Except.ok (some p) ↔
      ∃ bz, ctx.store.Get (Key.ProposalKey proposalID) = some (Val.encoded bz) ∧
        keeper.cdc.Unmarshal bz = some p := by
  unfold GetProposal
  constructor
  · intro h
    split at h
    · cases h
    · rename_i bz hbz
      split at h
      · rename_i q hq
        cases h
        exact ⟨bz, hbz, hq⟩
      · cases h
    · cases h
  · rintro ⟨bz, h1, h2⟩
    rw [h1]
    simp only [h2]

theorem GetProposal_ok_none (keeper : Keeper B) (ctx : Context B) (proposalID : Nat) :
    GetProposal keeper ctx proposalID = Except.ok none ↔
      ctx.store.Get (Key.ProposalKey proposalID) = none := by
  unfold GetProposal
  constructor
  · intro h
    split at h
    · assumption
    · split at h <;> cases h
    · cases h
  · intro h
    rw [h]

theorem KVStore.Get_isSome_iff (store : KVStore B) (key : Key) :
    (store.Get key).isSome = true ↔ ∃ v, (key, v) ∈ store := by
  induction store with
  | nil => simp [KVStore.Get]
  | cons kv rest ih =>
    obtain ⟨k, v⟩ := kv
    unfold KVStore.Get
    by_cases hk : k = key
    · subst hk
      simp
    · simp only [hk, if_false, ih, List.mem_cons, Prod.mk.injEq]
      constructor
      · rintro ⟨w, hw⟩
        exact ⟨w, Or.inr hw⟩
      · rintro ⟨w, hw | hw⟩
        · exact absurd hw.1.symm hk
        · exact ⟨w, hw⟩

theorem inInactiveQueue_iff (store : KVStore B) (i : Nat) :
    inInactiveQueue store i = true ↔
      ∃ t, (store.Get (Key.InactiveProposalQueueKey i t)).isSome = true := by
  unfold inInactiveQueue
  rw [List.any_eq_true]
  constructor
  · rintro ⟨⟨k, v⟩, hmem, hk⟩
    cases k <;> simp at hk
    subst hk
    rename_i t
    exact ⟨t, (KVStore.Get_isSome_iff store _).mpr ⟨v, hmem⟩⟩
  · rintro ⟨t, ht⟩
    obtain ⟨v, hv⟩ := (KVStore.Get_isSome_iff store _).mp ht
    exact ⟨_, hv, by simp⟩

theorem inActiveQueue_iff (store : KVStore B) (i : Nat) :
    inActiveQueue store i = true ↔
      ∃ t, (store.Get (Key.ActiveProposalQueueKey i t)).isSome = true := by
  unfold inActiveQueue
  rw [List.any_eq_true]
  constructor
  · rintro ⟨⟨k, v⟩, hmem, hk⟩
    cases k <;> simp at hk
    subst hk
    rename_i t
    exact ⟨t, (KVStore.Get_isSome_iff store _).mpr ⟨v, hmem⟩⟩
  · rintro ⟨t, ht⟩
    obtain ⟨v, hv⟩ := (KVStore.Get_isSome_iff store _).mp ht
    exact ⟨_, hv, by simp⟩

theorem Get_submitStore (store : KVStore B) (p : Proposal) (bz : B) (d : Time) (key : Key)
    (hs : p.Status = ProposalStatus.StatusDepositPeriod) :
    (submitStore store p bz d).Get key =
      if key = Key.ProposalIDKey then some (Val.idBytes ((p.Id + 1) % uint64Size))
      else if key = Key.InactiveProposalQueueKey p.Id d then some (Val.idBytes p.Id)
      else if key = Key.ProposalKey p.Id then some (Val.encoded bz)
      else if key = Key.VotingPeriodProposalKey p.Id then none
      else store.Get key := by
  unfold submitStore setMarker
  simp [hs, KVStore.Get_Set, KVStore.Get_Delete]

theorem Get_activateStore (store : KVStore B) (q : Proposal) (bz : B) (d e : Time) (key : Key)
    (hs : q.Status = ProposalStatus.StatusVotingPeriod) :
    (activateStore store q bz d e).Get key =
      if key = Key.ActiveProposalQueueKey q.Id e then some (Val.idBytes q.Id)
      else if key = Key.InactiveProposalQueueKey q.Id d then none
      else if key = Key.ProposalKey q.Id then some (Val.encoded bz)
      else if key = Key.VotingPeriodProposalKey q.Id then some Val.marker
      else store.Get key := by
  unfold activateStore setMarker
  simp [hs, KVStore.Get_Set, KVStore.Get_Delete]

theorem Get_deleteStore (store : KVStore B) (i : Nat) (p : Proposal) (key : Key) :
    (deleteStore store i p).Get key =
      if key = Key.ProposalKey i then none
      else if p.VotingEndTime ≠ none ∧ key = Key.VotingPeriodProposalKey i then none
      else if (∃ t, p.VotingEndTime = some t ∧ key = Key.ActiveProposalQueueKey i t) then none
      else if (∃ t, p.DepositEndTime = some t ∧ key = Key.InactiveProposalQueueKey i t) then none
      else store.Get key := by
  unfold deleteStore
  cases hd : p.DepositEndTime <;> cases hv : p.VotingEndTime <;>
    simp only [KVStore.Get_Set, KVStore.Get_Delete] <;>
    simp

/-! ## Preservation of the invariant -/

theorem Stored.unique {keeper : Keeper B} {store : KVStore B} {i : Nat} {p q : Proposal}
    (hp : Stored keeper store i p) (hq : Stored keeper store i q) : p = q := by
  obtain ⟨bz, h1, h2⟩ := hp
  obtain ⟨bz', h1', h2'⟩ := hq
  rw [h1] at h1'
  cases h1'
  rw [h2] at h2'
  cases h2'
  rfl

theorem Stored.transfer {keeper : Keeper B} {store store' : KVStore B} {i : Nat} {p : Proposal}
    (h : store'.Get (Key.ProposalKey i) = store.Get (Key.ProposalKey i))
    (hp : Stored keeper store i p) : Stored keeper store' i p := by
  obtain ⟨bz, h1, h2⟩ := hp
  exact ⟨bz, h.trans h1, h2⟩

theorem Consistent.transport {keeper : Keeper B} {store store' : KVStore B} {i : Nat}
    (hrec : store'.Get (Key.ProposalKey i) = store.Get (Key.ProposalKey i))
    (hin : ∀ t, store'.Get (Key.InactiveProposalQueueKey i t)
      = store.Get (Key.InactiveProposalQueueKey i t))
    (hact : ∀ t, store'.Get (Key.ActiveProposalQueueKey i t)
      = store.Get (Key.ActiveProposalQueueKey i t))
    (hc : Consistent keeper store i) : Consistent keeper store' i := by
  have hrec' : store.Get (Key.ProposalKey i) = store'.Get (Key.ProposalKey i) := hrec.symm
  constructor
  · intro t v hv
    rw [hin t] at hv
    obtain ⟨p, hp, h1, h2⟩ := hc.inactive t v hv
    exact ⟨p, hp.transfer hrec, h1, h2⟩
  · intro t v hv
    rw [hact t] at hv
    obtain ⟨p, hp, h1, h2⟩ := hc.active t v hv
    exact ⟨p, hp.transfer hrec, h1, h2⟩
  · intro p hp
    rcases hc.record p (hp.transfer hrec') with ⟨h1, t, h2, h3⟩ | ⟨h1, t, h2, h3⟩
    · exact Or.inl ⟨h1, t, h2, by rw [hin t]; exact h3⟩
    · exact Or.inr ⟨h1, t, h2, by rw [hact t]; exact h3⟩

theorem Inv.seeded (keeper : Keeper B) (strict : Nat → Bool) (seed : Nat) :
    Inv keeper strict (seededStore B seed) seed := by
  have hget : ∀ key v, (seededStore B seed).Get key = some v → key = Key.ProposalIDKey := by
    intro key v h
    unfold seededStore KVStore.Get at h
    by_cases hk : Key.ProposalIDKey = key
    · exact hk.symm
    · simp [hk, KVStore.Get] at h
  constructor
  · simp [seededStore, KVStore.Get]
  · intro key v i h hi
    rw [hget key v h] at hi
    cases hi
  · intro i v h
    cases hget _ v h
  · intro i v h
    cases hget _ v h
  · intro i _
    constructor
    · intro t v h
      cases hget _ v h
    · intro t v h
      cases hget _ v h
    · rintro p ⟨bz, h, _⟩
      cases hget _ _ h

theorem Get_submitStore_other (store : KVStore B) (p : Proposal) (bz : B) (d : Time) (key : Key)
    (i : Nat) (hs : p.Status = ProposalStatus.StatusDepositPeriod)
    (hk : key.proposalID? = some i) (hne : i ≠ p.Id) :
    (submitStore store p bz d).Get key = store.Get key := by
  rw [Get_submitStore store p bz d key hs]
  cases key <;> simp [Key.proposalID?] at hk ⊢ <;> subst hk <;> simp [hne]

theorem Inv.submit {keeper : Keeper B} {strict : Nat → Bool} {store : KVStore B} {c : Nat}
    (hinv : Inv keeper strict store c) (hrt : keeper.cdc.RoundTrip)
    (p : Proposal) (bz : B) (d : Time) (hid : p.Id = c)
    (hs : p.Status = ProposalStatus.StatusDepositPeriod) (hd : p.DepositEndTime = some d)
    (hbz : keeper.cdc.Marshal p = some bz) (hc : c + 1 < uint64Size) :
    Inv keeper strict (submitStore store p bz d) (c + 1) := by
  have hnew : Stored keeper (submitStore store p bz d) c p := by
    refine ⟨bz, ?_, hrt p bz hbz⟩
    rw [Get_submitStore store p bz d _ hs]
    simp [hid]
  have hfresh : ∀ key v, store.Get key = some v → key.proposalID? ≠ some c := by
    intro key v hv hk
    exact absurd (hinv.below key v c hv hk) (lt_irrefl c)
  have hother : ∀ key i, key.proposalID? = some i → i ≠ c →
      (submitStore store p bz d).Get key = store.Get key := by
    intro key i hk hne
    exact Get_submitStore_other store p bz d key i hs hk (by rw [hid]; exact hne)
  constructor
  · rw [Get_submitStore store p bz d _ hs]
    simp [hid, Nat.mod_eq_of_lt hc]
  · intro key v i hv hk
    by_cases hi : i = c
    · omega
    · rw [hother key i hk hi] at hv
      have := hinv.below key v i hv hk
      omega
  · intro i v hv
    by_cases hi : i = c
    · subst hi
      exact ⟨p, hnew, hid⟩
    · rw [hother (Key.ProposalKey i) i rfl hi] at hv
      obtain ⟨q, hq, hqid⟩ := hinv.records i v hv
      exact ⟨q, hq.transfer (hother (Key.ProposalKey i) i rfl hi), hqid⟩
  · intro i v hv
    by_cases hi : i = c
    · subst hi
      rw [Get_submitStore store p bz d _ hs] at hv
      simp [hid] at hv
    · rw [hother (Key.VotingPeriodProposalKey i) i rfl hi] at hv
      obtain ⟨q, hq, hqv⟩ := hinv.marker i v hv
      exact ⟨q, hq.transfer (hother (Key.ProposalKey i) i rfl hi), hqv⟩
  · intro i hi
    by_cases hic : i = c
    · subst hic
      constructor
      · intro t v hv
        rw [Get_submitStore store p bz d _ hs] at hv
        by_cases ht : t = d
        · subst ht
          exact ⟨p, hnew, hs, hd⟩
        · simp [hid, ht] at hv
          exact absurd rfl (hfresh _ v hv)
      · intro t v hv
        rw [Get_submitStore store p bz d _ hs] at hv
        simp at hv
        exact absurd rfl (hfresh _ v hv)
      · intro q hq
        have hqp : q = p := hq.unique hnew
        subst hqp
        refine Or.inl ⟨hs, d, hd, ?_⟩
        rw [Get_submitStore store q bz d _ hs]
        simp [hid]
    · exact (hinv.consistent i hi).transport (hother _ i rfl hic)
        (fun t => hother (Key.InactiveProposalQueueKey i t) i rfl hic)
        (fun t => hother (Key.ActiveProposalQueueKey i t) i rfl hic)

theorem Get_activateStore_other (store : KVStore B) (q : Proposal) (bz : B) (d e : Time)
    (key : Key) (i : Nat) (hs : q.Status = ProposalStatus.StatusVotingPeriod)
    (hk : key.proposalID? = some i) (hne : i ≠ q.Id) :
    (activateStore store q bz d e).Get key = store.Get key := by
  rw [Get_activateStore store q bz d e key hs]
  cases key <;> simp [Key.proposalID?] at hk ⊢ <;> subst hk <;> simp [hne]

theorem Inv.activate {keeper : Keeper B} {strict : Nat → Bool} {store : KVStore B} {c : Nat}
    (hinv : Inv keeper strict store c) (hrt : keeper.cdc.RoundTrip)
    (p q : Proposal) (bz : B) (d e : Time) (hp : Stored keeper store q.Id p)
    (hpd : p.DepositEndTime = some d)
    (hstrict : strict q.Id = true → p.Status = ProposalStatus.StatusDepositPeriod)
    (hqs : q.Status = ProposalStatus.StatusVotingPeriod) (hqe : q.VotingEndTime = some e)
    (hbz : keeper.cdc.Marshal q = some bz) :
    Inv keeper strict (activateStore store q bz d e) c := by
  have hlt : q.Id < c := by
    obtain ⟨bz', h1, _⟩ := hp
    exact hinv.below _ _ _ h1 rfl
  have hnew : Stored keeper (activateStore store q bz d e) q.Id q := by
    refine ⟨bz, ?_, hrt q bz hbz⟩
    rw [Get_activateStore store q bz d e _ hqs]
    simp
  have hother : ∀ key i, key.proposalID? = some i → i ≠ q.Id →
      (activateStore store q bz d e).Get key = store.Get key := by
    intro key i hk hne
    exact Get_activateStore_other store q bz d e key i hqs hk hne
  constructor
  · rw [Get_activateStore store q bz d e _ hqs]
    simp [hinv.counter]
  · intro key v i hv hk
    by_cases hi : i = q.Id
    · omega
    · rw [hother key i hk hi] at hv
      exact hinv.below key v i hv hk
  · intro i v hv
    by_cases hi : i = q.Id
    · subst hi
      exact ⟨q, hnew, rfl⟩
    · rw [hother (Key.ProposalKey i) i rfl hi] at hv
      obtain ⟨r, hr, hrid⟩ := hinv.records i v hv
      exact ⟨r, hr.transfer (hother (Key.ProposalKey i) i rfl hi), hrid⟩
  · intro i v hv
    by_cases hi : i = q.Id
    · subst hi
      exact ⟨q, hnew, by simp [hqe]⟩
    · rw [hother (Key.VotingPeriodProposalKey i) i rfl hi] at hv
      obtain ⟨r, hr, hrv⟩ := hinv.marker i v hv
      exact ⟨r, hr.transfer (hother (Key.ProposalKey i) i rfl hi), hrv⟩
  · intro i hi
    by_cases hic : i = q.Id
    · subst hic
      have hc := hinv.consistent q.Id hi
      have hps := hstrict hi
      constructor
      · intro t v hv
        rw [Get_activateStore store q bz d e _ hqs] at hv
        by_cases ht : t = d
        · simp [ht] at hv
        · simp [ht] at hv
          obtain ⟨r, hr, _, hrd⟩ := hc.inactive t v hv
          have hrp : r = p := hr.unique hp
          subst hrp
          rw [hpd] at hrd
          cases hrd
          exact absurd rfl ht
      · intro t v hv
        rw [Get_activateStore store q bz d e _ hqs] at hv
        by_cases ht : t = e
        · subst ht
          exact ⟨q, hnew, hqs, hqe⟩
        · simp [ht] at hv
          obtain ⟨r, hr, hrs, _⟩ := hc.active t v hv
          have hrp : r = p := hr.unique hp
          subst hrp
          rw [hps] at hrs
          cases hrs
      · intro r hr
        have hrq : r = q := hr.unique hnew
        subst hrq
        refine Or.inr ⟨hqs, e, hqe, ?_⟩
        rw [Get_activateStore store r bz d e _ hqs]
        simp
    · exact (hinv.consistent i hi).transport (hother _ i rfl hic)
        (fun t => hother (Key.InactiveProposalQueueKey i t) i rfl hic)
        (fun t => hother (Key.ActiveProposalQueueKey i t) i rfl hic)

theorem Inv.setEmergency {keeper : Keeper B} {strict : Nat → Bool} {store : KVStore B} {c : Nat}
    (hinv : Inv keeper strict store c) (i : Nat) (hi : i < c) (v : Val B) :
    Inv keeper strict (store.Set (Key.EmergencyProposalQueueKey i) v) c := by
  have hget : ∀ key, (∀ j, key ≠ Key.EmergencyProposalQueueKey j) →
      (store.Set (Key.EmergencyProposalQueueKey i) v).Get key = store.Get key := by
    intro key hk
    rw [KVStore.Get_Set]
    simp [hk i]
  have hrec : ∀ j, (store.Set (Key.EmergencyProposalQueueKey i) v).Get (Key.ProposalKey j)
      = store.Get (Key.ProposalKey j) := fun j => hget _ (by simp)
  constructor
  · rw [hget _ (by simp)]
    exact hinv.counter
  · intro key w j hw hk
    rw [KVStore.Get_Set] at hw
    by_cases hkey : key = Key.EmergencyProposalQueueKey i
    · subst hkey
      simp [Key.proposalID?] at hk
      omega
    · simp [hkey] at hw
      exact hinv.below key w j hw hk
  · intro j w hw
    rw [hrec j] at hw
    obtain ⟨r, hr, hrid⟩ := hinv.records j w hw
    exact ⟨r, hr.transfer (hrec j), hrid⟩
  · intro j w hw
    rw [hget _ (by simp)] at hw
    obtain ⟨r, hr, hrv⟩ := hinv.marker j w hw
    exact ⟨r, hr.transfer (hrec j), hrv⟩
  · intro j hj
    exact (hinv.consistent j hj).transport (hrec j) (fun t => hget _ (by simp))
      (fun t => hget _ (by simp))

theorem Get_deleteStore_other (store : KVStore B) (i : Nat) (p : Proposal) (key : Key)
    (j : Nat) (hk : key.proposalID? = some j) (hne : j ≠ i) :
    (deleteStore store i p).Get key = store.Get key := by
  rw [Get_deleteStore store i p key]
  cases key <;> simp [Key.proposalID?] at hk ⊢ <;> subst hk <;> simp [hne]

theorem Get_deleteStore_some (store : KVStore B) (i : Nat) (p : Proposal) (key : Key)
    (v : Val B) (h : (deleteStore store i p).Get key = some v) : store.Get key = some v := by
  rw [Get_deleteStore store i p key] at h
  split_ifs at h
  exact h

theorem Inv.delete {keeper : Keeper B} {strict : Nat → Bool} {store : KVStore B} {c : Nat}
    (hinv : Inv keeper strict store c) (p : Proposal) (i : Nat)
    (hp : Stored keeper store i p) :
    Inv keeper strict (deleteStore store i p) c := by
  have hother : ∀ key j, key.proposalID? = some j → j ≠ i →
      (deleteStore store i p).Get key = store.Get key := by
    intro key j hk hne
    exact Get_deleteStore_other store i p key j hk hne
  have hgone : (deleteStore store i p).Get (Key.ProposalKey i) = none := by
    rw [Get_deleteStore]
    simp
  constructor
  · rw [Get_deleteStore]
    simp [hinv.counter]
  · intro key v j hv hk
    exact hinv.below key v j (Get_deleteStore_some store i p key v hv) hk
  · intro j v hv
    by_cases hj : j = i
    · subst hj
      rw [hgone] at hv
      cases hv
    · rw [hother (Key.ProposalKey j) j rfl hj] at hv
      obtain ⟨r, hr, hrid⟩ := hinv.records j v hv
      exact ⟨r, hr.transfer (hother (Key.ProposalKey j) j rfl hj), hrid⟩
  · intro j v hv
    by_cases hj : j = i
    · subst hj
      have hold := Get_deleteStore_some store j p _ v hv
      obtain ⟨r, hr, hrv⟩ := hinv.marker j v hold
      have hrp : r = p := hr.unique hp
      subst hrp
      rw [Get_deleteStore] at hv
      simp [hrv] at hv
    · rw [hother (Key.VotingPeriodProposalKey j) j rfl hj] at hv
      obtain ⟨r, hr, hrv⟩ := hinv.marker j v hv
      exact ⟨r, hr.transfer (hother (Key.ProposalKey j) j rfl hj), hrv⟩
  · intro j hjs
    by_cases hj : j = i
    · subst hj
      have hc := hinv.consistent j hjs
      constructor
      · intro t v hv
        have hold := Get_deleteStore_some store j p _ v hv
        obtain ⟨r, hr, _, hrd⟩ := hc.inactive t v hold
        have hrp : r = p := hr.unique hp
        subst hrp
        rw [Get_deleteStore] at hv
        simp [hrd] at hv
      · intro t v hv
        have hold := Get_deleteStore_some store j p _ v hv
        obtain ⟨r, hr, _, hre⟩ := hc.active t v hold
        have hrp : r = p := hr.unique hp
        subst hrp
        rw [Get_deleteStore] at hv
        simp [hre] at hv
      · rintro r ⟨bz, h1, _⟩
        rw [hgone] at h1
        cases h1
    · exact (hinv.consistent j hjs).transport (hother _ j rfl hj)
        (fun t => hother (Key.InactiveProposalQueueKey j t) j rfl hj)
        (fun t => hother (Key.ActiveProposalQueueKey j t) j rfl hj)

/-! ## Runs -/

theorem activateCtx_store (ctx : Context B) (p : Proposal) (bz : B) (d : Time) (b : Bool) :
    (activateCtx ctx p bz d b).store =
      if b then
        (activateStore ctx.store (activated p ctx.BlockTime ctx.params.VotingPeriod) bz d
          (Time.Add ctx.BlockTime ctx.params.VotingPeriod)).Set
          (Key.EmergencyProposalQueueKey p.Id) (Val.idBytes p.Id)
      else
        activateStore ctx.store (activated p ctx.BlockTime ctx.params.VotingPeriod) bz d
          (Time.Add ctx.BlockTime ctx.params.VotingPeriod) := by
  unfold activateCtx
  cases b <;> rfl

/-- What a call of `applyOp` that returns did: the cases of the operation. -/
theorem applyOp_cases (keeper : Keeper B) (hhook : keeper.HookKeepsStore)
    (strict : Nat → Bool) (ctx ctx' : Context B) (op : Op) (ids : List Nat)
    (h : applyOp keeper strict ctx op = some (ctx', ids)) :
    (ids = [] ∧ ctx'.store = ctx.store) ∨
    (∃ p bz d n, ids = [n] ∧ ctx.store.Get Key.ProposalIDKey = some (Val.idBytes n) ∧
      p.Id = n ∧ p.Status = ProposalStatus.StatusDepositPeriod ∧ p.DepositEndTime = some d ∧
      keeper.cdc.Marshal p = some bz ∧ ctx'.store = submitStore ctx.store p bz d) ∨
    (∃ p bz d now V i, ids = [] ∧ GetProposal keeper ctx i = Except.ok (some p) ∧
      (strict i = true → p.Status = ProposalStatus.StatusDepositPeriod) ∧
      p.DepositEndTime = some d ∧ keeper.cdc.Marshal (activated p now V) = some bz ∧
      (ctx'.store = activateStore ctx.store (activated p now V) bz d (Time.Add now V) ∨
       ctx'.store = (activateStore ctx.store (activated p now V) bz d (Time.Add now V)).Set
          (Key.EmergencyProposalQueueKey p.Id) (Val.idBytes p.Id))) ∨
    (∃ p i, ids = [] ∧ GetProposal keeper ctx i = Except.ok (some p) ∧
      ctx'.store = deleteStore ctx.store i p) := by
  cases op with
  | submit now messages metadata title summary proposer =>
    simp only [applyOp] at h
    split at h
    · rename_i ctx1 p hsub
      cases h
      obtain ⟨n, bz, hn, hp, hbz, hctx⟩ := SubmitProposal_ok keeper _ _ _ _ _ _ _ _ hsub
      refine Or.inr (Or.inl ⟨p, bz, Time.Add now ctx.params.MaxDepositPeriod, n, ?_, hn, ?_,
        ?_, ?_, hbz, ?_⟩)
      · rw [hp]; rfl
      · rw [hp]; rfl
      · rw [hp]; rfl
      · rw [hp]; rfl
      · rw [hctx]
        exact hhook _ _
    · rename_i ctx1 e hsub
      cases h
      have := SubmitProposal_error_context keeper _ _ _ _ _ _ _ _ hsub
      subst this
      exact Or.inl ⟨rfl, rfl⟩
    · cases h
  | activate now i =>
    simp only [applyOp] at h
    split at h
    · rename_i p hp
      split at h
      · cases h
      · rename_i hguard
        split at h
        · rename_i ctx1 u hact
          cases h
          obtain ⟨bz, d, b, hbz, hd, _, hctx⟩ := ActivateVotingPeriod_ok keeper _ _ _ hact
          refine Or.inr (Or.inr (Or.inl ⟨p, bz, d, now, ctx.params.VotingPeriod, i, rfl, hp,
            ?_, hd, hbz, ?_⟩))
          · intro hs
            simp [hs] at hguard
            exact hguard
          · rw [hctx, activateCtx_store]
            cases b
            · exact Or.inl rfl
            · exact Or.inr rfl
        · cases h
    · cases h
  | delete now i =>
    simp only [applyOp] at h
    split at h
    · rename_i ctx1 u hdel
      cases h
      obtain ⟨p, hp, hctx⟩ := DeleteProposal_ok keeper _ _ _ hdel
      refine Or.inr (Or.inr (Or.inr ⟨p, i, rfl, ?_, ?_⟩))
      · exact hp
      · rw [hctx]
    · cases h
  | setParams params =>
    simp only [applyOp] at h
    cases h
    exact Or.inl ⟨rfl, rfl⟩

theorem applyOp_Inv (keeper : Keeper B) (hhook : keeper.HookKeepsStore)
    (hrt : keeper.cdc.RoundTrip) (strict : Nat → Bool) (ctx ctx' : Context B) (op : Op)
    (ids : List Nat) (c : Nat) (hinv : Inv keeper strict ctx.store c)
    (h : applyOp keeper strict ctx op = some (ctx', ids)) (hc : c + ids.length < uint64Size) :
    Inv keeper strict ctx'.store (c + ids.length) := by
  rcases applyOp_cases keeper hhook strict ctx ctx' op ids h with
    ⟨h1, h2⟩ | ⟨p, bz, d, n, h1, h2, h3, h4, h5, h6, h7⟩ |
    ⟨p, bz, d, now, V, i, h1, h2, h3, h4, h5, h6⟩ | ⟨p, i, h1, h2, h3⟩
  · subst h1
    rw [h2]
    exact hinv
  · rw [hinv.counter] at h2
    cases h2
    subst h1
    rw [h7]
    exact hinv.submit hrt p bz d h3 h4 h5 h6 (by simpa using hc)
  · subst h1
    have hst : Stored keeper ctx.store i p := (GetProposal_ok_some keeper ctx i p).mp h2
    have hpid : p.Id = i := by
      have ⟨bz', hb, _⟩ := hst
      obtain ⟨r, hr, hrid⟩ := hinv.records i _ hb
      have : r = p := hr.unique hst
      rw [← this]
      exact hrid
    have hqid : (activated p now V).Id = i := hpid
    have hact : Inv keeper strict
        (activateStore ctx.store (activated p now V) bz d (Time.Add now V)) c :=
      hinv.activate hrt p (activated p now V) bz d (Time.Add now V) (by rw [hqid]; exact hst) h4
        (by rw [hqid]; exact h3) rfl rfl h5
    have hlt : p.Id < c := by
      have ⟨bz', hb, _⟩ := hst
      rw [hpid]
      exact hinv.below _ _ _ hb rfl
    rcases h6 with h6 | h6
    · rw [h6]
      exact hact
    · rw [h6]
      exact hact.setEmergency p.Id hlt _
  · subst h1
    rw [h3]
    exact hinv.delete p i ((GetProposal_ok_some keeper ctx i p).mp h2)

theorem runOps_Inv (keeper : Keeper B) (hhook : keeper.HookKeepsStore)
    (hrt : keeper.cdc.RoundTrip) (strict : Nat → Bool) (ops : List Op) :
    ∀ (ctx ctx' : Context B) (ids : List Nat) (c : Nat),
      Inv keeper strict ctx.store c →
      runOps keeper strict ctx ops = some (ctx', ids) →
      c + ids.length < uint64Size →
      Inv keeper strict ctx'.store (c + ids.length) := by
  induction ops with
  | nil =>
    intro ctx ctx' ids c hinv h _
    simp only [runOps] at h
    cases h
    exact hinv
  | cons op rest ih =>
    intro ctx ctx' ids c hinv h hwrap
    simp only [runOps] at h
    split at h
    · cases h
    · rename_i ctx1 ids1 hop
      split at h
      · cases h
      · rename_i ctx2 ids2 hrest
        cases h
        simp only [List.length_append] at hwrap ⊢
        have h1 := applyOp_Inv keeper hhook hrt strict ctx ctx1 op ids1 c hinv hop (by omega)
        have h2 := ih ctx1 ctx' ids2 (c + ids1.length) h1 hrest (by omega)
        rw [Nat.add_assoc] at h2
        exact h2

/-! ## Identifiers -/

theorem testKeeper_HookKeepsStore : testKeeper.HookKeepsStore := fun _ _ => rfl

theorem idCodec_RoundTrip : idCodec.RoundTrip := by
  intro p bz h
  simp only [idCodec] at h ⊢
  cases h
  rfl

theorem idCodec_Total : idCodec.Total := fun p => ⟨p, rfl⟩

theorem Reachable.inv {keeper : Keeper B} {strict : Nat → Bool} {ctx : Context B}
    (hhook : keeper.HookKeepsStore) (hrt : keeper.cdc.RoundTrip)
    (h : Reachable keeper strict ctx) : ∃ c, Inv keeper strict ctx.store c := by
  obtain ⟨seed, ctx0, ops, ids, h0, hrun, hwrap⟩ := h
  refine ⟨seed + ids.length, ?_⟩
  have hinv0 : Inv keeper strict ctx0.store seed := by
    rw [h0]
    exact Inv.seeded keeper strict seed
  exact runOps_Inv keeper hhook hrt strict ops ctx0 ctx ids seed hinv0 hrun hwrap

theorem KVStore.Has_eq_false (store : KVStore B) (key : Key) :
    store.Has key = false ↔ store.Get key = none := by
  unfold KVStore.Has
  cases store.Get key <;> simp

theorem inActiveQueue_eq_false (store : KVStore B) (i : Nat)
    (h : ∀ t, store.Get (Key.ActiveProposalQueueKey i t) = none) :
    inActiveQueue store i = false := by
  cases hq : inActiveQueue store i with
  | false => rfl
  | true =>
    obtain ⟨t, ht⟩ := (inActiveQueue_iff store i).mp hq
    rw [h t] at ht
    cases ht

theorem Inv.fresh {keeper : Keeper B} {strict : Nat → Bool} {store : KVStore B} {c : Nat}
    (h : Inv keeper strict store c) (key : Key) (hk : key.proposalID? = some c) :
    store.Get key = none := by
  cases hv : store.Get key with
  | none => rfl
  | some v => exact absurd (h.below key v c hv hk) (lt_irrefl c)

/-- C4 (the claim as stated fails): `SubmitProposal` writes the record, the
marker, the Inactive Queue and the counter, and leaves the Active Queue and the
Emergency Set as they are.  With the counter at 1, `ActivateVotingPeriod` of a
proposal value with id 1 that was never submitted enters the id in the Active
Queue and in the Emergency Set; the submission that follows succeeds, is given
the id 1, and the id is in the Active Queue and in the Emergency Set after
it. -/
theorem submission_keeps_active_and_emergency_entries :
    GetProposal testKeeper (testCtx 1 10) 1 = Except.ok none ∧
    SubmitProposal testKeeper { activatedUnsubmitted with BlockTime := 20 }
        [okMsg] "m" "t" "s" "bob"
      = Outcome.ok submittedAfterActivation
          (Except.ok (newRecord [okMsg] 1 20 120 "m" "t" "s" "bob")) ∧
    inActiveQueue submittedAfterActivation.store 1 = true ∧
    inEmergencyQueue submittedAfterActivation.store 1 = true :=
  ⟨rfl, rfl, by decide, by decide⟩

/-- C4, amended: a successful `SubmitProposal` at block time `now`, in any
context, returns the record that is then stored under its id; the record is in
the deposit period, has `submit_time = now`,
`deposit_end_time = now + MaxDepositPeriod` and no voting times; the Inactive
Queue holds the entry `(now + MaxDepositPeriod, id)` and the voting-period
marker of the id is not set; the Active Queue and the Emergency Set hold the id
after the call exactly when they held it before the call, so they do not hold
it when they did not before; in particular they do not hold it in a context
reached from a seeded store by submissions, activations of stored proposals
and deletions. -/
theorem SubmitProposal_success_state (keeper : Keeper B) (hhook : keeper.HookKeepsStore)
    (hrt : keeper.cdc.RoundTrip) (ctx ctx' : Context B) (now : Time)
    (messages : List Msg) (metadata title summary : String) (proposer : AccAddress)
    (p : Proposal)
    (hsub : SubmitProposal keeper { ctx with BlockTime := now } messages metadata title summary
      proposer = Outcome.ok ctx' (Except.ok p)) :
    GetProposal keeper ctx' p.Id = Except.ok (some p) ∧
    p.Status = ProposalStatus.StatusDepositPeriod ∧
    p.SubmitTime = some now ∧
    p.DepositEndTime = some (now + ctx.params.MaxDepositPeriod) ∧
    p.VotingStartTime = none ∧ p.VotingEndTime = none ∧
    ctx'.store.Has (Key.InactiveProposalQueueKey p.Id (now + ctx.params.MaxDepositPeriod))
      = true ∧
    hasVotingMarker ctx'.store p.Id = false ∧
    inActiveQueue ctx'.store p.Id = inActiveQueue ctx.store p.Id ∧
    inEmergencyQueue ctx'.store p.Id = inEmergencyQueue ctx.store p.Id ∧
    (∀ strict, Reachable keeper strict ctx →
      inActiveQueue ctx'.store p.Id = false ∧ inEmergencyQueue ctx'.store p.Id = false) := by
  obtain ⟨n, bz, hn, hp, hbz, hctx⟩ := SubmitProposal_ok keeper _ ctx' messages metadata title
    summary proposer p hsub
  have hs : p.Status = ProposalStatus.StatusDepositPeriod := by rw [hp]; rfl
  have hid : p.Id = n := by rw [hp]; rfl
  have hstore : ctx'.store = submitStore ctx.store p bz (now + ctx.params.MaxDepositPeriod) := by
    rw [hctx]
    exact hhook _ _
  have hact : ∀ t, ctx'.store.Get (Key.ActiveProposalQueueKey p.Id t)
      = ctx.store.Get (Key.ActiveProposalQueueKey p.Id t) := by
    intro t
    rw [hstore, Get_submitStore _ _ _ _ _ hs]
    simp
  have hem : ctx'.store.Get (Key.EmergencyProposalQueueKey p.Id)
      = ctx.store.Get (Key.EmergencyProposalQueueKey p.Id) := by
    rw [hstore, Get_submitStore _ _ _ _ _ hs]
    simp
  have hactive : inActiveQueue ctx'.store p.Id = inActiveQueue ctx.store p.Id := by
    rw [Bool.eq_iff_iff, inActiveQueue_iff, inActiveQueue_iff]
    constructor
    · rintro ⟨t, ht⟩
      exact ⟨t, by rw [← hact t]; exact ht⟩
    · rintro ⟨t, ht⟩
      exact ⟨t, by rw [hact t]; exact ht⟩
  have hemergency : inEmergencyQueue ctx'.store p.Id = inEmergencyQueue ctx.store p.Id := by
    unfold inEmergencyQueue KVStore.Has
    rw [hem]
  refine ⟨?_, hs, ?_, ?_, ?_, ?_, ?_, ?_, hactive, hemergency, ?_⟩
  · rw [GetProposal_ok_some]
    refine ⟨bz, ?_, hrt p bz hbz⟩
    rw [hstore, Get_submitStore _ _ _ _ _ hs]
    simp
  · rw [hp]; rfl
  · rw [hp]; rfl
  · rw [hp]; rfl
  · rw [hp]; rfl
  · unfold KVStore.Has
    rw [hstore, Get_submitStore _ _ _ _ _ hs]
    simp
  · unfold hasVotingMarker
    rw [KVStore.Has_eq_false, hstore, Get_submitStore _ _ _ _ _ hs]
    simp
  · intro strict hreach
    obtain ⟨c, hinv⟩ := hreach.inv hhook hrt
    have hnc : n = c := by
      have h1 := hinv.counter
      have h2 : ctx.store.Get Key.ProposalIDKey = some (Val.idBytes n) := hn
      rw [h1] at h2
      cases h2
      rfl
    subst hnc
    constructor
    · rw [hactive]
      apply inActiveQueue_eq_false
      intro t
      exact hinv.fresh _ (by simp [Key.proposalID?, hid])
    · rw [hemergency]
      unfold inEmergencyQueue
      rw [KVStore.Has_eq_false]
      exact hinv.fresh _ (by simp [Key.proposalID?, hid])

theorem testRun_reachable :
    Reachable testKeeper (fun _ => false)
      (finalCtx testKeeper (fun _ => false) (testCtx 7 5) testRun) :=
  ⟨7, testCtx 7 5, testRun, [7, 8], rfl, by decide, by decide⟩

theorem SubmitProposal_success_state_witness :
    SubmitProposal testKeeper
      { finalCtx testKeeper (fun _ => false) (testCtx 7 5) testRun with BlockTime := 30 }
      [okMsg] "m" "t" "s" "carol"
      = Outcome.ok
          (finalCtx testKeeper (fun _ => false) (testCtx 7 5)
            (testRun ++ [Op.submit 30 [okMsg] "m" "t" "s" "carol"]))
          (Except.ok (newRecord [okMsg] 9 30 130 "m" "t" "s" "carol")) ∧
    inActiveQueue (finalCtx testKeeper (fun _ => false) (testCtx 7 5) testRun).store 9 = false ∧
    (GetProposal testKeeper
        (finalCtx testKeeper (fun _ => false) (testCtx 7 5)
          (testRun ++ [Op.submit 30 [okMsg] "m" "t" "s" "carol"])) 9
      = Except.ok (some (newRecord [okMsg] 9 30 130 "m" "t" "s" "carol"))) :=
  ⟨rfl, by decide,
    (SubmitProposal_success_state testKeeper testKeeper_HookKeepsStore idCodec_RoundTrip
      (finalCtx testKeeper (fun _ => false) (testCtx 7 5) testRun)
      (finalCtx testKeeper (fun _ => false) (testCtx 7 5)
        (testRun ++ [Op.submit 30 [okMsg] "m" "t" "s" "carol"]))
      30 [okMsg] "m" "t" "s" "carol"
      (newRecord [okMsg] 9 30 130 "m" "t" "s" "carol") rfl).1⟩

/-! ## Activation -/

theorem Coins.isAllGTELoop_isSome (coins coinsB : List Coin)
    (h : ∀ c ∈ coinsB, ValidateDenom c.Denom = true) :
    ∃ b, Coins.isAllGTELoop coins coinsB = some b := by
  induction coinsB with
  | nil => exact ⟨true, rfl⟩
  | cons c rest ih =>
    unfold Coins.isAllGTELoop Coins.AmountOf
    rw [h c (List.mem_cons_self _ _)]
    simp only [if_true]
    split
    · exact ⟨false, rfl⟩
    · exact ih (fun x hx => h x (List.mem_cons_of_mem _ hx))

theorem emergencyCheck_isSome (p : Proposal) (params : Params)
    (h : CoinsWellFormed p params) : ∃ b, emergencyCheck p params = some b := by
  obtain ⟨h1, h2⟩ := h
  unfold emergencyCheck
  cases hc : NewCoins p.TotalDeposit with
  | none => rw [hc] at h1; cases h1
  | some coins =>
    simp only
    unfold Coins.IsAllGTE
    split
    · exact ⟨true, rfl⟩
    · split
      · exact ⟨false, rfl⟩
      · exact Coins.isAllGTELoop_isSome coins _ h2

theorem Get_activateCtx (ctx : Context B) (p : Proposal) (bz : B) (d : Time) (b : Bool)
    (key : Key) (hk : ∀ j, key ≠ Key.EmergencyProposalQueueKey j) :
    (activateCtx ctx p bz d b).store.Get key =
      (activateStore ctx.store (activated p ctx.BlockTime ctx.params.VotingPeriod) bz d
        (Time.Add ctx.BlockTime ctx.params.VotingPeriod)).Get key := by
  rw [activateCtx_store]
  cases b
  · rfl
  · simp only [if_true]
    rw [KVStore.Get_Set]
    simp [hk p.Id]

/-- C5: `ActivateVotingPeriod` at block time `now` with voting period `V`, on a
proposal with deposit deadline `d` (in particular on a stored proposal in the
deposit period that the Inactive Queue indexes under `d`) and with well-formed
coin sets, returns; afterwards the record stored
under the id is the proposal with status `VotingPeriod`,
`voting_start_time = now` and `voting_end_time = now + V`, the Inactive Queue
does not hold the entry `(d, id)`, the Active Queue holds the entry
`(now + V, id)` and the voting-period marker of the id is set. -/
theorem ActivateVotingPeriod_transition (keeper : Keeper B) (hrt : keeper.cdc.RoundTrip)
    (htot : keeper.cdc.Total) (ctx : Context B) (p : Proposal) (d : Time)
    (hd : p.DepositEndTime = some d)
    (hcoins : CoinsWellFormed p ctx.params) :
    ∃ ctx' q, ActivateVotingPeriod keeper ctx p = Outcome.ok ctx' () ∧
      GetProposal keeper ctx' p.Id = Except.ok (some q) ∧
      q = { p with
            Status := ProposalStatus.StatusVotingPeriod,
            VotingStartTime := some ctx.BlockTime,
            VotingEndTime := some (ctx.BlockTime + ctx.params.VotingPeriod) } ∧
      ctx'.store.Has (Key.InactiveProposalQueueKey p.Id d) = false ∧
      ctx'.store.Has (Key.ActiveProposalQueueKey p.Id (ctx.BlockTime + ctx.params.VotingPeriod))
        = true ∧
      hasVotingMarker ctx'.store p.Id = true := by
  obtain ⟨bz, hbz⟩ := htot (activated p ctx.BlockTime ctx.params.VotingPeriod)
  obtain ⟨b, hb⟩ := emergencyCheck_isSome p ctx.params hcoins
  refine ⟨activateCtx ctx p bz d b, activated p ctx.BlockTime ctx.params.VotingPeriod,
    ActivateVotingPeriod_of keeper ctx p bz d b hbz hd hb, ?_, rfl, ?_, ?_, ?_⟩
  · rw [GetProposal_ok_some]
    refine ⟨bz, ?_, hrt _ bz hbz⟩
    rw [Get_activateCtx _ _ _ _ _ _ (by simp), Get_activateStore _ _ _ _ _ _ rfl]
    simp [activated]
  · rw [KVStore.Has_eq_false, Get_activateCtx _ _ _ _ _ _ (by simp),
      Get_activateStore _ _ _ _ _ _ rfl]
    simp [activated]
  · unfold KVStore.Has
    rw [Get_activateCtx _ _ _ _ _ _ (by simp), Get_activateStore _ _ _ _ _ _ rfl]
    simp [activated, Time.Add]
  · unfold hasVotingMarker KVStore.Has
    rw [Get_activateCtx _ _ _ _ _ _ (by simp), Get_activateStore _ _ _ _ _ _ rfl]
    simp [activated]

theorem ActivateVotingPeriod_transition_witness :
    (newRecord [okMsg] 1 5 105 "m" "t" "s" "alice").DepositEndTime = some 105 ∧
    CoinsWellFormed (newRecord [okMsg] 1 5 105 "m" "t" "s" "alice") testParams ∧
    GetProposal testKeeper
      (finalCtx testKeeper (fun _ => false) (testCtx 1 5)
        [Op.submit 5 [okMsg] "m" "t" "s" "alice"]) 1
      = Except.ok (some (newRecord [okMsg] 1 5 105 "m" "t" "s" "alice")) ∧
    ∃ ctx' q,
      ActivateVotingPeriod testKeeper
        { finalCtx testKeeper (fun _ => false) (testCtx 1 5)
            [Op.submit 5 [okMsg] "m" "t" "s" "alice"] with BlockTime := 10 }
        (newRecord [okMsg] 1 5 105 "m" "t" "s" "alice") = Outcome.ok ctx' () ∧
      GetProposal testKeeper ctx' 1 = Except.ok (some q) ∧
      q = { newRecord [okMsg] 1 5 105 "m" "t" "s" "alice" with
            Status := ProposalStatus.StatusVotingPeriod,
            VotingStartTime := some 10,
            VotingEndTime := some (10 + 1000) } ∧
      ctx'.store.Has (Key.InactiveProposalQueueKey 1 105) = false ∧
      ctx'.store.Has (Key.ActiveProposalQueueKey 1 (10 + 1000)) = true ∧
      hasVotingMarker ctx'.store 1 = true :=
  ⟨rfl, ⟨by decide, by decide⟩, rfl,
    ActivateVotingPeriod_transition testKeeper idCodec_RoundTrip idCodec_Total
      { finalCtx testKeeper (fun _ => false) (testCtx 1 5)
          [Op.submit 5 [okMsg] "m" "t" "s" "alice"] with BlockTime := 10 }
      (newRecord [okMsg] 1 5 105 "m" "t" "s" "alice") 105 rfl ⟨by decide, by decide⟩⟩

/-! ## Coins -/

theorem amountIn_nil (d : String) : amountIn [] d = 0 := rfl

theorem amountIn_cons (c : Coin) (l : List Coin) (d : String) :
    amountIn (c :: l) d = (if c.Denom = d then c.Amount else 0) + amountIn l d := by
  unfold amountIn
  by_cases h : c.Denom = d
  · simp [List.filter, h]
  · simp [List.filter, h]

theorem amountIn_filter_nonzero (l : List Coin) (d : String) :
    amountIn (l.filter (fun c => decide (c.Amount ≠ 0))) d = amountIn l d := by
  induction l with
  | nil => rfl
  | cons c rest ih =>
    by_cases hz : c.Amount = 0
    · have : decide (c.Amount ≠ 0) = false := by simp [hz]
      rw [List.filter_cons_of_neg (by simp [hz]), amountIn_cons, ih, hz]
      simp
    · rw [List.filter_cons_of_pos (by simp [hz]), amountIn_cons, amountIn_cons, ih]

theorem amountIn_insertByDenom (c : Coin) (l : List Coin) (d : String) :
    amountIn (insertByDenom c l) d = amountIn (c :: l) d := by
  induction l with
  | nil => rfl
  | cons x rest ih =>
    unfold insertByDenom
    split
    · rfl
    · rw [amountIn_cons, ih, amountIn_cons, amountIn_cons, amountIn_cons]
      ring

theorem amountIn_Sort (l : List Coin) (d : String) :
    amountIn (Coins.Sort l) d = amountIn l d := by
  induction l with
  | nil => rfl
  | cons c rest ih =>
    show amountIn (insertByDenom c (Coins.Sort rest)) d = _
    rw [amountIn_insertByDenom, amountIn_cons, ih, amountIn_cons]

theorem strictlySorted_tail (c : Coin) (l : List Coin) (h : strictlySorted (c :: l) = true) :
    strictlySorted l = true := by
  cases l with
  | nil => rfl
  | cons x rest =>
    simp only [strictlySorted, Bool.and_eq_true] at h
    exact h.2

theorem strictlySorted_head_lt (c : Coin) (l : List Coin)
    (h : strictlySorted (c :: l) = true) : ∀ x ∈ l, c.Denom < x.Denom := by
  induction l generalizing c with
  | nil => intro x hx; cases hx
  | cons y rest ih =>
    simp only [strictlySorted, Bool.and_eq_true, decide_eq_true_eq] at h
    intro x hx
    rcases List.mem_cons.mp hx with hxy | hxr
    · rw [hxy]; exact h.1
    · exact lt_trans h.1 (ih y h.2 x hxr)

theorem amountIn_eq_zero (l : List Coin) (d : String) (h : ∀ x ∈ l, x.Denom ≠ d) :
    amountIn l d = 0 := by
  induction l with
  | nil => rfl
  | cons c rest ih =>
    rw [amountIn_cons, ih (fun x hx => h x (List.mem_cons_of_mem _ hx))]
    simp [h c (List.mem_cons_self _ _)]

theorem AmountOf_eq_amountIn (l : List Coin) (d : String) (h : strictlySorted l = true) :
    Coins.AmountOfNoDenomValidation l d = amountIn l d := by
  induction l with
  | nil => rfl
  | cons c rest ih =>
    unfold Coins.AmountOfNoDenomValidation
    rw [amountIn_cons]
    by_cases hc : c.Denom = d
    · have hrest : amountIn rest d = 0 := by
        apply amountIn_eq_zero
        intro x hx heq
        have := strictlySorted_head_lt c rest h x hx
        rw [hc, heq] at this
        exact lt_irrefl _ this
      simp [List.find?, hc, hrest]
    · have := ih (strictlySorted_tail c rest h)
      unfold Coins.AmountOfNoDenomValidation at this
      simp [List.find?, hc, this]

theorem NewCoins_amount (tot coins : List Coin) (h : NewCoins tot = some coins) (d : String) :
    Coins.AmountOfNoDenomValidation coins d = amountIn tot d := by
  unfold NewCoins at h
  simp only at h
  split at h
  · rename_i hv
    cases h
    unfold Coins.Validate at hv
    simp only [Bool.and_eq_true] at hv
    rw [AmountOf_eq_amountIn _ _ hv.2, amountIn_Sort, amountIn_filter_nonzero]
  · cases h

theorem isAllGTELoop_eq (coins thr : List Coin)
    (hv : ∀ c ∈ thr, ValidateDenom c.Denom = true) :
    Coins.isAllGTELoop coins thr =
      some (decide (∀ c ∈ thr, c.Amount ≤ Coins.AmountOfNoDenomValidation coins c.Denom)) := by
  induction thr with
  | nil => simp [Coins.isAllGTELoop]
  | cons c rest ih =>
    unfold Coins.isAllGTELoop Coins.AmountOf
    rw [hv c (List.mem_cons_self _ _)]
    simp only [if_true]
    by_cases hlt : Coins.AmountOfNoDenomValidation coins c.Denom < c.Amount
    · simp only [hlt, if_true]
      congr 1
      symm
      rw [decide_eq_false_iff_not]
      intro hall
      have := hall c (List.mem_cons_self _ _)
      omega
    · simp only [hlt, if_false]
      rw [ih (fun x hx => hv x (List.mem_cons_of_mem _ hx))]
      congr 1
      rw [decide_eq_decide]
      constructor
      · intro hall x hx
        rcases List.mem_cons.mp hx with h | h
        · rw [h]; omega
        · exact hall x h
      · intro hall x hx
        exact hall x (List.mem_cons_of_mem _ hx)

/-- The emergency test of `ActivateVotingPeriod` on well-formed coin sets with
positive thresholds: every denomination of the minimum is met. -/
theorem emergencyCheck_eq (p : Proposal) (params : Params)
    (hwf : CoinsWellFormed p params)
    (hpos : ∀ c ∈ params.EmergencyMinDeposit, 0 < c.Amount) :
    emergencyCheck p params =
      some (decide (∀ c ∈ params.EmergencyMinDeposit,
        c.Amount ≤ amountIn p.TotalDeposit c.Denom)) := by
  obtain ⟨h1, h2⟩ := hwf
  unfold emergencyCheck
  cases hc : NewCoins p.TotalDeposit with
  | none => rw [hc] at h1; cases h1
  | some coins =>
    simp only
    have hamt := NewCoins_amount p.TotalDeposit coins hc
    unfold Coins.IsAllGTE
    split
    · rename_i hlen
      have hnil : params.EmergencyMinDeposit = [] := List.length_eq_zero.mp hlen
      simp [hnil]
    · rename_i hlen
      split
      · rename_i hlen2
        have hnil : coins = [] := List.length_eq_zero.mp hlen2
        congr 1
        symm
        rw [decide_eq_false_iff_not]
        intro hall
        cases hthr : params.EmergencyMinDeposit with
        | nil => rw [hthr] at hlen; exact hlen rfl
        | cons c rest =>
          have hc1 : c ∈ params.EmergencyMinDeposit := by rw [hthr]; exact List.mem_cons_self _ _
          have h3 := hall c hc1
          have h4 := hpos c hc1
          rw [← hamt, hnil] at h3
          simp [Coins.AmountOfNoDenomValidation] at h3
          omega
      · rw [isAllGTELoop_eq coins _ h2]
        congr 1
        rw [decide_eq_decide]
        constructor
        · intro hall x hx
          rw [← hamt]
          exact hall x hx
        · intro hall x hx
          rw [hamt]
          exact hall x hx

/-- C6: on well-formed coin sets (a total deposit `sdk.NewCoins` accepts, an
emergency minimum of valid denominations with positive amounts),
`ActivateVotingPeriod` returns, and it adds the id to the Emergency Set and
emits the emergency event if the total deposit reaches the threshold amount in
every denomination of the emergency minimum; otherwise it leaves the membership
of the id in the Emergency Set as it was and emits no event. -/
theorem ActivateVotingPeriod_emergency (keeper : Keeper B) (htot : keeper.cdc.Total)
    (ctx : Context B) (p : Proposal) (d : Time)
    (hd : p.DepositEndTime = some d)
    (hwf : CoinsWellFormed p ctx.params)
    (hpos : ∀ c ∈ ctx.params.EmergencyMinDeposit, 0 < c.Amount) :
    ∃ ctx', ActivateVotingPeriod keeper ctx p = Outcome.ok ctx' () ∧
      ((∀ c ∈ ctx.params.EmergencyMinDeposit, c.Amount ≤ amountIn p.TotalDeposit c.Denom) →
        inEmergencyQueue ctx'.store p.Id = true ∧
        ctx'.events = ctx.events ++ [emergencyProposalEvent p.Id]) ∧
      (¬ (∀ c ∈ ctx.params.EmergencyMinDeposit, c.Amount ≤ amountIn p.TotalDeposit c.Denom) →
        inEmergencyQueue ctx'.store p.Id = inEmergencyQueue ctx.store p.Id ∧
        ctx'.events = ctx.events) := by
  obtain ⟨bz, hbz⟩ := htot (activated p ctx.BlockTime ctx.params.VotingPeriod)
  have hb := emergencyCheck_eq p ctx.params hwf hpos
  refine ⟨_, ActivateVotingPeriod_of keeper ctx p bz d _ hbz hd hb, ?_, ?_⟩
  · intro hall
    have hdec : decide (∀ c ∈ ctx.params.EmergencyMinDeposit,
        c.Amount ≤ amountIn p.TotalDeposit c.Denom) = true := decide_eq_true hall
    rw [hdec]
    constructor
    · unfold inEmergencyQueue KVStore.Has
      rw [activateCtx_store]
      simp only [if_true]
      rw [KVStore.Get_Set]
      simp
    · rfl
  · intro hnot
    have hdec : decide (∀ c ∈ ctx.params.EmergencyMinDeposit,
        c.Amount ≤ amountIn p.TotalDeposit c.Denom) = false := decide_eq_false hnot
    rw [hdec]
    constructor
    · unfold inEmergencyQueue KVStore.Has
      rw [activateCtx_store]
      simp only [Bool.false_eq_true, if_false]
      rw [Get_activateStore _ _ _ _ _ _ rfl]
      simp
    · rfl

theorem ActivateVotingPeriod_emergency_witness :
    fundedProposal.DepositEndTime = some 105 ∧
    CoinsWellFormed fundedProposal (testCtx 2 10).params ∧
    (∀ c ∈ (testCtx 2 10).params.EmergencyMinDeposit, 0 < c.Amount) ∧
    (∀ c ∈ (testCtx 2 10).params.EmergencyMinDeposit,
      c.Amount ≤ amountIn fundedProposal.TotalDeposit c.Denom) ∧
    ∃ ctx', ActivateVotingPeriod testKeeper (testCtx 2 10) fundedProposal
        = Outcome.ok ctx' () ∧
      ((∀ c ∈ (testCtx 2 10).params.EmergencyMinDeposit,
          c.Amount ≤ amountIn fundedProposal.TotalDeposit c.Denom) →
        inEmergencyQueue ctx'.store fundedProposal.Id = true ∧
        ctx'.events = (testCtx 2 10).events ++ [emergencyProposalEvent fundedProposal.Id]) ∧
      (¬ (∀ c ∈ (testCtx 2 10).params.EmergencyMinDeposit,
          c.Amount ≤ amountIn fundedProposal.TotalDeposit c.Denom) →
        inEmergencyQueue ctx'.store fundedProposal.Id
          = inEmergencyQueue (testCtx 2 10).store fundedProposal.Id ∧
        ctx'.events = (testCtx 2 10).events) :=
  ⟨rfl, ⟨by decide, by decide⟩, by decide, by decide,
    ActivateVotingPeriod_emergency testKeeper idCodec_Total (testCtx 2 10) fundedProposal 105
      rfl ⟨by decide, by decide⟩ (by decide)⟩

/-! ## Queues and status -/

theorem storedStatus_eq_some (keeper : Keeper B) (ctx : Context B) (i : Nat)
    (st : ProposalStatus) :
    storedStatus keeper ctx i = some st ↔ ∃ p, Stored keeper ctx.store i p ∧ p.Status = st := by
  unfold storedStatus
  constructor
  · intro h
    split at h
    · rename_i p hp
      cases h
      exact ⟨p, (GetProposal_ok_some keeper ctx i p).mp hp, rfl⟩
    · cases h
  · rintro ⟨p, hp, hst⟩
    rw [(GetProposal_ok_some keeper ctx i p).mpr hp]
    simp [hst]

/-- C7 (the claim as stated fails): activate the stored proposal 1 at block
time 10, activate it again at block time 20 and delete it; no record is stored
under the id afterwards, but the Active Queue still holds an entry for it (the
one of the first activation). -/
theorem double_activation_leaves_active_entry :
    runOps testKeeper (fun _ => false) (testCtx 1 5) doubleActivationRun
      = some (finalCtx testKeeper (fun _ => false) (testCtx 1 5) doubleActivationRun, [1]) ∧
    storedStatus testKeeper
      (finalCtx testKeeper (fun _ => false) (testCtx 1 5) doubleActivationRun) 1 = none ∧
    (finalCtx testKeeper (fun _ => false) (testCtx 1 5) doubleActivationRun).store.Has
      (Key.ActiveProposalQueueKey 1 1010) = true ∧
    ¬ (storedStatus testKeeper
        (finalCtx testKeeper (fun _ => false) (testCtx 1 5) doubleActivationRun) 1
        = some ProposalStatus.StatusVotingPeriod ↔
      inActiveQueue
        (finalCtx testKeeper (fun _ => false) (testCtx 1 5) doubleActivationRun).store 1
        = true) :=
  ⟨by decide, by decide, by decide, by decide⟩

/-- C7 (amended): in every context reached from a seeded store by a run of
`SubmitProposal`, `ActivateVotingPeriod` and `DeleteProposal` in which the id
counter does not wrap around, and for every proposal id on which
`ActivateVotingPeriod` is only applied while the stored proposal is in the
deposit period: the stored record has status `DepositPeriod` if and only if the
Inactive Queue holds an entry for the id, it has status `VotingPeriod` if and
only if the Active Queue holds an entry for the id, and the id has no entries in
both queues. -/
theorem queue_status_consistency (keeper : Keeper B) (hhook : keeper.HookKeepsStore)
    (hrt : keeper.cdc.RoundTrip) (strict : Nat → Bool) (ctx : Context B)
    (hreach : Reachable keeper strict ctx) (i : Nat) (hi : strict i = true) :
    (storedStatus keeper ctx i = some ProposalStatus.StatusDepositPeriod ↔
      inInactiveQueue ctx.store i = true) ∧
    (storedStatus keeper ctx i = some ProposalStatus.StatusVotingPeriod ↔
      inActiveQueue ctx.store i = true) ∧
    ¬ (inInactiveQueue ctx.store i = true ∧ inActiveQueue ctx.store i = true) := by
  obtain ⟨c, hinv⟩ := hreach.inv hhook hrt
  have hc := hinv.consistent i hi
  have hin : inInactiveQueue ctx.store i = true →
      ∃ p, Stored keeper ctx.store i p ∧ p.Status = ProposalStatus.StatusDepositPeriod := by
    intro h
    obtain ⟨t, ht⟩ := (inInactiveQueue_iff ctx.store i).mp h
    obtain ⟨v, hv⟩ := Option.isSome_iff_exists.mp ht
    obtain ⟨p, hp, hs, _⟩ := hc.inactive t v hv
    exact ⟨p, hp, hs⟩
  have hact : inActiveQueue ctx.store i = true →
      ∃ p, Stored keeper ctx.store i p ∧ p.Status = ProposalStatus.StatusVotingPeriod := by
    intro h
    obtain ⟨t, ht⟩ := (inActiveQueue_iff ctx.store i).mp h
    obtain ⟨v, hv⟩ := Option.isSome_iff_exists.mp ht
    obtain ⟨p, hp, hs, _⟩ := hc.active t v hv
    exact ⟨p, hp, hs⟩
  refine ⟨⟨?_, ?_⟩, ⟨?_, ?_⟩, ?_⟩
  · intro h
    obtain ⟨p, hp, hs⟩ := (storedStatus_eq_some keeper ctx i _).mp h
    rcases hc.record p hp with ⟨_, t, _, ht⟩ | ⟨hs', _⟩
    · exact (inInactiveQueue_iff ctx.store i).mpr ⟨t, ht⟩
    · rw [hs] at hs'
      cases hs'
  · intro h
    exact (storedStatus_eq_some keeper ctx i _).mpr (hin h)
  · intro h
    obtain ⟨p, hp, hs⟩ := (storedStatus_eq_some keeper ctx i _).mp h
    rcases hc.record p hp with ⟨hs', _⟩ | ⟨_, t, _, ht⟩
    · rw [hs] at hs'
      cases hs'
    · exact (inActiveQueue_iff ctx.store i).mpr ⟨t, ht⟩
  · intro h
    exact (storedStatus_eq_some keeper ctx i _).mpr (hact h)
  · rintro ⟨h1, h2⟩
    obtain ⟨p, hp, hs⟩ := hin h1
    obtain ⟨q, hq, hs'⟩ := hact h2
    have : p = q := hp.unique hq
    subst this
    rw [hs] at hs'
    cases hs'

theorem singleActivationRun_reachable :
    Reachable testKeeper (fun _ => true)
      (finalCtx testKeeper (fun _ => true) (testCtx 1 5) singleActivationRun) :=
  ⟨1, testCtx 1 5, singleActivationRun, [1], rfl, by decide, by decide⟩

theorem queue_status_consistency_witness :
    (fun _ => true) 1 = true ∧
    storedStatus testKeeper
      (finalCtx testKeeper (fun _ => true) (testCtx 1 5) singleActivationRun) 1
      = some ProposalStatus.StatusVotingPeriod ∧
    ((storedStatus testKeeper
        (finalCtx testKeeper (fun _ => true) (testCtx 1 5) singleActivationRun) 1
        = some ProposalStatus.StatusDepositPeriod ↔
      inInactiveQueue
        (finalCtx testKeeper (fun _ => true) (testCtx 1 5) singleActivationRun).store 1
        = true) ∧
    (storedStatus testKeeper
        (finalCtx testKeeper (fun _ => true) (testCtx 1 5) singleActivationRun) 1
        = some ProposalStatus.StatusVotingPeriod ↔
      inActiveQueue
        (finalCtx testKeeper (fun _ => true) (testCtx 1 5) singleActivationRun).store 1
        = true) ∧
    ¬ (inInactiveQueue
        (finalCtx testKeeper (fun _ => true) (testCtx 1 5) singleActivationRun).store 1 = true ∧
      inActiveQueue
        (finalCtx testKeeper (fun _ => true) (testCtx 1 5) singleActivationRun).store 1
        = true)) :=
  ⟨rfl, by decide,
    queue_status_consistency testKeeper testKeeper_HookKeepsStore idCodec_RoundTrip
      (fun _ => true) _ singleActivationRun_reachable 1 rfl⟩

/-! ## Deletion -/

/-- C9 (the code at the failing input): the proposal 1 is submitted and then
activated with a total deposit equal to the emergency minimum, which puts the
id in the Emergency Set; `DeleteProposal` returns and removes the record, and
the id is still a member of the Emergency Set afterwards. -/
theorem DeleteProposal_keeps_emergency_entry :
    ActivateVotingPeriod testKeeper
      { finalCtx testKeeper (fun _ => false) (testCtx 1 5)
          [Op.submit 5 [okMsg] "m" "t" "s" "alice"] with BlockTime := 10 }
      fundedProposal = Outcome.ok emergencyActivated () ∧
    inEmergencyQueue emergencyActivated.store 1 = true ∧
    DeleteProposal testKeeper { emergencyActivated with BlockTime := 30 } 1
      = Outcome.ok emergencyDeleted () ∧
    GetProposal testKeeper emergencyDeleted 1 = Except.ok none ∧
    inActiveQueue emergencyDeleted.store 1 = false ∧
    inEmergencyQueue emergencyDeleted.store 1 = true :=
  ⟨by decide, by decide, by decide, rfl, by decide, by decide⟩

/-! ## Voting times -/

theorem GetProposal_congr (keeper : Keeper B) (ctx ctx' : Context B) (i : Nat)
    (h : ctx'.store.Get (Key.ProposalKey i) = ctx.store.Get (Key.ProposalKey i)) :
    GetProposal keeper ctx' i = GetProposal keeper ctx i := by
  unfold GetProposal
  rw [h]

/-- C10 (the claim as stated fails): after the activation of the proposal 1 at
block time 10 its stored voting times are 10 and 1010; after a second activation
at block time 20 they are 20 and 1020. -/
theorem reactivation_overwrites_voting_times :
    storedVotingTimes testKeeper
      (finalCtx testKeeper (fun _ => false) (testCtx 1 5) singleActivationRun) 1
      = some (some 10, some 1010) ∧
    runOps testKeeper (fun _ => false) (testCtx 1 5) reactivationRun
      = some (finalCtx testKeeper (fun _ => false) (testCtx 1 5) reactivationRun, [1]) ∧
    storedVotingTimes testKeeper
      (finalCtx testKeeper (fun _ => false) (testCtx 1 5) reactivationRun) 1
      = some (some 20, some 1020) ∧
    storedVotingTimes testKeeper
      (finalCtx testKeeper (fun _ => false) (testCtx 1 5) reactivationRun) 1
      ≠ storedVotingTimes testKeeper
        (finalCtx testKeeper (fun _ => false) (testCtx 1 5) singleActivationRun) 1 :=
  ⟨by decide, by decide, by decide, by decide⟩

/-! ## Field lengths -/

theorem assertMetadataLength_too_long (keeper : Keeper B) (text : String)
    (h : keeper.MaxMetadataLen < text.utf8ByteSize) :
    ∃ err, assertMetadataLength keeper text = some err ∧
      err.code = ErrCode.ErrMetadataTooLong := by
  unfold assertMetadataLength
  rw [if_pos h]
  exact ⟨_, rfl, rfl⟩

theorem assertMetadataLength_code (keeper : Keeper B) (text : String) (err : Error)
    (h : assertMetadataLength keeper text = some err) :
    err.code = ErrCode.ErrMetadataTooLong := by
  unfold assertMetadataLength at h
  split at h
  · cases h; rfl
  · cases h

/-- C11: when the metadata, the title or the summary is longer than the
configured maximum, `SubmitProposal` returns an error of kind
`MetadataTooLong` and leaves the context as it was, and it returns this same
error for every other list of messages: no message is examined. -/
theorem SubmitProposal_metadata_too_long (keeper : Keeper B) (ctx : Context B)
    (metadata title summary : String) (proposer : AccAddress)
    (hlong : keeper.MaxMetadataLen < metadata.utf8ByteSize ∨
      keeper.MaxMetadataLen < title.utf8ByteSize ∨
      keeper.MaxMetadataLen < summary.utf8ByteSize) :
    ∃ err, err.code = ErrCode.ErrMetadataTooLong ∧
      ∀ messages' : List Msg,
        SubmitProposal keeper ctx messages' metadata title summary proposer
          = Outcome.ok ctx (Except.error err) := by
  unfold SubmitProposal
  cases h1 : assertMetadataLength keeper metadata with
  | some e => exact ⟨e, assertMetadataLength_code keeper _ e h1, fun _ => rfl⟩
  | none =>
    cases h2 : assertMetadataLength keeper summary with
    | some e => exact ⟨e, assertMetadataLength_code keeper _ e h2, fun _ => rfl⟩
    | none =>
      cases h3 : assertMetadataLength keeper title with
      | some e => exact ⟨e, assertMetadataLength_code keeper _ e h3, fun _ => rfl⟩
      | none =>
        exfalso
        rcases hlong with h | h | h
        · obtain ⟨e, he, _⟩ := assertMetadataLength_too_long keeper _ h
          rw [h1] at he
          cases he
        · obtain ⟨e, he, _⟩ := assertMetadataLength_too_long keeper _ h
          rw [h3] at he
          cases he
        · obtain ⟨e, he, _⟩ := assertMetadataLength_too_long keeper _ h
          rw [h2] at he
          cases he

theorem SubmitProposal_metadata_too_long_witness :
    (testKeeper.MaxMetadataLen < "m".utf8ByteSize ∨
      testKeeper.MaxMetadataLen < "a title of more than ten bytes".utf8ByteSize ∨
      testKeeper.MaxMetadataLen < "s".utf8ByteSize) ∧
    checkMsgs testKeeper (testCtx 1 5) [invalidMsg] ≠ none ∧
    ∃ err, err.code = ErrCode.ErrMetadataTooLong ∧
      ∀ messages' : List Msg,
        SubmitProposal testKeeper (testCtx 1 5) messages' "m"
          "a title of more than ten bytes" "s" "alice"
          = Outcome.ok (testCtx 1 5) (Except.error err) :=
  ⟨Or.inr (Or.inl (by decide)), by decide,
    SubmitProposal_metadata_too_long testKeeper (testCtx 1 5) "m"
      "a title of more than ten bytes" "s" "alice" (Or.inr (Or.inl (by decide)))⟩

/-! ## Deletion of an absent record -/

theorem unmarshal_ne_not_found (s : String) :
    "unmarshal" ≠ "couldn't find proposal with id#" ++ s := by
  intro h
  have h2 := congrArg (fun t => t.data.head?) h
  simp [String.data_append] at h2

/-- C12: `DeleteProposal` on a store that holds no record under the id panics
with the not-found message, and the context carried by the panic is the context
of the call: the store, with its queues and markers, is as before; when a
value is stored under the id, `DeleteProposal` does not raise the not-found
panic. -/
theorem DeleteProposal_not_found (keeper : Keeper B) (ctx : Context B) (proposalID : Nat) :
    (ctx.store.Get (Key.ProposalKey proposalID) = none →
      DeleteProposal keeper ctx proposalID
        = Outcome.panic ctx ("couldn't find proposal with id#" ++ toString proposalID)) ∧
    (ctx.store.Get (Key.ProposalKey proposalID) ≠ none →
      ∀ c, DeleteProposal keeper ctx proposalID
        ≠ Outcome.panic c ("couldn't find proposal with id#" ++ toString proposalID)) := by
  constructor
  · intro h
    unfold DeleteProposal
    rw [(GetProposal_ok_none keeper ctx proposalID).mpr h]
  · intro h c hdel
    unfold DeleteProposal at hdel
    split at hdel
    · rename_i msg hget
      have hmsg : msg = "unmarshal" := by
        unfold GetProposal at hget
        split at hget
        · cases hget
        · split at hget
          · cases hget
          · cases hget; rfl
        · cases hget; rfl
      cases hdel
      exact unmarshal_ne_not_found _ hmsg.symm
    · rename_i hget
      exact h ((GetProposal_ok_none keeper ctx proposalID).mp hget)
    · cases hdel

theorem DeleteProposal_not_found_witness :
    (testCtx 1 5).store.Get (Key.ProposalKey 4) = none ∧
    DeleteProposal testKeeper (testCtx 1 5) 4
      = Outcome.panic (testCtx 1 5) ("couldn't find proposal with id#" ++ toString 4) ∧
    (finalCtx testKeeper (fun _ => false) (testCtx 7 5) testRun).store.Get (Key.ProposalKey 7)
      ≠ none ∧
    ∀ c, DeleteProposal testKeeper (finalCtx testKeeper (fun _ => false) (testCtx 7 5) testRun) 7
      ≠ Outcome.panic c ("couldn't find proposal with id#" ++ toString 7) :=
  ⟨rfl,
    (DeleteProposal_not_found testKeeper (testCtx 1 5) 4).1 rfl,
    by decide,
    (DeleteProposal_not_found testKeeper
      (finalCtx testKeeper (fun _ => false) (testCtx 7 5) testRun) 7).2 (by decide)⟩

/-! ## Records -/

theorem Get_setMarker_record (store : KVStore B) (p : Proposal) (j : Nat) :
    (setMarker store p).Get (Key.ProposalKey j) = store.Get (Key.ProposalKey j) := by
  unfold setMarker
  split
  · rw [KVStore.Get_Set]; simp
  · rw [KVStore.Get_Delete]; simp

/-- C13: with a codec that decodes what it encoded and encodes `p`,
`SetProposal` of `p` returns; afterwards `GetProposal` of the id of `p` returns
`p` as found, whatever was stored under the id before, the voting-period marker
of the id is set if and only if the status of `p` is `VotingPeriod`, and
`GetProposal` of every other id returns what it returned before. -/
theorem SetProposal_then_GetProposal (keeper : Keeper B) (hrt : keeper.cdc.RoundTrip)
    (ctx : Context B) (p : Proposal) (hm : (keeper.cdc.Marshal p).isSome = true) :
    ∃ ctx', SetProposal keeper ctx p = Outcome.ok ctx' () ∧
      GetProposal keeper ctx' p.Id = Except.ok (some p) ∧
      (hasVotingMarker ctx'.store p.Id = true ↔
        p.Status = ProposalStatus.StatusVotingPeriod) ∧
      ∀ j, j ≠ p.Id → GetProposal keeper ctx' j = GetProposal keeper ctx j := by
  obtain ⟨bz, hbz⟩ := Option.isSome_iff_exists.mp hm
  refine ⟨_, SetProposal_of_marshal keeper ctx p bz hbz, ?_, ?_, ?_⟩
  · rw [GetProposal_ok_some]
    refine ⟨bz, ?_, hrt p bz hbz⟩
    show ((setMarker ctx.store p).Set _ _).Get _ = _
    rw [KVStore.Get_Set]
    simp
  · unfold hasVotingMarker KVStore.Has
    show (((setMarker ctx.store p).Set _ _).Get _).isSome = true ↔ _
    rw [KVStore.Get_Set]
    unfold setMarker
    by_cases hs : p.Status = ProposalStatus.StatusVotingPeriod
    · simp [hs, KVStore.Get_Set]
    · simp [hs, KVStore.Get_Delete]
  · intro j hj
    apply GetProposal_congr
    show ((setMarker ctx.store p).Set _ _).Get _ = _
    rw [KVStore.Get_Set, Get_setMarker_record]
    simp [hj]

theorem SetProposal_then_GetProposal_witness :
    (testKeeper.cdc.Marshal fundedProposal).isSome = true ∧
    GetProposal testKeeper
      (finalCtx testKeeper (fun _ => false) (testCtx 1 5) singleActivationRun) 1
      = Except.ok (some (activated (newRecord [okMsg] 1 5 105 "m" "t" "s" "alice") 10 1000)) ∧
    ∃ ctx', SetProposal testKeeper
        (finalCtx testKeeper (fun _ => false) (testCtx 1 5) singleActivationRun) fundedProposal
        = Outcome.ok ctx' () ∧
      GetProposal testKeeper ctx' fundedProposal.Id = Except.ok (some fundedProposal) ∧
      (hasVotingMarker ctx'.store fundedProposal.Id = true ↔
        fundedProposal.Status = ProposalStatus.StatusVotingPeriod) ∧
      ∀ j, j ≠ fundedProposal.Id →
        GetProposal testKeeper ctx' j
          = GetProposal testKeeper
              (finalCtx testKeeper (fun _ => false) (testCtx 1 5) singleActivationRun) j :=
  ⟨rfl, rfl,
    SetProposal_then_GetProposal testKeeper idCodec_RoundTrip
      (finalCtx testKeeper (fun _ => false) (testCtx 1 5) singleActivationRun) fundedProposal
      rfl⟩

/-! ## The id counter -/

/-- C15: `GetProposalID` reads the context and returns no context; it returns
the error that the initial proposal id has not been set if and only if no value
is stored under the key of the counter; after `SetProposalID` of `n` it returns
`n` without error; and on a store without counter a submission that passes the
length checks and the message checks returns that error and leaves the context
as it was. -/
theorem GetProposalID_unset_or_value (keeper : Keeper B) (ctx : Context B) :
    ((∃ err, GetProposalID ctx = Except.ok (Except.error err)) ↔
      ctx.store.Get Key.ProposalIDKey = none) ∧
    (ctx.store.Get Key.ProposalIDKey = none →
      GetProposalID ctx = Except.ok (Except.error
        (Error.Wrap ErrCode.ErrInvalidGenesis "initial proposal ID hasn't been set"))) ∧
    (∀ n, GetProposalID (SetProposalID ctx n) = Except.ok (Except.ok n)) ∧
    (ctx.store.Get Key.ProposalIDKey = none →
      ∀ (messages : List Msg) (metadata title summary : String) (proposer : AccAddress),
        assertMetadataLength keeper metadata = none →
        assertMetadataLength keeper summary = none →
        assertMetadataLength keeper title = none →
        checkMsgs keeper ctx messages = none →
        SubmitProposal keeper ctx messages metadata title summary proposer
          = Outcome.ok ctx (Except.error
              (Error.Wrap ErrCode.ErrInvalidGenesis "initial proposal ID hasn't been set"))) := by
  have hnone : ctx.store.Get Key.ProposalIDKey = none →
      GetProposalID ctx = Except.ok (Except.error
        (Error.Wrap ErrCode.ErrInvalidGenesis "initial proposal ID hasn't been set")) := by
    intro h
    unfold GetProposalID
    rw [h]
  refine ⟨⟨?_, fun h => ⟨_, hnone h⟩⟩, hnone, ?_, ?_⟩
  · rintro ⟨err, h⟩
    unfold GetProposalID at h
    split at h
    · assumption
    · cases h
    · cases h
  · intro n
    rw [GetProposalID_eq_ok]
    show (ctx.store.Set _ _).Get _ = _
    rw [KVStore.Get_Set]
    simp
  · intro h messages metadata title summary proposer h1 h2 h3 h4
    unfold SubmitProposal
    simp only [h1, h2, h3, h4, hnone h]

theorem GetProposalID_unset_or_value_witness :
    ({ testCtx 1 5 with store := [] } : Context Proposal).store.Get Key.ProposalIDKey = none ∧
    assertMetadataLength testKeeper "m" = none ∧
    checkMsgs testKeeper { testCtx 1 5 with store := [] } [okMsg] = none ∧
    SubmitProposal testKeeper { testCtx 1 5 with store := [] } [okMsg] "m" "t" "s" "alice"
      = Outcome.ok { testCtx 1 5 with store := [] } (Except.error
          (Error.Wrap ErrCode.ErrInvalidGenesis "initial proposal ID hasn't been set")) :=
  ⟨rfl, by decide, by decide,
    (GetProposalID_unset_or_value testKeeper { testCtx 1 5 with store := [] }).2.2.2 rfl
      [okMsg] "m" "t" "s" "alice" (by decide) (by decide) (by decide) (by decide)⟩

/-! ## Frame of the activation -/

/-- C18: `ActivateVotingPeriod`, on a proposal with a deposit deadline and
well-formed coin sets, returns; the record stored afterwards under the id has
the id, messages, metadata, title, summary, proposer, tally, submit time,
deposit deadline and total deposit of the proposal passed in (only the status
and the two voting times are set by the call), `GetProposal` of every other id
returns what it returned before, and the id counter is unchanged. -/
theorem ActivateVotingPeriod_frame (keeper : Keeper B) (hrt : keeper.cdc.RoundTrip)
    (htot : keeper.cdc.Total) (ctx : Context B) (p : Proposal) (d : Time)
    (hd : p.DepositEndTime = some d) (hcoins : CoinsWellFormed p ctx.params) :
    ∃ ctx' q, ActivateVotingPeriod keeper ctx p = Outcome.ok ctx' () ∧
      GetProposal keeper ctx' p.Id = Except.ok (some q) ∧
      q.Id = p.Id ∧ q.Messages = p.Messages ∧ q.Metadata = p.Metadata ∧
      q.Title = p.Title ∧ q.Summary = p.Summary ∧ q.Proposer = p.Proposer ∧
      q.FinalTallyResult = p.FinalTallyResult ∧
      q.SubmitTime = p.SubmitTime ∧ q.DepositEndTime = p.DepositEndTime ∧
      q.TotalDeposit = p.TotalDeposit ∧
      (∀ j, j ≠ p.Id → GetProposal keeper ctx' j = GetProposal keeper ctx j) ∧
      GetProposalID ctx' = GetProposalID ctx := by
  obtain ⟨bz, hbz⟩ := htot (activated p ctx.BlockTime ctx.params.VotingPeriod)
  obtain ⟨b, hb⟩ := emergencyCheck_isSome p ctx.params hcoins
  refine ⟨activateCtx ctx p bz d b, activated p ctx.BlockTime ctx.params.VotingPeriod,
    ActivateVotingPeriod_of keeper ctx p bz d b hbz hd hb, ?_, rfl, rfl, rfl, rfl, rfl, rfl,
    rfl, rfl, rfl, rfl, ?_, ?_⟩
  · rw [GetProposal_ok_some]
    refine ⟨bz, ?_, hrt _ bz hbz⟩
    rw [Get_activateCtx _ _ _ _ _ _ (by simp), Get_activateStore _ _ _ _ _ _ rfl]
    simp [activated]
  · intro j hj
    apply GetProposal_congr
    rw [Get_activateCtx _ _ _ _ _ _ (by simp)]
    exact Get_activateStore_other _ _ _ _ _ _ j rfl rfl hj
  · unfold GetProposalID
    rw [Get_activateCtx _ _ _ _ _ _ (by simp), Get_activateStore _ _ _ _ _ _ rfl]
    simp

theorem ActivateVotingPeriod_frame_witness :
    fundedProposal.DepositEndTime = some 105 ∧
    CoinsWellFormed fundedProposal (testCtx 2 10).params ∧
    ∃ ctx' q, ActivateVotingPeriod testKeeper (testCtx 2 10) fundedProposal
        = Outcome.ok ctx' () ∧
      GetProposal testKeeper ctx' fundedProposal.Id = Except.ok (some q) ∧
      q.Id = fundedProposal.Id ∧ q.Messages = fundedProposal.Messages ∧
      q.Metadata = fundedProposal.Metadata ∧
      q.Title = fundedProposal.Title ∧ q.Summary = fundedProposal.Summary ∧
      q.Proposer = fundedProposal.Proposer ∧
      q.FinalTallyResult = fundedProposal.FinalTallyResult ∧
      q.SubmitTime = fundedProposal.SubmitTime ∧
      q.DepositEndTime = fundedProposal.DepositEndTime ∧
      q.TotalDeposit = fundedProposal.TotalDeposit ∧
      (∀ j, j ≠ fundedProposal.Id →
        GetProposal testKeeper ctx' j = GetProposal testKeeper (testCtx 2 10) j) ∧
      GetProposalID ctx' = GetProposalID (testCtx 2 10) :=
  ⟨rfl, ⟨by decide, by decide⟩,
    ActivateVotingPeriod_frame testKeeper idCodec_RoundTrip idCodec_Total (testCtx 2 10)
      fundedProposal 105 rfl ⟨by decide, by decide⟩⟩

/-! ## Order of the admission checks -/

theorem SubmitProposal_first_failure (keeper : Keeper B) (ctx : Context B)
    (pre post : List Msg) (m : Msg) (metadata title summary : String) (proposer : AccAddress)
    (err : Error)
    (h1 : assertMetadataLength keeper metadata = none)
    (h2 : assertMetadataLength keeper summary = none)
    (h3 : assertMetadataLength keeper title = none)
    (hpre : ∀ x ∈ pre, checkMsg keeper ctx x = none)
    (hm : checkMsg keeper ctx m = some err) :
    SubmitProposal keeper ctx (pre ++ m :: post) metadata title summary proposer
      = Outcome.ok ctx (Except.error err) := by
  have hall : checkMsgs keeper ctx (pre ++ m :: post) = some err := by
    rw [checkMsgs_append_cons keeper ctx pre post m hpre, hm]
  unfold SubmitProposal
  simp only [h1, h2, h3, hall]

theorem checkMsg_invalid (keeper : Keeper B) (ctx : Context B) (m : Msg) (e : Error)
    (hv : m.ValidateBasic = some e) :
    checkMsg keeper ctx m = some (Error.Wrap ErrCode.ErrInvalidProposalMsg e.text) := by
  unfold checkMsg
  rw [hv]

theorem checkMsg_signer_count (keeper : Keeper B) (ctx : Context B) (m : Msg)
    (hv : m.ValidateBasic = none) (hs : m.GetSigners.length ≠ 1) :
    checkMsg keeper ctx m = some ErrCode.ErrInvalidSigner.toError := by
  unfold checkMsg
  rw [hv]
  simp only
  rcases hsig : m.GetSigners with _ | ⟨s, _ | ⟨s2, rest⟩⟩
  · rfl
  · rw [hsig] at hs
    exact absurd rfl hs
  · rfl

theorem checkMsg_signer_identity (keeper : Keeper B) (ctx : Context B) (m : Msg)
    (s : AccAddress) (hv : m.ValidateBasic = none) (hs : m.GetSigners = [s])
    (hne : s ≠ keeper.govAddr) :
    checkMsg keeper ctx m = some (Error.Wrap ErrCode.ErrInvalidSigner s) := by
  unfold checkMsg
  rw [hv, hs]
  simp only [hne, ne_eq, not_false_eq_true, if_true]

theorem checkMsg_unroutable (keeper : Keeper B) (ctx : Context B) (m : Msg)
    (hv : m.ValidateBasic = none) (hs : m.GetSigners = [keeper.govAddr])
    (hr : keeper.router m = none) :
    checkMsg keeper ctx m = some (Error.Wrap ErrCode.ErrUnroutableProposalMsg m.TypeURL) := by
  unfold checkMsg
  rw [hv, hs]
  simp only [ne_eq, not_true_eq_false, if_false, hr]

theorem checkMsg_routed (keeper : Keeper B) (ctx : Context B) (m : Msg) (handler : Handler B)
    (hv : m.ValidateBasic = none) (hs : m.GetSigners = [keeper.govAddr])
    (hr : keeper.router m = some handler) :
    checkMsg keeper ctx m =
      if m.isExecLegacyContent then
        match (handler ctx m).2 with
        | some err =>
          if err.isNoProposalHandler then some err
          else some (Error.Wrap ErrCode.ErrInvalidProposalContent err.text)
        | none => none
      else none := by
  unfold checkMsg
  rw [hv, hs]
  simp only [ne_eq, not_true_eq_false, if_false, hr]

/-- C19: with the three field lengths within bounds and every earlier message
passing all checks, the error of `SubmitProposal` is the error of the first
failing check of the message `m`, whatever messages follow it: a message that
fails basic validity gives `InvalidProposalMessage`, whatever its signers and
route are; one that passes it and has not exactly one signer gives
`InvalidSigner`; one whose only signer is not the governance account gives
`InvalidSigner`; one signed by the governance account alone that has no handler
gives `UnroutableProposalMessage`; and for one that has a handler the only error
left is that of the legacy-content pre-flight. -/
theorem SubmitProposal_check_order (keeper : Keeper B) (ctx : Context B)
    (pre post : List Msg) (m : Msg) (metadata title summary : String) (proposer : AccAddress)
    (h1 : assertMetadataLength keeper metadata = none)
    (h2 : assertMetadataLength keeper summary = none)
    (h3 : assertMetadataLength keeper title = none)
    (hpre : ∀ x ∈ pre, checkMsg keeper ctx x = none) :
    (∀ e, m.ValidateBasic = some e →
      SubmitProposal keeper ctx (pre ++ m :: post) metadata title summary proposer
        = Outcome.ok ctx (Except.error (Error.Wrap ErrCode.ErrInvalidProposalMsg e.text))) ∧
    (m.ValidateBasic = none → m.GetSigners.length ≠ 1 →
      SubmitProposal keeper ctx (pre ++ m :: post) metadata title summary proposer
        = Outcome.ok ctx (Except.error ErrCode.ErrInvalidSigner.toError)) ∧
    (∀ s, m.ValidateBasic = none → m.GetSigners = [s] → s ≠ keeper.govAddr →
      SubmitProposal keeper ctx (pre ++ m :: post) metadata title summary proposer
        = Outcome.ok ctx (Except.error (Error.Wrap ErrCode.ErrInvalidSigner s))) ∧
    (m.ValidateBasic = none → m.GetSigners = [keeper.govAddr] → keeper.router m = none →
      SubmitProposal keeper ctx (pre ++ m :: post) metadata title summary proposer
        = Outcome.ok ctx
            (Except.error (Error.Wrap ErrCode.ErrUnroutableProposalMsg m.TypeURL))) ∧
    (∀ handler err, m.ValidateBasic = none → m.GetSigners = [keeper.govAddr] →
      keeper.router m = some handler → checkMsg keeper ctx m = some err →
      m.isExecLegacyContent = true ∧ (handler ctx m).2 ≠ none ∧
      SubmitProposal keeper ctx (pre ++ m :: post) metadata title summary proposer
        = Outcome.ok ctx (Except.error err)) := by
  refine ⟨?_, ?_, ?_, ?_, ?_⟩
  · intro e hv
    exact SubmitProposal_first_failure keeper ctx pre post m metadata title summary proposer _
      h1 h2 h3 hpre (checkMsg_invalid keeper ctx m e hv)
  · intro hv hs
    exact SubmitProposal_first_failure keeper ctx pre post m metadata title summary proposer _
      h1 h2 h3 hpre (checkMsg_signer_count keeper ctx m hv hs)
  · intro s hv hs hne
    exact SubmitProposal_first_failure keeper ctx pre post m metadata title summary proposer _
      h1 h2 h3 hpre (checkMsg_signer_identity keeper ctx m s hv hs hne)
  · intro hv hs hr
    exact SubmitProposal_first_failure keeper ctx pre post m metadata title summary proposer _
      h1 h2 h3 hpre (checkMsg_unroutable keeper ctx m hv hs hr)
  · intro handler err hv hs hr hm
    have hc := checkMsg_routed keeper ctx m handler hv hs hr
    rw [hm] at hc
    refine ⟨?_, ?_, SubmitProposal_first_failure keeper ctx pre post m metadata title summary
      proposer err h1 h2 h3 hpre hm⟩
    · cases hl : m.isExecLegacyContent with
      | true => rfl
      | false => simp [hl] at hc
    · intro hnone
      cases hl : m.isExecLegacyContent with
      | true => simp [hl, hnone] at hc
      | false => simp [hl] at hc

theorem SubmitProposal_check_order_witness :
    assertMetadataLength testKeeper "m" = none ∧
    assertMetadataLength testKeeper "s" = none ∧
    assertMetadataLength testKeeper "t" = none ∧
    (∀ x ∈ [okMsg], checkMsg testKeeper (testCtx 1 5) x = none) ∧
    SubmitProposal testKeeper (testCtx 1 5) ([okMsg] ++ invalidMsg :: [legacyMsg]) "m" "t" "s"
        "alice"
      = Outcome.ok (testCtx 1 5) (Except.error
          (Error.Wrap ErrCode.ErrInvalidProposalMsg
            (Error.Wrap ErrCode.unregistered "empty field").text)) ∧
    SubmitProposal testKeeper (testCtx 1 5)
        ([okMsg] ++ { okMsg with TypeURL := "/unknown" } :: [invalidMsg]) "m" "t" "s" "alice"
      = Outcome.ok (testCtx 1 5) (Except.error
          (Error.Wrap ErrCode.ErrUnroutableProposalMsg "/unknown")) :=
  ⟨by decide, by decide, by decide, by decide,
    (SubmitProposal_check_order testKeeper (testCtx 1 5) [okMsg] [legacyMsg] invalidMsg
      "m" "t" "s" "alice" (by decide) (by decide) (by decide) (by decide)).1 _ rfl,
    (SubmitProposal_check_order testKeeper (testCtx 1 5) [okMsg] [invalidMsg]
      { okMsg with TypeURL := "/unknown" }
      "m" "t" "s" "alice" (by decide) (by decide) (by decide) (by decide)).2.2.2.1 rfl rfl
      rfl⟩

/-! ## Pre-flight of legacy content -/

theorem checkMsg_router_congr (keeper : Keeper B) (router' : Msg → Option (Handler B))
    (ctx : Context B)
    (hsome : ∀ msg, (router' msg).isSome = (keeper.router msg).isSome)
    (hlegacy : ∀ msg, msg.isExecLegacyContent = true → router' msg = keeper.router msg)
    (msg : Msg) :
    checkMsg { keeper with router := router' } ctx msg = checkMsg keeper ctx msg := by
  unfold checkMsg
  cases msg.ValidateBasic with
  | some e => rfl
  | none =>
    simp only
    rcases msg.GetSigners with _ | ⟨s, _ | ⟨s2, rest⟩⟩
    · rfl
    · simp only
      by_cases hs : s = keeper.govAddr
      · simp only [hs, ne_eq, not_true_eq_false, if_false]
        cases hl : msg.isExecLegacyContent with
        | true => rw [hlegacy msg hl]
        | false =>
          have h := hsome msg
          cases hr' : router' msg <;> cases hr : keeper.router msg <;>
            simp [hr', hr] at h ⊢
      · simp only [hs, ne_eq, not_false_eq_true, if_true]
    · rfl

theorem checkMsgs_router_congr (keeper : Keeper B) (router' : Msg → Option (Handler B))
    (ctx : Context B)
    (hsome : ∀ msg, (router' msg).isSome = (keeper.router msg).isSome)
    (hlegacy : ∀ msg, msg.isExecLegacyContent = true → router' msg = keeper.router msg)
    (messages : List Msg) :
    checkMsgs { keeper with router := router' } ctx messages = checkMsgs keeper ctx messages := by
  induction messages with
  | nil => rfl
  | cons m rest ih =>
    simp only [checkMsgs, checkMsg_router_congr keeper router' ctx hsome hlegacy m, ih]

/-- C20: when a legacy content message passes basic validity, is signed by the
governance account alone and has a handler, and the handler run on the cached
context fails with the error `e`, `SubmitProposal` returns `e` itself if the
root of `e` is the no-handler error, and otherwise an error of kind
`InvalidProposalContent` that carries the text of `e`; and the result of
`SubmitProposal` does not depend on the handlers of the other kinds of message:
a router that has handlers for the same messages and the same handlers for the
legacy content messages gives the same result. -/
theorem SubmitProposal_legacy_preflight (keeper : Keeper B) (ctx : Context B)
    (pre post : List Msg) (m : Msg) (handler : Handler B) (e : Error)
    (metadata title summary : String) (proposer : AccAddress)
    (h1 : assertMetadataLength keeper metadata = none)
    (h2 : assertMetadataLength keeper summary = none)
    (h3 : assertMetadataLength keeper title = none)
    (hpre : ∀ x ∈ pre, checkMsg keeper ctx x = none)
    (hv : m.ValidateBasic = none) (hs : m.GetSigners = [keeper.govAddr])
    (hr : keeper.router m = some handler) (hl : m.isExecLegacyContent = true)
    (he : (handler ctx m).2 = some e) :
    (e.code = ErrCode.ErrNoProposalHandlerExists →
      SubmitProposal keeper ctx (pre ++ m :: post) metadata title summary proposer
        = Outcome.ok ctx (Except.error e)) ∧
    (e.code ≠ ErrCode.ErrNoProposalHandlerExists →
      SubmitProposal keeper ctx (pre ++ m :: post) metadata title summary proposer
        = Outcome.ok ctx
            (Except.error (Error.Wrap ErrCode.ErrInvalidProposalContent e.text))) ∧
    (∀ router' : Msg → Option (Handler B),
      (∀ msg, (router' msg).isSome = (keeper.router msg).isSome) →
      (∀ msg, msg.isExecLegacyContent = true → router' msg = keeper.router msg) →
      ∀ messages : List Msg,
        SubmitProposal { keeper with router := router' } ctx messages metadata title summary
          proposer
        = SubmitProposal keeper ctx messages metadata title summary proposer) := by
  have hc := checkMsg_routed keeper ctx m handler hv hs hr
  rw [hl] at hc
  simp only [if_true, he] at hc
  refine ⟨?_, ?_, ?_⟩
  · intro hcode
    have : e.isNoProposalHandler = true := by simp [Error.isNoProposalHandler, hcode]
    rw [this] at hc
    exact SubmitProposal_first_failure keeper ctx pre post m metadata title summary proposer e
      h1 h2 h3 hpre hc
  · intro hcode
    have : e.isNoProposalHandler = false := by simp [Error.isNoProposalHandler, hcode]
    rw [this] at hc
    exact SubmitProposal_first_failure keeper ctx pre post m metadata title summary proposer _
      h1 h2 h3 hpre hc
  · intro router' hsome hlegacy messages
    unfold SubmitProposal
    rw [checkMsgs_router_congr keeper router' ctx hsome hlegacy messages]
    rfl

theorem SubmitProposal_legacy_preflight_witness :
    assertMetadataLength noRouteKeeper "m" = none ∧
    (∀ x ∈ [okMsg], checkMsg noRouteKeeper (testCtx 1 5) x = none) ∧
    legacyMsg.ValidateBasic = none ∧ legacyMsg.GetSigners = [noRouteKeeper.govAddr] ∧
    noRouteKeeper.router legacyMsg = some noRouteHandler ∧
    legacyMsg.isExecLegacyContent = true ∧
    (noRouteHandler (testCtx 1 5) legacyMsg).2
      = some (Error.Wrap ErrCode.ErrNoProposalHandlerExists "text") ∧
    SubmitProposal noRouteKeeper (testCtx 1 5) ([okMsg] ++ legacyMsg :: []) "m" "t" "s" "alice"
      = Outcome.ok (testCtx 1 5)
          (Except.error (Error.Wrap ErrCode.ErrNoProposalHandlerExists "text")) :=
  ⟨by decide, by decide, rfl, rfl, rfl, rfl, rfl,
    (SubmitProposal_legacy_preflight noRouteKeeper (testCtx 1 5) [okMsg] [] legacyMsg
      noRouteHandler (Error.Wrap ErrCode.ErrNoProposalHandlerExists "text") "m" "t" "s" "alice"
      (by decide) (by decide) (by decide) (by decide) rfl rfl rfl rfl rfl).1 rfl⟩

/-! ## Order of the voting times -/

theorem activateCtx_params (ctx : Context B) (p : Proposal) (bz : B) (d : Time) (b : Bool) :
    (activateCtx ctx p bz d b).params = ctx.params := by
  unfold activateCtx
  cases b <;> rfl

theorem applyOp_TimesOK (keeper : Keeper B) (hhook : keeper.HookKeepsStore)
    (hhookp : keeper.HookKeepsParams) (hrt : keeper.cdc.RoundTrip) (strict : Nat → Bool)
    (ctx ctx' : Context B) (op : Op) (ids : List Nat)
    (hinv : TimesOK keeper ctx.store) (hV : 0 ≤ ctx.params.VotingPeriod)
    (hop : ∀ params, op = Op.setParams params → 0 ≤ params.VotingPeriod)
    (h : applyOp keeper strict ctx op = some (ctx', ids)) :
    TimesOK keeper ctx'.store ∧ 0 ≤ ctx'.params.VotingPeriod := by
  cases op with
  | submit now messages metadata title summary proposer =>
    simp only [applyOp] at h
    split at h
    · rename_i ctx1 p hsub
      cases h
      obtain ⟨n, bz, hn, hp, hbz, hctx⟩ := SubmitProposal_ok keeper _ _ _ _ _ _ _ _ hsub
      have hs : p.Status = ProposalStatus.StatusDepositPeriod := by rw [hp]; rfl
      have hstore : ctx'.store
          = submitStore ctx.store p bz (Time.Add now ctx.params.MaxDepositPeriod) := by
        rw [hctx]
        exact hhook _ _
      have hparams : ctx'.params = ctx.params := by
        rw [hctx]
        exact hhookp _ _
      refine ⟨?_, by rw [hparams]; exact hV⟩
      intro i q hq
      by_cases hi : i = p.Id
      · subst hi
        have hnew : Stored keeper ctx'.store p.Id p := by
          refine ⟨bz, ?_, hrt p bz hbz⟩
          rw [hstore, Get_submitStore _ _ _ _ _ hs]
          simp
        have hqp : q = p := hq.unique hnew
        rw [hqp, hp]
        exact Or.inl ⟨rfl, rfl, rfl⟩
      · apply hinv i q
        refine hq.transfer ?_
        rw [hstore]
        exact (Get_submitStore_other _ _ _ _ (Key.ProposalKey i) i hs rfl hi).symm
    · rename_i ctx1 e hsub
      cases h
      have := SubmitProposal_error_context keeper _ _ _ _ _ _ _ _ hsub
      rw [this]
      exact ⟨hinv, hV⟩
    · cases h
  | activate now j =>
    simp only [applyOp] at h
    split at h
    · rename_i p hp
      split at h
      · cases h
      · split at h
        · rename_i ctx1 u hact
          cases h
          obtain ⟨bz, d, b, hbz, hd, _, hctx⟩ := ActivateVotingPeriod_ok keeper _ _ _ hact
          refine ⟨?_, by rw [hctx, activateCtx_params]; exact hV⟩
          intro i q hq
          by_cases hi : i = p.Id
          · subst hi
            have hnew : Stored keeper ctx'.store p.Id
                (activated p now ctx.params.VotingPeriod) := by
              refine ⟨bz, ?_, hrt _ bz hbz⟩
              rw [hctx, Get_activateCtx _ _ _ _ _ _ (by simp),
                Get_activateStore _ _ _ _ _ _ rfl]
              simp [activated]
            have hqp := hq.unique hnew
            rw [hqp]
            refine Or.inr ⟨rfl, now, Time.Add now ctx.params.VotingPeriod, rfl, rfl, ?_⟩
            exact Int.le_add_of_nonneg_right hV
          · apply hinv i q
            refine hq.transfer ?_
            rw [hctx, Get_activateCtx _ _ _ _ _ _ (by simp)]
            exact (Get_activateStore_other _ (activated p now ctx.params.VotingPeriod) _ _ _
              (Key.ProposalKey i) i rfl rfl hi).symm
        · cases h
    · cases h
  | delete now j =>
    simp only [applyOp] at h
    split at h
    · rename_i ctx1 u hdel
      cases h
      obtain ⟨p, hp, hctx⟩ := DeleteProposal_ok keeper _ _ _ hdel
      rw [hctx]
      refine ⟨?_, hV⟩
      rintro i q ⟨bz, hb, hu⟩
      exact hinv i q ⟨bz, Get_deleteStore_some _ _ _ _ _ hb, hu⟩
    · cases h
  | setParams params =>
    simp only [applyOp] at h
    cases h
    exact ⟨hinv, hop params rfl⟩

theorem runOps_TimesOK (keeper : Keeper B) (hhook : keeper.HookKeepsStore)
    (hhookp : keeper.HookKeepsParams) (hrt : keeper.cdc.RoundTrip) (strict : Nat → Bool)
    (ops : List Op) :
    ∀ (ctx ctx' : Context B) (ids : List Nat),
      TimesOK keeper ctx.store → 0 ≤ ctx.params.VotingPeriod →
      (∀ params, Op.setParams params ∈ ops → 0 ≤ params.VotingPeriod) →
      runOps keeper strict ctx ops = some (ctx', ids) →
      TimesOK keeper ctx'.store := by
  induction ops with
  | nil =>
    intro ctx ctx' ids hinv _ _ h
    simp only [runOps] at h
    cases h
    exact hinv
  | cons op rest ih =>
    intro ctx ctx' ids hinv hV hops h
    simp only [runOps] at h
    split at h
    · cases h
    · rename_i ctx1 ids1 hop
      split at h
      · cases h
      · rename_i ctx2 ids2 hrest
        cases h
        obtain ⟨h1, h2⟩ := applyOp_TimesOK keeper hhook hhookp hrt strict ctx ctx1 op ids1 hinv
          hV (fun params hp => hops params (by rw [hp]; exact List.mem_cons_self _ _)) hop
        exact ih ctx1 ctx' ids2 h1 h2
          (fun params hp => hops params (List.mem_cons_of_mem _ hp)) hrest

/-- C14: in every context reached from a seeded store by a run of keeper calls
(submissions, activations of stored proposals, deletions and parameter changes)
in which the configured voting period is never negative, every stored proposal
whose two voting times are set has `voting_start_time ≤ voting_end_time`, and a
stored proposal has both voting times unset if and only if its status is
`DepositPeriod`. -/
theorem voting_times_invariant (keeper : Keeper B) (hhook : keeper.HookKeepsStore)
    (hhookp : keeper.HookKeepsParams) (hrt : keeper.cdc.RoundTrip) (strict : Nat → Bool)
    (seed : Nat) (ctx0 ctx : Context B) (ops : List Op) (ids : List Nat)
    (h0 : ctx0.store = seededStore B seed) (hV : 0 ≤ ctx0.params.VotingPeriod)
    (hops : ∀ params, Op.setParams params ∈ ops → 0 ≤ params.VotingPeriod)
    (hrun : runOps keeper strict ctx0 ops = some (ctx, ids))
    (i : Nat) (p : Proposal) (hst : GetProposal keeper ctx i = Except.ok (some p)) :
    (∀ s e, p.VotingStartTime = some s → p.VotingEndTime = some e → s ≤ e) ∧
    ((p.VotingStartTime = none ∧ p.VotingEndTime = none) ↔
      p.Status = ProposalStatus.StatusDepositPeriod) := by
  have hinv0 : TimesOK keeper ctx0.store := by
    rintro j q ⟨bz, hb, _⟩
    rw [h0] at hb
    have := (Inv.seeded keeper strict seed).records j _ hb
    obtain ⟨r, ⟨bz', hb', _⟩, _⟩ := this
    unfold seededStore KVStore.Get at hb'
    simp [KVStore.Get] at hb'
  have hinv := runOps_TimesOK keeper hhook hhookp hrt strict ops ctx0 ctx ids hinv0 hV hops hrun
  rcases hinv i p ((GetProposal_ok_some keeper ctx i p).mp hst) with
    ⟨hs, h1, h2⟩ | ⟨hs, s, e, h1, h2, hle⟩
  · refine ⟨?_, ?_⟩
    · intro s e hs' _
      rw [h1] at hs'
      cases hs'
    · exact ⟨fun _ => hs, fun _ => ⟨h1, h2⟩⟩
  · refine ⟨?_, ?_⟩
    · intro s' e' hs' he'
      rw [h1] at hs'
      rw [h2] at he'
      cases hs'
      cases he'
      exact hle
    · constructor
      · rintro ⟨h, _⟩
        rw [h1] at h
        cases h
      · intro h
        rw [hs] at h
        cases h

theorem testKeeper_HookKeepsParams : testKeeper.HookKeepsParams := fun _ _ => rfl

theorem voting_times_invariant_witness :
    (testCtx 1 5).store = seededStore Proposal 1 ∧
    0 ≤ (testCtx 1 5).params.VotingPeriod ∧
    runOps testKeeper (fun _ => false) (testCtx 1 5) reactivationRun
      = some (finalCtx testKeeper (fun _ => false) (testCtx 1 5) reactivationRun, [1]) ∧
    GetProposal testKeeper (finalCtx testKeeper (fun _ => false) (testCtx 1 5) reactivationRun) 1
      = Except.ok (some (activated (newRecord [okMsg] 1 5 105 "m" "t" "s" "alice") 20 1000)) ∧
    ((∀ s e, (activated (newRecord [okMsg] 1 5 105 "m" "t" "s" "alice") 20 1000).VotingStartTime
        = some s →
      (activated (newRecord [okMsg] 1 5 105 "m" "t" "s" "alice") 20 1000).VotingEndTime = some e →
      s ≤ e) ∧
    (((activated (newRecord [okMsg] 1 5 105 "m" "t" "s" "alice") 20 1000).VotingStartTime = none ∧
      (activated (newRecord [okMsg] 1 5 105 "m" "t" "s" "alice") 20 1000).VotingEndTime = none) ↔
      (activated (newRecord [okMsg] 1 5 105 "m" "t" "s" "alice") 20 1000).Status
        = ProposalStatus.StatusDepositPeriod)) :=
  ⟨rfl, by decide, by decide, rfl,
    voting_times_invariant testKeeper testKeeper_HookKeepsStore testKeeper_HookKeepsParams
      idCodec_RoundTrip (fun _ => false) 1 (testCtx 1 5)
      (finalCtx testKeeper (fun _ => false) (testCtx 1 5) reactivationRun) reactivationRun [1]
      rfl (by decide)
      (by intro params h; simp [reactivationRun, singleActivationRun] at h) (by decide) 1 _ rfl⟩

/-! ## Iteration -/

theorem mem_insertID (i x : Nat) (l : List Nat) : x ∈ insertID i l ↔ x = i ∨ x ∈ l := by
  induction l with
  | nil => simp [insertID]
  | cons j rest ih =>
    unfold insertID
    split
    · simp
    · split
      · rename_i h
        subst h
        simp
      · simp only [List.mem_cons, ih]
        tauto

theorem pairwise_insertID (i : Nat) (l : List Nat) (h : List.Pairwise (fun a b => a < b) l) :
    List.Pairwise (fun a b => a < b) (insertID i l) := by
  induction l with
  | nil => simp [insertID]
  | cons j rest ih =>
    rw [List.pairwise_cons] at h
    unfold insertID
    split
    · rename_i hij
      rw [List.pairwise_cons]
      refine ⟨?_, List.pairwise_cons.mpr h⟩
      intro x hx
      rcases List.mem_cons.mp hx with hx | hx
      · rw [hx]; exact hij
      · exact lt_trans hij (h.1 x hx)
    · split
      · exact List.pairwise_cons.mpr h
      · rename_i h1 h2
        rw [List.pairwise_cons]
        refine ⟨?_, ih h.2⟩
        intro x hx
        rcases (mem_insertID i x rest).mp hx with hx | hx
        · rw [hx]; omega
        · exact h.1 x hx

theorem pairwise_proposalIDs (store : KVStore B) :
    List.Pairwise (fun a b => a < b) (proposalIDs store) := by
  induction store with
  | nil => exact List.Pairwise.nil
  | cons kv rest ih =>
    obtain ⟨k, v⟩ := kv
    unfold proposalIDs at ih ⊢
    simp only [List.foldr]
    cases k <;> first | exact ih | exact pairwise_insertID _ _ ih

theorem mem_proposalIDs_entry (store : KVStore B) (i : Nat) :
    i ∈ proposalIDs store ↔ ∃ v, (Key.ProposalKey i, v) ∈ store := by
  induction store with
  | nil => simp [proposalIDs]
  | cons kv rest ih =>
    obtain ⟨k, v⟩ := kv
    cases k with
    | ProposalKey j =>
      have hstep : proposalIDs ((Key.ProposalKey j, v) :: rest)
          = insertID j (proposalIDs rest) := rfl
      rw [hstep, mem_insertID]
      constructor
      · rintro (h | h)
        · subst h
          exact ⟨v, List.mem_cons_self _ _⟩
        · obtain ⟨w, hw⟩ := ih.mp h
          exact ⟨w, List.mem_cons_of_mem _ hw⟩
      · rintro ⟨w, hw⟩
        rcases List.mem_cons.mp hw with h | h
        · injection h with h1 _
          injection h1 with h2
          exact Or.inl h2
        · exact Or.inr (ih.mpr ⟨w, h⟩)
    | _ =>
      refine Iff.trans (show _ ↔ i ∈ proposalIDs rest from Iff.rfl) (ih.trans ?_)
      constructor
      · rintro ⟨w, hw⟩
        exact ⟨w, List.mem_cons_of_mem _ hw⟩
      · rintro ⟨w, hw⟩
        rcases List.mem_cons.mp hw with h | h
        · injection h with h1 _
          cases h1
        · exact ⟨w, h⟩

theorem mem_proposalIDs (store : KVStore B) (i : Nat) :
    i ∈ proposalIDs store ↔ store.Get (Key.ProposalKey i) ≠ none := by
  rw [mem_proposalIDs_entry, ← KVStore.Get_isSome_iff, Option.isSome_iff_ne_none]

theorem iterateLoop_eq_visit {σ : Type} (keeper : Keeper B) (ctx : Context B)
    (cb : σ → Proposal → σ × Bool) (ids : List Nat)
    (hids : ∀ i ∈ ids, ∃ p, Stored keeper ctx.store i p) :
    ∀ s, iterateLoop keeper cb
        (ids.filterMap (fun i => (ctx.store.Get (Key.ProposalKey i)).map (fun v => (i, v)))) s
      = Except.ok (visit cb
          (ids.filterMap (fun i =>
            match GetProposal keeper ctx i with
            | Except.ok (some p) => some p
            | _ => none)) s) := by
  induction ids with
  | nil => intro s; rfl
  | cons i rest ih =>
    intro s
    obtain ⟨p, hp⟩ := hids i (List.mem_cons_self _ _)
    have hget := (GetProposal_ok_some keeper ctx i p).mpr hp
    obtain ⟨bz, hb, hu⟩ := hp
    have ih' := ih (fun j hj => hids j (List.mem_cons_of_mem _ hj))
    simp only [List.filterMap_cons, hb, Option.map_some', hget, iterateLoop, hu, visit]
    split
    · rfl
    · exact ih' _

theorem visit_record (stop : Proposal → Bool) (l : List Proposal) :
    ∀ acc : List Proposal,
      visit (fun acc p => (acc ++ [p], stop p)) l acc = acc ++ prefixThrough stop l := by
  induction l with
  | nil => intro acc; simp [visit, prefixThrough]
  | cons p rest ih =>
    intro acc
    unfold visit prefixThrough
    by_cases h : stop p = true
    · simp [h]
    · simp only [h, Bool.false_eq_true, if_false]
      rw [ih]
      simp

theorem prefixThrough_never {α : Type} (l : List α) : prefixThrough (fun _ => false) l = l := by
  induction l with
  | nil => rfl
  | cons a rest ih => simp [prefixThrough, ih]

theorem storedProposals_ids (keeper : Keeper B) (ctx : Context B) (ids : List Nat)
    (hids : ∀ i ∈ ids, ∃ p, Stored keeper ctx.store i p ∧ p.Id = i) :
    (ids.filterMap (fun i =>
      match GetProposal keeper ctx i with
      | Except.ok (some p) => some p
      | _ => none)).map (fun p => p.Id) = ids := by
  induction ids with
  | nil => rfl
  | cons i rest ih =>
    obtain ⟨p, hp, hpid⟩ := hids i (List.mem_cons_self _ _)
    have hget := (GetProposal_ok_some keeper ctx i p).mpr hp
    simp only [List.filterMap_cons, hget, List.map_cons, hpid]
    rw [ih (fun j hj => hids j (List.mem_cons_of_mem _ hj))]

theorem RecordsWellStored.ids (keeper : Keeper B) (ctx : Context B)
    (hwell : RecordsWellStored keeper ctx.store) :
    ∀ i ∈ proposalIDs ctx.store, ∃ p, Stored keeper ctx.store i p ∧ p.Id = i := by
  intro i hi
  have hne := (mem_proposalIDs ctx.store i).mp hi
  cases hv : ctx.store.Get (Key.ProposalKey i) with
  | none => exact absurd hv hne
  | some v => exact hwell i v hv

theorem IterateProposals_eq_visit {σ : Type} (keeper : Keeper B) (ctx : Context B)
    (hwell : RecordsWellStored keeper ctx.store) (cb : σ → Proposal → σ × Bool) (s : σ) :
    IterateProposals keeper ctx cb s = Except.ok (visit cb (storedProposals keeper ctx) s) := by
  unfold IterateProposals KVStorePrefixIterator storedProposals
  apply iterateLoop_eq_visit
  intro i hi
  obtain ⟨p, hp, _⟩ := RecordsWellStored.ids keeper ctx hwell i hi
  exact ⟨p, hp⟩

theorem GetProposals_eq (keeper : Keeper B) (ctx : Context B)
    (hwell : RecordsWellStored keeper ctx.store) :
    GetProposals keeper ctx = Except.ok (storedProposals keeper ctx) := by
  unfold GetProposals
  rw [IterateProposals_eq_visit keeper ctx hwell, visit_record (fun _ => false),
    prefixThrough_never]
  rfl

theorem mem_storedProposals (keeper : Keeper B) (ctx : Context B) (p : Proposal) :
    p ∈ storedProposals keeper ctx ↔ ∃ i, GetProposal keeper ctx i = Except.ok (some p) := by
  unfold storedProposals
  rw [List.mem_filterMap]
  constructor
  · rintro ⟨i, _, h⟩
    refine ⟨i, ?_⟩
    split at h
    · rename_i q hq
      cases h
      exact hq
    · cases h
  · rintro ⟨i, h⟩
    refine ⟨i, ?_, by rw [h]⟩
    rw [mem_proposalIDs]
    obtain ⟨bz, hb, _⟩ := (GetProposal_ok_some keeper ctx i p).mp h
    rw [hb]
    simp

theorem Reachable.wellStored {keeper : Keeper B} {strict : Nat → Bool} {ctx : Context B}
    (hhook : keeper.HookKeepsStore) (hrt : keeper.cdc.RoundTrip)
    (h : Reachable keeper strict ctx) : RecordsWellStored keeper ctx.store := by
  obtain ⟨c, hinv⟩ := h.inv hhook hrt
  exact hinv.records

/-- C16: when every stored record decodes and carries the id of its key, the
list of the stored proposals in key order holds every stored proposal, once,
with ascending ids; `IterateProposals` ends with the state of the callback run
over this list in order, up to and including the first proposal on which it
returns `true`; the proposals a recording callback has visited are that prefix
of the list, the whole list when it never returns `true`; and `GetProposals`
returns the whole list. -/
theorem IterateProposals_key_order (keeper : Keeper B) (ctx : Context B)
    (hwell : RecordsWellStored keeper ctx.store) :
    (∀ p, p ∈ storedProposals keeper ctx ↔
      ∃ i, GetProposal keeper ctx i = Except.ok (some p)) ∧
    List.Pairwise (fun a b => a < b) ((storedProposals keeper ctx).map (fun p => p.Id)) ∧
    (storedProposals keeper ctx).Nodup ∧
    (∀ (σ : Type) (cb : σ → Proposal → σ × Bool) (s : σ),
      IterateProposals keeper ctx cb s
        = Except.ok (visit cb (storedProposals keeper ctx) s)) ∧
    (∀ stop : Proposal → Bool,
      IterateProposals keeper ctx (fun visited p => (visited ++ [p], stop p)) []
        = Except.ok (prefixThrough stop (storedProposals keeper ctx))) ∧
    GetProposals keeper ctx = Except.ok (storedProposals keeper ctx) := by
  have hids : (storedProposals keeper ctx).map (fun p => p.Id) = proposalIDs ctx.store :=
    storedProposals_ids keeper ctx _ (RecordsWellStored.ids keeper ctx hwell)
  have hpw : List.Pairwise (fun a b => a < b)
      ((storedProposals keeper ctx).map (fun p => p.Id)) := by
    rw [hids]
    exact pairwise_proposalIDs ctx.store
  refine ⟨mem_storedProposals keeper ctx, hpw, ?_,
    fun σ cb s => IterateProposals_eq_visit keeper ctx hwell cb s, ?_,
    GetProposals_eq keeper ctx hwell⟩
  · have hnd : ((storedProposals keeper ctx).map (fun p => p.Id)).Nodup :=
      hpw.imp (fun h => ne_of_lt h)
    exact List.Nodup.of_map _ hnd
  · intro stop
    rw [IterateProposals_eq_visit keeper ctx hwell, visit_record]
    rfl

theorem IterateProposals_key_order_witness :
    (storedProposals testKeeper
        (finalCtx testKeeper (fun _ => false) (testCtx 7 5) testRun)).map (fun p => p.Id)
      = [7, 8] ∧
    ((∀ p, p ∈ storedProposals testKeeper
          (finalCtx testKeeper (fun _ => false) (testCtx 7 5) testRun) ↔
      ∃ i, GetProposal testKeeper (finalCtx testKeeper (fun _ => false) (testCtx 7 5) testRun) i
        = Except.ok (some p)) ∧
    List.Pairwise (fun a b => a < b)
      ((storedProposals testKeeper
        (finalCtx testKeeper (fun _ => false) (testCtx 7 5) testRun)).map (fun p => p.Id)) ∧
    (storedProposals testKeeper
      (finalCtx testKeeper (fun _ => false) (testCtx 7 5) testRun)).Nodup ∧
    (∀ (σ : Type) (cb : σ → Proposal → σ × Bool) (s : σ),
      IterateProposals testKeeper (finalCtx testKeeper (fun _ => false) (testCtx 7 5) testRun)
          cb s
        = Except.ok (visit cb
            (storedProposals testKeeper
              (finalCtx testKeeper (fun _ => false) (testCtx 7 5) testRun)) s)) ∧
    (∀ stop : Proposal → Bool,
      IterateProposals testKeeper (finalCtx testKeeper (fun _ => false) (testCtx 7 5) testRun)
          (fun visited p => (visited ++ [p], stop p)) []
        = Except.ok (prefixThrough stop
            (storedProposals testKeeper
              (finalCtx testKeeper (fun _ => false) (testCtx 7 5) testRun)))) ∧
    GetProposals testKeeper (finalCtx testKeeper (fun _ => false) (testCtx 7 5) testRun)
      = Except.ok (storedProposals testKeeper
          (finalCtx testKeeper (fun _ => false) (testCtx 7 5) testRun))) :=
  ⟨by decide,
    IterateProposals_key_order testKeeper
      (finalCtx testKeeper (fun _ => false) (testCtx 7 5) testRun)
      (testRun_reachable.wellStored testKeeper_HookKeepsStore idCodec_RoundTrip)⟩

/-! ## Filtered listing -/

theorem take_drop_all {α : Type} (l : List α) (a k : Nat) (h : l.length ≤ a + k) :
    (l.drop a).take k = l.drop a := by
  apply List.take_of_length_le
  rw [List.length_drop]
  omega

theorem wrapInt_of_fits (x : Int) (h0 : -9223372036854775808 ≤ x)
    (h1 : x < 9223372036854775808) : wrapInt x = x := by
  unfold wrapInt
  omega

theorem paginate_slice {α : Type} (l : List α) (page limit : Int)
    (hfit : 0 < page → page * (if limit ≤ 0 then 100 else limit) < 9223372036854775808) :
    slicePage l (Paginate l.length page limit 100).1 (Paginate l.length page limit 100).2
      = Except.ok (pageOf l page limit) := by
  unfold pageOf slicePage
  by_cases hp : page ≤ 0
  · simp [Paginate, hp]
  · have hp' : 0 < page := by omega
    have hfit' := hfit hp'
    simp only [hp, if_false]
    generalize hlim : (if limit ≤ 0 then (100 : Int) else limit) = lim at hfit'
    have hlimpos : 0 < lim := by
      rw [← hlim]
      split <;> omega
    have hstart : 0 ≤ (page - 1) * lim := Int.mul_nonneg (by omega) (by omega)
    have hsplit : page * lim = (page - 1) * lim + lim := by ring
    have hpag : Paginate l.length page limit 100 =
        if (page - 1) * lim ≥ (l.length : Int) then (-1, -1)
        else ((page - 1) * lim,
          if lim + (page - 1) * lim ≥ (l.length : Int) then (l.length : Int)
          else lim + (page - 1) * lim) := by
      unfold Paginate
      have h100 : ¬ (limit ≤ 0 ∧ (100 : Int) < 0) := by omega
      simp only [hp, if_false, h100, hlim]
      rw [wrapInt_of_fits ((page - 1) * lim) (by omega) (by omega),
        wrapInt_of_fits (lim + (page - 1) * lim) (by omega) (by omega)]
    rw [hpag]
    generalize hst : (page - 1) * lim = start at hstart
    by_cases hout : start ≥ (l.length : Int)
    · simp only [hout, if_true]
      have : l.length ≤ start.toNat := by omega
      simp [List.drop_of_length_le this]
    · simp only [hout, if_false]
      by_cases hend : lim + start ≥ (l.length : Int)
      · simp only [hend, if_true]
        have h1 : ¬ (start < 0 ∨ (l.length : Int) < 0) := by omega
        have h2 : 0 ≤ start ∧ start ≤ (l.length : Int) ∧ (l.length : Int) ≤ (l.length : Int) := by
          omega
        simp only [h1, if_false, sliceRange, h2, and_self, if_true]
        congr 1
        rw [take_drop_all l start.toNat ((l.length : Int) - start).toNat (by omega),
          take_drop_all l start.toNat lim.toNat (by omega)]
      · simp only [hend, if_false]
        have h1 : ¬ (start < 0 ∨ lim + start < 0) := by omega
        have h2 : 0 ≤ start ∧ start ≤ lim + start ∧ lim + start ≤ (l.length : Int) := by omega
        simp only [h1, if_false, sliceRange, h2, and_self, if_true]
        congr 3
        omega

theorem matchesFilters_iff (lookups : Lookups B) (ctx : Context B)
    (params : QueryProposalsParams) (p : Proposal) :
    matchesFilters lookups ctx params p = true ↔ MatchesQuery lookups ctx params p := by
  unfold matchesFilters MatchesQuery
  by_cases hs : ValidProposalStatus params.ProposalStatus = true <;>
    by_cases hv : params.Voter = "" <;>
    by_cases hd : params.Depositor = "" <;>
    simp [hs, hv, hd] <;> tauto

/-- C17 (the claim as stated fails): positions are computed in the type `int`,
which wraps around.  On the store of the test run, which holds two proposals,
the page `2^62 + 1` with the limit 4 starts at the position `2^64`, beyond the
end of the list; the product wraps around to 0, and `GetProposalsFiltered`
returns the first page, the two proposals, not the empty list. -/
theorem GetProposalsFiltered_start_wraps_around :
    (storedProposals testKeeper
        (finalCtx testKeeper (fun _ => false) (testCtx 7 5) testRun)).length = 2 ∧
    (overflowQuery.Page - 1) * overflowQuery.Limit = 18446744073709551616 ∧
    GetProposalsFiltered testKeeper testLookups
        (finalCtx testKeeper (fun _ => false) (testCtx 7 5) testRun) overflowQuery
      = Except.ok (storedProposals testKeeper
          (finalCtx testKeeper (fun _ => false) (testCtx 7 5) testRun)) ∧
    GetProposalsFiltered testKeeper testLookups
        (finalCtx testKeeper (fun _ => false) (testCtx 7 5) testRun) overflowQuery
      ≠ Except.ok [] := by
  refine ⟨rfl, by decide, rfl, ?_⟩
  intro h
  cases h

/-- C17, amended: when every stored record decodes and carries the id of its
key, and the end position `page * limit` of the page fits the type `int` (it is
below `2^63`, with the limit 100 when the limit given is not positive),
`GetProposalsFiltered` returns the requested page of the key-ordered list of the
stored proposals that the loop keeps, that is the positions from
`(page - 1) * limit` up to, and without, `page * limit`, and no proposal for a
page number that is not positive; the loop keeps a proposal exactly when its
status is the status asked for if that status is valid, a vote of the voter is
found if a voter is given, and a deposit of the depositor is found if a
depositor is given; with no filter given the list paginated is the list of all
stored proposals; and a page that starts at or after the end of the list is
empty. -/
theorem GetProposalsFiltered_page (keeper : Keeper B) (lookups : Lookups B)
    (ctx : Context B) (params : QueryProposalsParams)
    (hwell : RecordsWellStored keeper ctx.store)
    (hfit : 0 < params.Page →
      params.Page * (if params.Limit ≤ 0 then 100 else params.Limit) < 9223372036854775808) :
    GetProposalsFiltered keeper lookups ctx params
      = Except.ok (pageOf
          ((storedProposals keeper ctx).filter (matchesFilters lookups ctx params))
          params.Page params.Limit) ∧
    (∀ p, matchesFilters lookups ctx params p = true ↔ MatchesQuery lookups ctx params p) ∧
    (ValidProposalStatus params.ProposalStatus = false → params.Voter = "" →
      params.Depositor = "" →
      GetProposalsFiltered keeper lookups ctx params
        = Except.ok (pageOf (storedProposals keeper ctx) params.Page params.Limit)) ∧
    ((((storedProposals keeper ctx).filter (matchesFilters lookups ctx params)).length : Int)
        ≤ (params.Page - 1) * (if params.Limit ≤ 0 then 100 else params.Limit) →
      GetProposalsFiltered keeper lookups ctx params = Except.ok []) := by
  have hmain : GetProposalsFiltered keeper lookups ctx params
      = Except.ok (pageOf
          ((storedProposals keeper ctx).filter (matchesFilters lookups ctx params))
          params.Page params.Limit) := by
    unfold GetProposalsFiltered
    rw [GetProposals_eq keeper ctx hwell]
    exact paginate_slice
      ((storedProposals keeper ctx).filter (matchesFilters lookups ctx params))
      params.Page params.Limit hfit
  refine ⟨hmain, matchesFilters_iff lookups ctx params, ?_, ?_⟩
  · intro hs hv hd
    rw [hmain]
    congr 2
    apply List.filter_eq_self.mpr
    intro p _
    simp [matchesFilters, hs, hv, hd]
  · intro hlen
    rw [hmain]
    congr 1
    unfold pageOf
    split
    · rfl
    · rename_i hp
      simp only
      have h0 : 0 ≤ (params.Page - 1) * (if params.Limit ≤ 0 then 100 else params.Limit) := by
        apply Int.mul_nonneg
        · omega
        · split <;> omega
      rw [List.drop_of_length_le (by omega)]
      exact List.take_nil

theorem GetProposalsFiltered_page_witness :
    (0 < votingQuery.Page →
      votingQuery.Page * (if votingQuery.Limit ≤ 0 then 100 else votingQuery.Limit)
        < 9223372036854775808) ∧
    GetProposalsFiltered testKeeper testLookups
      (finalCtx testKeeper (fun _ => false) (testCtx 7 5) testRun) votingQuery
      = Except.ok [activated (newRecord [okMsg] 7 5 105 "m" "t" "s" "alice") 10 1000] ∧
    (GetProposalsFiltered testKeeper testLookups
        (finalCtx testKeeper (fun _ => false) (testCtx 7 5) testRun) votingQuery
      = Except.ok (pageOf
          ((storedProposals testKeeper
              (finalCtx testKeeper (fun _ => false) (testCtx 7 5) testRun)).filter
            (matchesFilters testLookups
              (finalCtx testKeeper (fun _ => false) (testCtx 7 5) testRun) votingQuery))
          votingQuery.Page votingQuery.Limit)) :=
  ⟨by decide, rfl,
    (GetProposalsFiltered_page testKeeper testLookups
      (finalCtx testKeeper (fun _ => false) (testCtx 7 5) testRun) votingQuery
      (testRun_reachable.wellStored testKeeper_HookKeepsStore idCodec_RoundTrip)
      (by decide)).1⟩

/-- C21 (the claim as stated fails): on the empty store, `SetProposal` of a
record with id 1 that is in the voting period and has no voting deadline sets
the marker of the id; `DeleteProposal` of the id then removes the record and
leaves the marker: the marker is present and no record is stored. -/
theorem marker_survives_deletion :
    runCalls testKeeper emptyCtx
      [KeeperCall.setProposal 5 votingWithoutDeadline, KeeperCall.delete 6 1]
      = some markerLeftCtx ∧
    hasVotingMarker markerLeftCtx.store 1 = true ∧
    GetProposal testKeeper markerLeftCtx 1 = Except.ok none ∧
    ¬ (hasVotingMarker markerLeftCtx.store 1 = true ↔
      storedStatus testKeeper markerLeftCtx 1 = some ProposalStatus.StatusVotingPeriod) :=
  ⟨by decide, by decide, rfl, by decide⟩

theorem MarkerInv.of_no_records (keeper : Keeper B) (store : KVStore B)
    (hrec : ∀ i, store.Get (Key.ProposalKey i) = none)
    (hmark : ∀ i, store.Get (Key.VotingPeriodProposalKey i) = none) :
    MarkerInv keeper store := by
  have hnone : ∀ i p, ¬ Stored keeper store i p := by
    rintro i p ⟨bz, hb, _⟩
    rw [hrec i] at hb
    cases hb
  constructor
  · intro i v hv
    rw [hrec i] at hv
    cases hv
  · intro i p hp
    exact absurd hp (hnone i p)
  · intro i
    rw [hmark i]
    constructor
    · intro h
      cases h
    · rintro ⟨p, hp, _⟩
      exact absurd hp (hnone i p)

theorem MarkerInv.write {keeper : Keeper B} {store store' : KVStore B}
    (hinv : MarkerInv keeper store) (q : Proposal) (bz : B)
    (hu : keeper.cdc.Unmarshal bz = some q)
    (hq : q.Status = ProposalStatus.StatusVotingPeriod → q.VotingEndTime ≠ none)
    (hrec : ∀ i, store'.Get (Key.ProposalKey i)
      = if i = q.Id then some (Val.encoded bz) else store.Get (Key.ProposalKey i))
    (hmark : ∀ i, store'.Get (Key.VotingPeriodProposalKey i)
      = if i = q.Id then
          (if q.Status = ProposalStatus.StatusVotingPeriod then some Val.marker else none)
        else store.Get (Key.VotingPeriodProposalKey i)) :
    MarkerInv keeper store' := by
  have hnew : Stored keeper store' q.Id q := ⟨bz, by rw [hrec]; simp, hu⟩
  have hold : ∀ i, i ≠ q.Id →
      store'.Get (Key.ProposalKey i) = store.Get (Key.ProposalKey i) := by
    intro i hi
    rw [hrec, if_neg hi]
  constructor
  · intro i v hv
    by_cases hi : i = q.Id
    · subst hi
      exact ⟨q, hnew, rfl⟩
    · rw [hold i hi] at hv
      obtain ⟨p, hp, hpid⟩ := hinv.records i v hv
      exact ⟨p, hp.transfer (hold i hi), hpid⟩
  · intro i p hp hs
    by_cases hi : i = q.Id
    · subst hi
      have : p = q := hp.unique hnew
      rw [this] at hs ⊢
      exact hq hs
    · exact hinv.deadline i p (hp.transfer (hold i hi).symm) hs
  · intro i
    by_cases hi : i = q.Id
    · subst hi
      rw [hmark, if_pos rfl]
      constructor
      · intro h
        refine ⟨q, hnew, ?_⟩
        by_cases hs : q.Status = ProposalStatus.StatusVotingPeriod
        · exact hs
        · rw [if_neg hs] at h
          cases h
      · rintro ⟨p, hp, hs⟩
        have : p = q := hp.unique hnew
        rw [this] at hs
        rw [if_pos hs]
        rfl
    · rw [hmark, if_neg hi, hinv.marker i]
      constructor
      · rintro ⟨p, hp, hs⟩
        exact ⟨p, hp.transfer (hold i hi), hs⟩
      · rintro ⟨p, hp, hs⟩
        exact ⟨p, hp.transfer (hold i hi).symm, hs⟩

theorem MarkerInv.remove {keeper : Keeper B} {store : KVStore B}
    (hinv : MarkerInv keeper store) (p : Proposal) (i : Nat)
    (hp : Stored keeper store i p) :
    MarkerInv keeper (deleteStore store i p) := by
  have hgone : (deleteStore store i p).Get (Key.ProposalKey i) = none := by
    rw [Get_deleteStore]
    simp
  have hnone : ∀ q, ¬ Stored keeper (deleteStore store i p) i q := by
    rintro q ⟨bz, hb, _⟩
    rw [hgone] at hb
    cases hb
  have hold : ∀ key j, key.proposalID? = some j → j ≠ i →
      (deleteStore store i p).Get key = store.Get key :=
    fun key j hk hne => Get_deleteStore_other store i p key j hk hne
  constructor
  · intro j v hv
    by_cases hj : j = i
    · subst hj
      rw [hgone] at hv
      cases hv
    · rw [hold (Key.ProposalKey j) j rfl hj] at hv
      obtain ⟨q, hq, hqid⟩ := hinv.records j v hv
      exact ⟨q, hq.transfer (hold (Key.ProposalKey j) j rfl hj), hqid⟩
  · intro j q hq hs
    by_cases hj : j = i
    · subst hj
      exact absurd hq (hnone q)
    · exact hinv.deadline j q (hq.transfer (hold (Key.ProposalKey j) j rfl hj).symm) hs
  · intro j
    by_cases hj : j = i
    · subst hj
      constructor
      · intro h
        exfalso
        obtain ⟨v, hv⟩ := Option.isSome_iff_exists.mp h
        have hvold := Get_deleteStore_some store j p _ v hv
        obtain ⟨q, hq, hs⟩ := (hinv.marker j).mp (by rw [hvold]; rfl)
        have hqp : q = p := hq.unique hp
        rw [hqp] at hs
        have hdl := hinv.deadline j p hp hs
        rw [Get_deleteStore] at hv
        simp [hdl] at hv
      · rintro ⟨q, hq, _⟩
        exact absurd hq (hnone q)
    · rw [hold (Key.VotingPeriodProposalKey j) j rfl hj, hinv.marker j]
      constructor
      · rintro ⟨q, hq, hs⟩
        exact ⟨q, hq.transfer (hold (Key.ProposalKey j) j rfl hj), hs⟩
      · rintro ⟨q, hq, hs⟩
        exact ⟨q, hq.transfer (hold (Key.ProposalKey j) j rfl hj).symm, hs⟩

theorem Get_setMarker_marker (store : KVStore B) (p : Proposal) (i : Nat) :
    (setMarker store p).Get (Key.VotingPeriodProposalKey i)
      = if i = p.Id then
          (if p.Status = ProposalStatus.StatusVotingPeriod then some Val.marker else none)
        else store.Get (Key.VotingPeriodProposalKey i) := by
  unfold setMarker
  by_cases hs : p.Status = ProposalStatus.StatusVotingPeriod
  · simp only [hs, if_true]
    rw [KVStore.Get_Set]
    simp
  · simp only [hs, if_false]
    rw [KVStore.Get_Delete]
    simp

theorem applyCall_MarkerInv (keeper : Keeper B) (hhook : keeper.HookKeepsStore)
    (hrt : keeper.cdc.RoundTrip) (ctx ctx' : Context B) (call : KeeperCall)
    (hinv : MarkerInv keeper ctx.store) (hcall : call.votingDeadlineSet)
    (h : applyCall keeper ctx call = some ctx') :
    MarkerInv keeper ctx'.store := by
  cases call with
  | setProposal now p =>
    simp only [applyCall] at h
    split at h
    · rename_i ctx1 u hset
      cases h
      obtain ⟨bz, hbz, hctx⟩ := SetProposal_ok keeper _ _ _ hset
      rw [hctx]
      refine hinv.write p bz (hrt p bz hbz) hcall ?_ ?_
      · intro i
        show ((setMarker ctx.store p).Set _ _).Get _ = _
        rw [KVStore.Get_Set, Get_setMarker_record]
        simp
      · intro i
        show ((setMarker ctx.store p).Set _ _).Get _ = _
        rw [KVStore.Get_Set, Get_setMarker_marker]
        simp
    · cases h
  | submit now messages metadata title summary proposer =>
    simp only [applyCall] at h
    split at h
    · rename_i ctx1 r hsub
      cases h
      cases r with
      | error e =>
        have := SubmitProposal_error_context keeper _ _ _ _ _ _ _ _ hsub
        rw [this]
        exact hinv
      | ok p =>
        obtain ⟨n, bz, hn, hp, hbz, hctx⟩ := SubmitProposal_ok keeper _ _ _ _ _ _ _ _ hsub
        have hs : p.Status = ProposalStatus.StatusDepositPeriod := by rw [hp]; rfl
        have hstore : ctx'.store
            = submitStore ctx.store p bz (Time.Add now ctx.params.MaxDepositPeriod) := by
          rw [hctx]
          exact hhook _ _
        rw [hstore]
        refine hinv.write p bz (hrt p bz hbz) (fun h => by rw [hs] at h; cases h) ?_ ?_
        · intro i
          rw [Get_submitStore _ _ _ _ _ hs]
          simp
        · intro i
          rw [Get_submitStore _ _ _ _ _ hs]
          simp [hs]
    · cases h
  | activate now p =>
    simp only [applyCall] at h
    split at h
    · rename_i ctx1 u hact
      cases h
      obtain ⟨bz, d, b, hbz, hd, _, hctx⟩ := ActivateVotingPeriod_ok keeper _ _ _ hact
      rw [hctx]
      refine hinv.write (activated p now ctx.params.VotingPeriod) bz (hrt _ bz hbz)
        (fun _ => by simp [activated]) ?_ ?_
      · intro i
        rw [Get_activateCtx _ _ _ _ _ _ (by simp), Get_activateStore _ _ _ _ _ _ rfl]
        simp
      · intro i
        rw [Get_activateCtx _ _ _ _ _ _ (by simp), Get_activateStore _ _ _ _ _ _ rfl]
        simp [activated]
    · cases h
  | delete now i =>
    simp only [applyCall] at h
    split at h
    · rename_i ctx1 u hdel
      cases h
      obtain ⟨p, hp, hctx⟩ := DeleteProposal_ok keeper _ _ _ hdel
      rw [hctx]
      exact hinv.remove p i ((GetProposal_ok_some keeper _ i p).mp hp)
    · cases h
  | setParams params =>
    simp only [applyCall] at h
    cases h
    exact hinv

theorem runCalls_MarkerInv (keeper : Keeper B) (hhook : keeper.HookKeepsStore)
    (hrt : keeper.cdc.RoundTrip) (calls : List KeeperCall) :
    ∀ (ctx ctx' : Context B), MarkerInv keeper ctx.store →
      (∀ call ∈ calls, call.votingDeadlineSet) →
      runCalls keeper ctx calls = some ctx' → MarkerInv keeper ctx'.store := by
  induction calls with
  | nil =>
    intro ctx ctx' hinv _ h
    simp only [runCalls] at h
    cases h
    exact hinv
  | cons call rest ih =>
    intro ctx ctx' hinv hcalls h
    simp only [runCalls] at h
    split at h
    · cases h
    · rename_i ctx1 hcall
      exact ih ctx1 ctx'
        (applyCall_MarkerInv keeper hhook hrt ctx ctx1 call hinv
          (hcalls call (List.mem_cons_self _ _)) hcall)
        (fun c hc => hcalls c (List.mem_cons_of_mem _ hc)) h

/-- C21 (amended): in every context reached from an empty store, or from a store
that holds only the seed of the id counter, by a sequence of `SetProposal`,
`SubmitProposal`, `ActivateVotingPeriod` and `DeleteProposal` in which every
proposal given to `SetProposal` with status `VotingPeriod` has a voting
deadline, the voting-period marker of an id is present if and only if a record
with that id is stored and its status is `VotingPeriod`. -/
theorem marker_iff_voting_record (keeper : Keeper B) (hhook : keeper.HookKeepsStore)
    (hrt : keeper.cdc.RoundTrip) (ctx0 ctx : Context B) (calls : List KeeperCall)
    (h0 : ctx0.store = [] ∨ ∃ seed, ctx0.store = seededStore B seed)
    (hcalls : ∀ call ∈ calls, call.votingDeadlineSet)
    (hrun : runCalls keeper ctx0 calls = some ctx) (i : Nat) :
    hasVotingMarker ctx.store i = true ↔
      ∃ p, GetProposal keeper ctx i = Except.ok (some p) ∧ p.Id = i ∧
        p.Status = ProposalStatus.StatusVotingPeriod := by
  have hinv0 : MarkerInv keeper ctx0.store := by
    apply MarkerInv.of_no_records
    · intro j
      rcases h0 with h | ⟨seed, h⟩
      · rw [h]; rfl
      · rw [h]; simp [seededStore, KVStore.Get]
    · intro j
      rcases h0 with h | ⟨seed, h⟩
      · rw [h]; rfl
      · rw [h]; simp [seededStore, KVStore.Get]
  have hinv := runCalls_MarkerInv keeper hhook hrt calls ctx0 ctx hinv0 hcalls hrun
  unfold hasVotingMarker KVStore.Has
  rw [hinv.marker i]
  constructor
  · rintro ⟨p, hp, hs⟩
    have ⟨bz, hb, _⟩ := hp
    obtain ⟨q, hq, hqid⟩ := hinv.records i _ hb
    have hqp : q = p := hq.unique hp
    rw [hqp] at hqid
    exact ⟨p, (GetProposal_ok_some keeper ctx i p).mpr hp, hqid, hs⟩
  · rintro ⟨p, hp, _, hs⟩
    exact ⟨p, (GetProposal_ok_some keeper ctx i p).mp hp, hs⟩

theorem marker_iff_voting_record_witness :
    ((testCtx 1 5).store = [] ∨ ∃ seed, (testCtx 1 5).store = seededStore Proposal seed) ∧
    (∀ call ∈ testCalls, call.votingDeadlineSet) ∧
    runCalls testKeeper (testCtx 1 5) testCalls
      = some (finalOfCalls testKeeper (testCtx 1 5) testCalls) ∧
    hasVotingMarker (finalOfCalls testKeeper (testCtx 1 5) testCalls).store 1 = true ∧
    hasVotingMarker (finalOfCalls testKeeper (testCtx 1 5) testCalls).store 2 = false ∧
    (hasVotingMarker (finalOfCalls testKeeper (testCtx 1 5) testCalls).store 1 = true ↔
      ∃ p, GetProposal testKeeper (finalOfCalls testKeeper (testCtx 1 5) testCalls) 1
          = Except.ok (some p) ∧ p.Id = 1 ∧
        p.Status = ProposalStatus.StatusVotingPeriod) :=
  have hcalls : ∀ call ∈ testCalls, call.votingDeadlineSet := by
    intro call hc
    simp only [testCalls, List.mem_cons, List.mem_singleton, List.not_mem_nil, or_false] at hc
    rcases hc with h | h | h | h <;> subst h
    · trivial
    · trivial
    · intro hs
      cases hs
    · trivial
  ⟨Or.inr ⟨1, rfl⟩, hcalls, by decide, by decide, by decide,
    marker_iff_voting_record testKeeper testKeeper_HookKeepsStore idCodec_RoundTrip
      (testCtx 1 5) (finalOfCalls testKeeper (testCtx 1 5) testCalls) testCalls
      (Or.inr ⟨1, rfl⟩) hcalls (by decide) 1⟩

/-! ## Voting times under every keeper call -/

theorem storedVotingTimes_congr (keeper : Keeper B) (ctx ctx' : Context B) (i : Nat)
    (h : GetProposal keeper ctx' i = GetProposal keeper ctx i) :
    storedVotingTimes keeper ctx' i = storedVotingTimes keeper ctx i := by
  unfold storedVotingTimes
  rw [h]

theorem applyCall_record_frame (keeper : Keeper B) (hhook : keeper.HookKeepsStore)
    (ctx ctx' : Context B) (i : Nat) (call : KeeperCall)
    (h : applyCall keeper ctx call = some ctx') (hw : ¬ call.writesRecord ctx i) :
    ctx'.store.Get (Key.ProposalKey i) = ctx.store.Get (Key.ProposalKey i) := by
  cases call with
  | setProposal now p =>
    have hne : i ≠ p.Id := fun e => hw e.symm
    simp only [applyCall] at h
    split at h
    · rename_i ctx1 u hset
      cases h
      obtain ⟨bz, _, hctx⟩ := SetProposal_ok keeper _ _ _ hset
      rw [hctx]
      show ((setMarker ctx.store p).Set _ _).Get _ = _
      rw [KVStore.Get_Set, Get_setMarker_record]
      simp [hne]
    · cases h
  | submit now messages metadata title summary proposer =>
    simp only [applyCall] at h
    split at h
    · rename_i ctx1 r hsub
      cases h
      cases r with
      | error e =>
        have := SubmitProposal_error_context keeper _ _ _ _ _ _ _ _ hsub
        rw [this]
      | ok p =>
        obtain ⟨n, bz, hn, hp, _, hctx⟩ := SubmitProposal_ok keeper _ _ _ _ _ _ _ _ hsub
        have hs : p.Status = ProposalStatus.StatusDepositPeriod := by rw [hp]; rfl
        have hid : p.Id = n := by rw [hp]; rfl
        have hne : i ≠ p.Id := by
          intro e
          apply hw
          show GetProposalID ctx = Except.ok (Except.ok i)
          rw [GetProposalID_eq_ok, e, hid]
          exact hn
        have hstore : ctx'.store
            = submitStore ctx.store p bz (Time.Add now ctx.params.MaxDepositPeriod) := by
          rw [hctx]
          exact hhook _ _
        rw [hstore]
        exact Get_submitStore_other _ _ _ _ _ i hs rfl hne
    · cases h
  | activate now p =>
    have hne : i ≠ p.Id := fun e => hw e.symm
    simp only [applyCall] at h
    split at h
    · rename_i ctx1 u hact
      cases h
      obtain ⟨bz, d, b, _, _, _, hctx⟩ := ActivateVotingPeriod_ok keeper _ _ _ hact
      rw [hctx, Get_activateCtx _ _ _ _ _ _ (by simp)]
      exact Get_activateStore_other _ (activated p now ctx.params.VotingPeriod) _ _ _ _ i
        rfl rfl hne
    · cases h
  | delete now j =>
    have hne : i ≠ j := fun e => hw e.symm
    simp only [applyCall] at h
    split at h
    · rename_i ctx1 u hdel
      cases h
      obtain ⟨q, _, hctx⟩ := DeleteProposal_ok keeper _ _ _ hdel
      rw [hctx]
      exact Get_deleteStore_other _ _ _ _ i rfl hne
    · cases h
  | setParams params =>
    simp only [applyCall] at h
    cases h
    rfl

/-- C10, amended: a keeper call changes the record stored under an id, and with
it the stored voting times, only if it is `SetProposal` or
`ActivateVotingPeriod` given a proposal with that id, `DeleteProposal` of the
id, or a `SubmitProposal` made while the counter holds the id; every other
call, `SetProposalID` and a change of the parameters included, leaves them as
they are.  `ActivateVotingPeriod`, whatever the status and the voting times of
the proposal it is given, stores it with `voting_start_time` equal to the block
time of the call and `voting_end_time` equal to that time plus the voting
period, so that a second activation replaces the times of the first; and
`SetProposal` stores the voting times of the proposal it is given. -/
theorem voting_times_changed_only_by_record_writes (keeper : Keeper B)
    (hhook : keeper.HookKeepsStore) (hrt : keeper.cdc.RoundTrip) (ctx : Context B)
    (i : Nat) :
    (∀ call ctx', applyCall keeper ctx call = some ctx' → ¬ call.writesRecord ctx i →
      GetProposal keeper ctx' i = GetProposal keeper ctx i ∧
      storedVotingTimes keeper ctx' i = storedVotingTimes keeper ctx i) ∧
    (∀ n, GetProposal keeper (SetProposalID ctx n) i = GetProposal keeper ctx i ∧
      storedVotingTimes keeper (SetProposalID ctx n) i = storedVotingTimes keeper ctx i) ∧
    (∀ now p ctx', p.Id = i →
      applyCall keeper ctx (KeeperCall.activate now p) = some ctx' →
      GetProposal keeper ctx' i
        = Except.ok (some
          { p with
            Status := ProposalStatus.StatusVotingPeriod,
            VotingStartTime := some now,
            VotingEndTime := some (now + ctx.params.VotingPeriod) }) ∧
      storedVotingTimes keeper ctx' i
        = some (some now, some (now + ctx.params.VotingPeriod))) ∧
    (∀ now p ctx', p.Id = i →
      applyCall keeper ctx (KeeperCall.setProposal now p) = some ctx' →
      GetProposal keeper ctx' i = Except.ok (some p) ∧
      storedVotingTimes keeper ctx' i = some (p.VotingStartTime, p.VotingEndTime)) := by
  refine ⟨?_, ?_, ?_, ?_⟩
  · intro call ctx' h hw
    have hget := GetProposal_congr keeper ctx ctx' i
      (applyCall_record_frame keeper hhook ctx ctx' i call h hw)
    exact ⟨hget, storedVotingTimes_congr keeper ctx _ i hget⟩
  · intro n
    have hget : GetProposal keeper (SetProposalID ctx n) i = GetProposal keeper ctx i := by
      apply GetProposal_congr
      show (ctx.store.Set _ _).Get _ = _
      rw [KVStore.Get_Set]
      simp
    exact ⟨hget, storedVotingTimes_congr keeper ctx _ i hget⟩
  · intro now p ctx' hid h
    simp only [applyCall] at h
    split at h
    · rename_i ctx1 u hact
      cases h
      obtain ⟨bz, d, b, hbz, _, _, hctx⟩ := ActivateVotingPeriod_ok keeper _ _ _ hact
      have hget : GetProposal keeper ctx' i
          = Except.ok (some (activated p now ctx.params.VotingPeriod)) := by
        rw [GetProposal_ok_some]
        refine ⟨bz, ?_, hrt _ bz hbz⟩
        rw [hctx, Get_activateCtx _ _ _ _ _ _ (by simp), Get_activateStore _ _ _ _ _ _ rfl]
        simp [activated, hid]
      refine ⟨hget, ?_⟩
      unfold storedVotingTimes
      rw [hget]
      rfl
    · cases h
  · intro now p ctx' hid h
    simp only [applyCall] at h
    split at h
    · rename_i ctx1 u hset
      cases h
      obtain ⟨bz, hbz, hctx⟩ := SetProposal_ok keeper _ _ _ hset
      have hget : GetProposal keeper ctx' i = Except.ok (some p) := by
        rw [GetProposal_ok_some]
        refine ⟨bz, ?_, hrt _ bz hbz⟩
        rw [hctx]
        show ((setMarker ctx.store p).Set _ _).Get _ = _
        rw [KVStore.Get_Set]
        simp [hid]
      refine ⟨hget, ?_⟩
      unfold storedVotingTimes
      rw [hget]
    · cases h

theorem voting_times_changed_only_by_record_writes_witness :
    storedVotingTimes testKeeper
      (finalCtx testKeeper (fun _ => false) (testCtx 1 5) singleActivationRun) 1
      = some (some 10, some 1010) ∧
    applyCall testKeeper
      (finalCtx testKeeper (fun _ => false) (testCtx 1 5) singleActivationRun)
      (KeeperCall.activate 20 (activated (newRecord [okMsg] 1 5 105 "m" "t" "s" "alice") 10 1000))
      = some (finalCtx testKeeper (fun _ => false) (testCtx 1 5) reactivationRun) ∧
    storedVotingTimes testKeeper
      (finalCtx testKeeper (fun _ => false) (testCtx 1 5) reactivationRun) 1
      = some (some 20,
          some (20 + (finalCtx testKeeper (fun _ => false) (testCtx 1 5)
            singleActivationRun).params.VotingPeriod)) :=
  ⟨by decide, by decide,
    ((voting_times_changed_only_by_record_writes testKeeper testKeeper_HookKeepsStore
      idCodec_RoundTrip
      (finalCtx testKeeper (fun _ => false) (testCtx 1 5) singleActivationRun) 1).2.2.1
      20 (activated (newRecord [okMsg] 1 5 105 "m" "t" "s" "alice") 10 1000)
      (finalCtx testKeeper (fun _ => false) (testCtx 1 5) reactivationRun) rfl
      (by decide)).2⟩

end Gov
